import Mathlib

/-!
Host orchestration of the high-bandwidth GZIP reference design.

A shallow embedding of `CompressFile` (gzip.cpp): the buffer setup loop, the
submission loop, the wait barrier, the size validation and CRC reconciliation,
the writer/comparator calls and the cleanup.  The run is a function from the
things the host cannot decide (file size, allocation results, what the device
copies back, what the writer and comparator return) to a return code and a
trace of the allocations, releases, submissions, waits, external calls and
messages it makes, in program order.

Pointers are natural numbers, `0` is `NULL`, and every successful allocation
returns an address that was never returned before.
-/

namespace Gzip

/-! ## Constants and machine arithmetic -/

/-- Constants and type sizes that gzip.cpp takes from kernels.hpp and from the
build (`FPGA_EMULATOR`), and the quantum of the CRC kernel, in bytes, which
`Crc32` of crc32.hpp shares with the kernel; they are parameters of the
embedding. -/
structure Consts where
  kVec : Nat
  kNumEngines : Nat
  kMinBufferSize : Nat
  sizeofKernelInfo : Nat
  sizeofGzipOutInfo : Nat
  fpgaEmulator : Bool
  crcQuantum : Nat

/-- The value of a `size_t` expression: arithmetic modulo `2^64`. -/
def wrapSizeT (n : Nat) : Nat := n % 2 ^ 64

/-- Conversion of an unsigned value to a 32-bit `int` (two's complement). -/
def toInt32 (n : Nat) : Int :=
  if n % 2 ^ 32 < 2 ^ 31 then ((n % 2 ^ 32 : Nat) : Int) else ((n % 2 ^ 32 : Nat) : Int) - 2 ^ 32

/-- Conversion of an `int` to `size_t`, as in `isz < minimum_filesize` and
`malloc(outputSize)`. -/
def toSizeT (z : Int) : Nat := (z % 2 ^ 64).toNat

/-- Line 26: `constexpr int minimum_filesize = kVec + 1;` -/
def minimum_filesize (c : Consts) : Int := toInt32 (c.kVec + 1)

/-- Line 262: `constexpr size_t kInOutPadding = 16 * kVec;` -/
def kInOutPadding (c : Consts) : Nat := wrapSizeT (16 * c.kVec)

/-- Line 307: `int outputSize = ((isz + kInOutPadding) < kMinBufferSize) ? kMinBufferSize
: (isz + kInOutPadding);` : the conditional is evaluated in `size_t` and the
result is stored in an `int`. -/
def outputSize (c : Consts) (isz : Nat) : Int :=
  toInt32 (if wrapSizeT (isz + kInOutPadding c) < c.kMinBufferSize then c.kMinBufferSize
    else wrapSizeT (isz + kInOutPadding c))

/-- Line 308: `const size_t input_alloc_size = isz + kInOutPadding;` -/
def input_alloc_size (c : Consts) (isz : Nat) : Nat := wrapSizeT (isz + kInOutPadding c)

/-! ## CRC-32 -/

/-- Modelled from the spec: one bit of the bitwise-reflected CRC-32 of gzip
(polynomial `0xEDB88320`), part of `Crc32` of crc32.hpp, which is not among the
sources. -/
def crcShift (c : Nat) : Nat :=
  if c % 2 = 1 then (c / 2) ^^^ 0xEDB88320 else c / 2

/-- Modelled from the spec: one byte of input folded into the running value,
byte at a time, by eight shifts; part of `Crc32` of crc32.hpp. -/
def crcByte (c b : Nat) : Nat :=
  crcShift (crcShift (crcShift (crcShift (crcShift (crcShift (crcShift (crcShift
    (c ^^^ (b % 256)))))))))

/-- Modelled from the spec: the running value after the `n` bytes
`buf i, ..., buf (i + n - 1)`; part of `Crc32` of crc32.hpp. -/
def crcRun (buf : Nat → Nat) : Nat → Nat → Nat → Nat
  | 0, _, c => c
  | n + 1, i, c => crcRun buf n (i + 1) (crcByte c (buf i))

/-- Modelled from the spec: the CRC-32 continued over the `n` bytes
`buf i, ..., buf (i + n - 1)` from `previous_crc`, the CRC-32 of the bytes
before them: the CRC is inverted into the running value, the bytes are folded
in, and the running value is inverted back; part of `Crc32` of crc32.hpp. -/
def crcExtend (buf : Nat → Nat) (i n previous_crc : Nat) : Nat :=
  crcRun buf n i ((previous_crc % 2 ^ 32) ^^^ 0xFFFFFFFF) ^^^ 0xFFFFFFFF

/-- Modelled from the spec: the CRC-32 of the first `n` bytes of `buf`,
computed in one pass. -/
def onePassCrc32 (buf : Nat → Nat) (n : Nat) : Nat := crcExtend buf 0 n 0

/-- Modelled from the spec: `Crc32` of crc32.hpp, which is not among the
sources.  The CRC kernel works on chunks of `quantum` bytes, so its CRC covers
the aligned prefix of the `sz` bytes, the first `sz - sz % quantum`.  `Crc32`
is given the entire buffer and that partial CRC as its initial state, and
extends it with the remaining bytes, those outside the quanta, rather than
restarting (spec 4.4; the comment of lines 438-442). -/
def Crc32 (quantum : Nat) (buf : Nat → Nat) (sz : Nat) (previous_crc : Nat) : Nat :=
  crcExtend buf (sz - sz % quantum) (sz % quantum) previous_crc

/-! ## Control flow -/

/-- Where control is after a statement: it falls through, the function has
returned a code, or the behaviour is undefined. -/
inductive Flow (σ : Type) where
  | next (s : σ)
  | ret (code : Int) (s : σ)
  | undef (s : σ)

/-- Sequencing: the rest runs only when control falls through. -/
def Flow.bind {σ : Type} (x : Flow σ) (f : σ → Flow σ) : Flow σ :=
  match x with
  | .next s => f s
  | .ret code s => .ret code s
  | .undef s => .undef s

/-- The state at which the flow stands. -/
def Flow.state {σ : Type} : Flow σ → σ
  | .next s => s
  | .ret _ s => s
  | .undef s => s

/-- The return code, when the function has returned. -/
def Flow.code {σ : Type} : Flow σ → Option Int
  | .ret code _ => some code
  | _ => none

/-- The loop `for (j = i; j < i + n; j++) body(j)`, left at once when the body
returns. -/
def forLoop {σ : Type} (body : Nat → σ → Flow σ) : Nat → Nat → σ → Flow σ
  | 0, _, s => .next s
  | n + 1, i, s => (body i s).bind (forLoop body n (i + 1))

/-! ## Data model -/

/-- What an allocation holds. -/
inductive Buf where
  | inputImage
  | kinfoArray
  | poutput_buffer
  | gzip_out_buf
  | current_crc
  | pibuf
  | pobuf
  | pobuf_decompress
  deriving DecidableEq, Repr

/-- The five command groups submitted for one (engine, iteration). -/
inductive Op where
  | inputCopy
  | compute
  | outputCopy
  | sizeCopy
  | crcCopy
  deriving DecidableEq, Repr

/-- The event arrays of `CompressFile`. -/
inductive Handle where
  | e_output_dma
  | e_size_dma
  | e_crc_dma
  | e_k_crc
  | e_k_lz
  | e_k_huff
  deriving DecidableEq, Repr

/-- Messages written to the console. -/
inductive Msg where
  | warnNoPrepin
  | cannotReadInput
  | minimumFilesize
  | cannotAllocKinfo
  | cannotAllocOutput
  | currentCrcPtr
  | unsupportedLarger
  | crcLine
  | failed
  | throughput
  | tpBreakdown
  | compressionRatio
  | passed
  deriving DecidableEq, Repr

/-- What the run does that can be observed, in program order.  An allocation
or release names the field and the slot `(eng, i)` through which it is made.
`writeBlockGzip` carries the arguments of the call and, as `content`, which
(engine, iteration) output copy last wrote the buffer passed. -/
inductive Event where
  | alloc (what : Buf) (eng i size addr : Nat)
  | free (what : Buf) (eng i addr : Nat)
  | submit (op : Op) (eng i : Nat)
  | wait (h : Handle) (eng i : Nat)
  | writeBlockGzip (eng : Nat) (outfile : String) (buf : Nat) (content : Option (Nat × Nat))
      (compression_sz file_size crc : Nat)
  | compareGzipFiles (outfile : String)
  | print (m : Msg)
  deriving DecidableEq, Repr

/-- The fields of `struct KernelInfo` the host code uses; of the arrays
`buffer_crc` and `out_info` only element 0 is read. -/
structure KernelInfo where
  gzip_out_buf : Nat
  current_crc : Nat
  pobuf : Nat
  pibuf : Nat
  pobuf_decompress : Nat
  buffer_crc0 : Nat
  pref_buffer : Nat
  poutput_buffer : Nat
  file_size : Nat
  out_info0 : Nat
  iteration : Nat
  last_block : Bool
  deriving DecidableEq, Repr

/-- What the host cannot decide. -/
structure Env where
  isS10 : Bool
  prepin : Bool
  fileOpen : Bool
  isz : Nat
  fileBytes : Nat → Nat
  kinfoAllocFails : Nat → Bool
  outputAllocFails : Nat → Nat → Bool
  decompressAllocFails : Nat → Nat → Bool
  compression_sz : Nat → Nat → Nat
  device_crc : Nat → Nat → Nat
  writeResult : Nat → Int
  compareResult : Int

/-- The arguments of `CompressFile` besides the queue and the input name. -/
structure Args where
  outfilenames : Nat → String
  iterations : Nat
  report : Bool

/-- The variables of `CompressFile`, the allocator, the host memory written by
the output copies, and the trace. -/
structure State where
  next : Nat
  trace : List Event
  pinbuf : Nat
  kinfoPtr : Nat → Nat
  kinfo : Nat → Nat → KernelInfo
  hostMem : List (Nat × Nat × Nat)
  compressed_sz : Nat → Nat

/-- A zeroed `KernelInfo`. -/
def KernelInfo.zero : KernelInfo :=
  ⟨0, 0, 0, 0, 0, 0, 0, 0, 0, 0, 0, false⟩

/-- The state on entry: nothing allocated, nothing done. -/
def State.init : State :=
  ⟨1, [], 0, fun _ => 0, fun _ _ => KernelInfo.zero, [], fun _ => 0⟩

/-- Append an event to the trace. -/
def State.emit (s : State) (e : Event) : State :=
  { s with trace := s.trace ++ [e] }

/-- An allocation (`malloc`, `malloc_host` or `new`): `NULL` when it fails,
otherwise an address never returned before. -/
def State.malloc (s : State) (fails : Bool) (what : Buf) (eng i size : Nat) : Nat × State :=
  if fails then (0, s.emit (.alloc what eng i size 0))
  else (s.next, { s with next := s.next + 1, trace := s.trace ++ [.alloc what eng i size s.next] })

/-- Store into `kinfo[eng][i]`. -/
def State.setSlot (s : State) (eng i : Nat) (k : KernelInfo) : State :=
  { s with kinfo := fun e j => if e = eng ∧ j = i then k else s.kinfo e j }

/-- Which output copy last wrote the host buffer at `addr`. -/
def State.content (s : State) (addr : Nat) : Option (Nat × Nat) :=
  (s.hostMem.find? (fun x => x.1 = addr)).map (fun x => x.2)

/-! ## The stages of `CompressFile` -/

/-- Lines 232-282: the pre-pinning warning, then the input file is opened and
read into `pinbuf`, or the run ends with 1. -/
def readInput (c : Consts) (env : Env) (s : State) : Flow State :=
  let s0 := if env.isS10 && !env.prepin then s.emit (.print .warnNoPrepin) else s
  if env.fileOpen then
    let r := s0.malloc false .inputImage 0 0 (wrapSizeT (env.isz + kInOutPadding c))
    .next { r.2 with pinbuf := r.1 }
  else .ret 1 (s0.emit (.print .cannotReadInput))

/-- Lines 284-288: `if (isz < minimum_filesize) ... return 1;`. -/
def checkMinimum (c : Consts) (env : Env) (s : State) : Flow State :=
  if env.isz < toSizeT (minimum_filesize c) then .ret 1 (s.emit (.print .minimumFilesize))
  else .next s

/-- Lines 329-337: the device buffers of slot `(eng, i)`, aliased from slot
`i - 3` or new, the per-slot `pobuf_decompress`, and the scalar fields. -/
def setupSlotRest (c : Consts) (env : Env) (eng i poutput_buffer : Nat) (s : State) : State :=
  let prev := s.kinfo eng (i - 3)
  let a1 := if 3 ≤ i then (prev.gzip_out_buf, s)
    else s.malloc false .gzip_out_buf eng i (c.kMinBufferSize * c.sizeofGzipOutInfo)
  let a2 := if 3 ≤ i then (prev.current_crc, a1.2)
    else a1.2.malloc false .current_crc eng i (c.kMinBufferSize * 4)
  let a3 := if 3 ≤ i then (prev.pibuf, a2.2)
    else a2.2.malloc false .pibuf eng i (input_alloc_size c env.isz)
  let a4 := if 3 ≤ i then (prev.pobuf, a3.2)
    else a3.2.malloc false .pobuf eng i (toSizeT (outputSize c env.isz))
  let a5 := a4.2.malloc (env.decompressAllocFails eng i) .pobuf_decompress eng i env.isz
  a5.2.setSlot eng i
    { gzip_out_buf := a1.1, current_crc := a2.1, pobuf := a4.1, pibuf := a3.1,
      pobuf_decompress := a5.1, buffer_crc0 := (s.kinfo eng i).buffer_crc0,
      pref_buffer := s.pinbuf, poutput_buffer := poutput_buffer, file_size := env.isz,
      out_info0 := (s.kinfo eng i).out_info0, iteration := i, last_block := true }

/-- Lines 303-338: one pass of the inner setup loop. -/
def setupSlot (c : Consts) (env : Env) (eng i : Nat) (s : State) : Flow State :=
  if 3 ≤ i then
    .next (setupSlotRest c env eng i (s.kinfo eng (i - 3)).poutput_buffer s)
  else
    let r := s.malloc (env.outputAllocFails eng i) .poutput_buffer eng i
      (toSizeT (outputSize c env.isz))
    if r.1 = 0 then
      .ret 1 ((r.2.emit (.print .cannotAllocOutput)).emit
        (.free .kinfoArray eng 0 (r.2.kinfoPtr eng)))
    else .next (setupSlotRest c env eng i r.1 r.2)

/-- Lines 297-339: one pass of the outer setup loop. -/
def setupEngine (c : Consts) (env : Env) (a : Args) (eng : Nat) (s : State) : Flow State :=
  let r := s.malloc (env.kinfoAllocFails eng) .kinfoArray eng 0
    (wrapSizeT (c.sizeofKernelInfo * a.iterations))
  let s1 := { r.2 with kinfoPtr := fun e => if e = eng then r.1 else r.2.kinfoPtr e }
  if r.1 = 0 then .ret 1 (s1.emit (.print .cannotAllocKinfo))
  else forLoop (setupSlot c env eng) a.iterations 0 s1

/-- Lines 296-339: the buffer setup loop. -/
def setup (c : Consts) (env : Env) (a : Args) (s : State) : Flow State :=
  forLoop (setupEngine c env a) c.kNumEngines 0 s

/-- Lines 361-407: the submissions of one (engine, iteration). -/
def submitSlot (i eng : Nat) (s : State) : Flow State :=
  .next ((((((s.emit (.submit .inputCopy eng i)).emit (.submit .compute eng i)).emit
    (.print .currentCrcPtr)).emit (.submit .outputCopy eng i)).emit
    (.submit .sizeCopy eng i)).emit (.submit .crcCopy eng i))

/-- Lines 359-409: the main loop, iterations outside, engines inside. -/
def submitAll (c : Consts) (a : Args) (s : State) : Flow State :=
  forLoop (fun i => forLoop (submitSlot i) c.kNumEngines 0) a.iterations 0 s

/-- Lines 415-417: the three waits of one slot.  When a wait returns the copy
has been made: the output copy has written the host output buffer, the size
copy `out_info`, the CRC copy `buffer_crc`. -/
def waitSlot (env : Env) (eng i : Nat) (s : State) : Flow State :=
  let k := s.kinfo eng i
  let s1 := { s.emit (.wait .e_output_dma eng i) with
    hostMem := (k.poutput_buffer, eng, i) :: s.hostMem }
  let s2 := (s1.emit (.wait .e_size_dma eng i)).setSlot eng i
    { k with out_info0 := env.compression_sz eng i }
  .next ((s2.emit (.wait .e_crc_dma eng i)).setSlot eng i
    { k with out_info0 := env.compression_sz eng i, buffer_crc0 := env.device_crc eng i })

/-- Lines 413-419: the wait barrier, engines outside, iterations inside. -/
def waitAll (c : Consts) (env : Env) (a : Args) (s : State) : Flow State :=
  forLoop (fun eng => forLoop (waitSlot env eng) a.iterations 0) c.kNumEngines 0 s

/-- Line 443: the host reconciliation,
`Crc32(kinfo[eng][i].pref_buffer, kinfo[eng][i].file_size, kinfo[eng][i].buffer_crc[0])`;
`pref_buffer` is `pinbuf`, which holds the bytes of the input file. -/
def reconcile (c : Consts) (env : Env) (k : KernelInfo) : Nat :=
  Crc32 c.crcQuantum env.fileBytes k.file_size k.buffer_crc0

/-- Lines 433-446: the size check of one slot, then the CRC reconciliation and
the accumulation of the compressed size. -/
def validateSlot (c : Consts) (env : Env) (eng i : Nat) (s : State) : Flow State :=
  let k := s.kinfo eng i
  if k.out_info0 > k.file_size then .ret 1 (s.emit (.print .unsupportedLarger))
  else
    let s1 := s.setSlot eng i { k with buffer_crc0 := reconcile c env k }
    .next { s1 with compressed_sz := fun e =>
      if e = eng then wrapSizeT (s1.compressed_sz e + k.out_info0) else s1.compressed_sz e }

/-- Lines 430-448: the validation loops. -/
def validateAll (c : Consts) (env : Env) (a : Args) (s : State) : Flow State :=
  forLoop (fun eng s0 => forLoop (validateSlot c env eng) a.iterations 0
    { s0 with compressed_sz := fun e => if e = eng then 0 else s0.compressed_sz e })
    c.kNumEngines 0 s

/-- Lines 452-456: the input image is released. -/
def freeInput (s : State) : Flow State :=
  .next (s.emit (.free .inputImage 0 0 s.pinbuf))

/-- Lines 459-468: the CRC line and, when `report`, the call of
`WriteBlockGzip` on slot 0 of the engine.  Slot 0 exists only when there is at
least one iteration. -/
def writeEngine (env : Env) (a : Args) (eng : Nat) (s : State) : Flow State :=
  if a.iterations = 0 then .undef s
  else
    let k := s.kinfo eng 0
    let s1 := s.emit (.print .crcLine)
    if a.report then
      let s2 := s1.emit (.writeBlockGzip eng (a.outfilenames eng) k.poutput_buffer
        (s.content k.poutput_buffer) k.out_info0 k.file_size k.buffer_crc0)
      if env.writeResult eng ≠ 0 then .ret 1 (s2.emit (.print .failed)) else .next s2
    else .next s1

/-- Lines 459-468: the write loop. -/
def writeAll (c : Consts) (env : Env) (a : Args) (s : State) : Flow State :=
  forLoop (writeEngine env a) c.kNumEngines 0 s

/-- Lines 473-476: the round-trip comparison of engine 0's file. -/
def compareStage (env : Env) (a : Args) (s : State) : Flow State :=
  if a.report then
    let s1 := s.emit (.compareGzipFiles (a.outfilenames 0))
    if env.compareResult ≠ 0 then .ret 1 (s1.emit (.print .failed)) else .next s1
  else .next s

/-- Lines 492-494: the waits on the kernel events of one slot. -/
def timeSlot (eng i : Nat) (s : State) : Flow State :=
  .next (((s.emit (.wait .e_k_crc eng i)).emit (.wait .e_k_lz eng i)).emit
    (.wait .e_k_huff eng i))

/-- Lines 485-501: the execution times are gathered. -/
def timeAll (c : Consts) (a : Args) (s : State) : Flow State :=
  forLoop (fun eng => forLoop (timeSlot eng) a.iterations 0) c.kNumEngines 0 s

/-- Lines 503-522: the throughput report. -/
def reportStage (c : Consts) (a : Args) (s : State) : Flow State :=
  if a.report then
    let s1 := if c.fpgaEmulator then .next s
      else forLoop (fun _ s0 => .next (s0.emit (.print .tpBreakdown))) c.kNumEngines 0
        (s.emit (.print .throughput))
    s1.bind (fun s2 => .next (s2.emit (.print .compressionRatio)))
  else .next s

/-- Lines 527-538: the releases made through slot `(eng, i)`. -/
def cleanupSlot (eng i : Nat) (s : State) : Flow State :=
  let k := s.kinfo eng i
  let s1 := if i < 3 then
      ((((s.emit (.free .gzip_out_buf eng i k.gzip_out_buf)).emit
        (.free .current_crc eng i k.current_crc)).emit
        (.free .pibuf eng i k.pibuf)).emit
        (.free .pobuf eng i k.pobuf)).emit
        (.free .poutput_buffer eng i k.poutput_buffer)
    else s
  .next (s1.emit (.free .pobuf_decompress eng i k.pobuf_decompress))

/-- Lines 525-541: the cleanup loops. -/
def cleanupAll (c : Consts) (a : Args) (s : State) : Flow State :=
  forLoop (fun eng s0 => (forLoop (cleanupSlot eng) a.iterations 0 s0).bind
    (fun s1 => .next (s1.emit (.free .kinfoArray eng 0 (s1.kinfoPtr eng)))))
    c.kNumEngines 0 s

/-- Lines 543-544: `if (report) std::cout << "PASSED\n"; return 0;`. -/
def finish (a : Args) (s : State) : Flow State :=
  .ret 0 (if a.report then s.emit (.print .passed) else s)

/-- Lines 450-544: what follows the validation loops. -/
def afterValidate (c : Consts) (env : Env) (a : Args) (s : State) : Flow State :=
  (freeInput s).bind fun s =>
  (writeAll c env a s).bind fun s =>
  (compareStage env a s).bind fun s =>
  (timeAll c a s).bind fun s =>
  (reportStage c a s).bind fun s =>
  (cleanupAll c a s).bind fun s =>
  finish a s

/-- Lines 290-544: the body of `CompressFile` from the setup loop on. -/
def afterChecks (c : Consts) (env : Env) (a : Args) (s : State) : Flow State :=
  (setup c env a s).bind fun s =>
  (submitAll c a s).bind fun s =>
  (waitAll c env a s).bind fun s =>
  (validateAll c env a s).bind fun s =>
  afterValidate c env a s

/-- Line 217: `int CompressFile(queue &q, std::string &input_file,
std::vector<std::string> outfilenames, int iterations, bool report)`. -/
def CompressFile (c : Consts) (env : Env) (a : Args) : Flow State :=
  (readInput c env State.init).bind fun s =>
  (checkMinimum c env s).bind fun s =>
  afterChecks c env a s

/-! ## Observations on traces and states -/

/-- The kinds of events; `minsize` is the message of the minimum-size check,
`passed` the final `PASSED` line, `note` any other message. -/
inductive Kind where
  | alloc
  | free
  | submit
  | wait
  | write
  | compare
  | note
  | minsize
  | passed
  deriving DecidableEq, Repr

/-- The kind of an event. -/
def Event.kind : Event → Kind
  | .alloc _ _ _ _ _ => .alloc
  | .free _ _ _ _ => .free
  | .submit _ _ _ => .submit
  | .wait _ _ _ => .wait
  | .writeBlockGzip _ _ _ _ _ _ _ => .write
  | .compareGzipFiles _ => .compare
  | .print .minimumFilesize => .minsize
  | .print .passed => .passed
  | .print _ => .note

/-- The submission an event makes: the command group, the engine and the
iteration. -/
def Event.submission? : Event → Option (Op × Nat × Nat)
  | .submit op eng i => some (op, eng, i)
  | _ => none

/-- The call of `WriteBlockGzip` an event makes: the engine and the output file
name. -/
def Event.writeCall? : Event → Option (Nat × String)
  | .writeBlockGzip eng outfile _ _ _ _ _ => some (eng, outfile)
  | _ => none

/-- The call of `CompareGzipFiles` an event makes: the output file name. -/
def Event.compareCall? : Event → Option String
  | .compareGzipFiles outfile => some outfile
  | _ => none

/-- The allocation an event requests for engine `eng`: the field and the size
in bytes.  The input image belongs to no engine. -/
def Event.request? (eng : Nat) : Event → Option (Buf × Nat)
  | .alloc what e _ size _ => if e = eng ∧ what ≠ .inputImage then some (what, size) else none
  | _ => none

/-- The event is of one of the kinds listed. -/
def kindIn (l : List Kind) (e : Event) : Prop := e.kind ∈ l

/-- Kinds of the events of lines 232-339: reading the input and setting up the
buffers. -/
def preludeKinds : List Kind := [.alloc, .free, .note]

/-- The five pooled buffers of a slot. -/
def KernelInfo.bufferSet (k : KernelInfo) : Nat × Nat × Nat × Nat × Nat :=
  (k.poutput_buffer, k.pibuf, k.pobuf, k.gzip_out_buf, k.current_crc)

/-- The pooled pointers of a slot, as a list. -/
def KernelInfo.pointers (k : KernelInfo) : List Nat :=
  [k.poutput_buffer, k.pibuf, k.pobuf, k.gzip_out_buf, k.current_crc]

/-- The trace of `s'` is the trace of `s` followed by events that satisfy `Q`. -/
def Extends (Q : Event → Prop) (s s' : State) : Prop :=
  ∃ Y, s'.trace = s.trace ++ Y ∧ ∀ e ∈ Y, Q e

/-- The slots below `k` of engine `eng`: slot `i` has the buffers of slot
`i - 3`, and slots 0, 1, 2 have buffers allocated at or after address `lo`,
those of an earlier slot below those of a later one. -/
structure SlotsOk (env : Env) (s : State) (eng lo k : Nat) : Prop where
  aliased : ∀ i, 3 ≤ i → i < k → (s.kinfo eng i).bufferSet = (s.kinfo eng (i - 3)).bufferSet
  fresh : ∀ i, i < k → i < 3 → ∀ p ∈ (s.kinfo eng i).pointers, lo ≤ p ∧ p < s.next
  apart : ∀ i j, i < j → j < k → j < 3 →
    ∀ p ∈ (s.kinfo eng i).pointers, ∀ q ∈ (s.kinfo eng j).pointers, p < q
  size : ∀ i, i < k → (s.kinfo eng i).file_size = env.isz
  noFail : ∀ i, i < k → i < 3 → env.outputAllocFails eng i = false

/-- The events of the main loop, as the loop makes them. -/
def submitTrace (E N : Nat) : List Event :=
  (List.range' 0 N).flatMap fun i => (List.range' 0 E).flatMap fun eng =>
    [.submit .inputCopy eng i, .submit .compute eng i, .print .currentCrcPtr,
      .submit .outputCopy eng i, .submit .sizeCopy eng i, .submit .crcCopy eng i]

/-- The kernel waits of the timing loop. -/
def timeTrace (E N : Nat) : List Event :=
  (List.range' 0 E).flatMap fun eng => (List.range' 0 N).flatMap fun i =>
    [.wait .e_k_crc eng i, .wait .e_k_lz eng i, .wait .e_k_huff eng i]

/-- What the copies of slot `(eng, i)` leave in the slot. -/
def copiedBack (env : Env) (eng i : Nat) (k : KernelInfo) : KernelInfo :=
  { k with out_info0 := env.compression_sz eng i, buffer_crc0 := env.device_crc eng i }

/-- Every slot holds the size the device reported and the size of the input. -/
def Reported (c : Consts) (env : Env) (a : Args) (s : State) : Prop :=
  ∀ e j, e < c.kNumEngines → j < a.iterations →
    (s.kinfo e j).out_info0 = env.compression_sz e j ∧ (s.kinfo e j).file_size = env.isz

/-- What the reconciliation leaves in a slot. -/
def reconciled (c : Consts) (env : Env) (k : KernelInfo) : KernelInfo :=
  { k with buffer_crc0 := reconcile c env k }

/-- No allocation that the setup loop checks fails: the `KernelInfo` array of
every engine and the host output buffer of slots 0, 1, 2. -/
def AllocOk (c : Consts) (env : Env) (a : Args) : Prop :=
  (∀ eng, eng < c.kNumEngines → env.kinfoAllocFails eng = false) ∧
  (∀ eng i, eng < c.kNumEngines → i < a.iterations → i < 3 →
    env.outputAllocFails eng i = false)

/-- Lines 217-448: the run up to the end of the validation loops. -/
def reachValidate (c : Consts) (env : Env) (a : Args) : Flow State :=
  (readInput c env State.init).bind fun s =>
  (checkMinimum c env s).bind fun s =>
  (setup c env a s).bind fun s =>
  (submitAll c a s).bind fun s =>
  (waitAll c env a s).bind fun s =>
  validateAll c env a s

/-- Lines 217-409: the run up to the end of the main loop. -/
def reachSubmit (c : Consts) (env : Env) (a : Args) : Flow State :=
  (readInput c env State.init).bind fun s =>
  (checkMinimum c env s).bind fun s =>
  (setup c env a s).bind fun s =>
  submitAll c a s

/-- Kinds of the events up to the end of the validation loops. -/
def quietKinds : List Kind := [.alloc, .free, .submit, .wait, .note, .minsize]

/-- Kinds of the events after the validation loops. -/
def tailKinds : List Kind := [.free, .write, .compare, .wait, .note, .passed]

/-- Lines 217-419: the run up to the end of the wait barrier. -/
def reachBarrier (c : Consts) (env : Env) (a : Args) : Flow State :=
  (readInput c env State.init).bind fun s =>
  (checkMinimum c env s).bind fun s =>
  (setup c env a s).bind fun s =>
  (submitAll c a s).bind fun s =>
  waitAll c env a s

/-- The submission order the specification gives: for `i = 0..N-1`, within it
for `eng = 0..E-1`, the chain input copy, compute stage, output copy, size
copy, CRC copy of `(eng, i)`. -/
def submissionOrder (E N : Nat) : List (Op × Nat × Nat) :=
  (List.range N).flatMap fun i => (List.range E).flatMap fun eng =>
    [(Op.inputCopy, eng, i), (Op.compute, eng, i), (Op.outputCopy, eng, i),
      (Op.sizeCopy, eng, i), (Op.crcCopy, eng, i)]

/-- The place of a command group in the chain of one slot. -/
def Op.rank : Op → Nat
  | .inputCopy => 0
  | .compute => 1
  | .outputCopy => 2
  | .sizeCopy => 3
  | .crcCopy => 4

/-- Submission `x` comes before submission `y`: an earlier iteration, or the
same iteration and an earlier engine, or the same slot and an earlier place in
the chain. -/
def Before (x y : Op × Nat × Nat) : Prop :=
  x.2.2 < y.2.2 ∨ (x.2.2 = y.2.2 ∧ (x.2.1 < y.2.1 ∨ (x.2.1 = y.2.1 ∧ x.1.rank < y.1.rank)))

/-- Lines 413-544: what follows the main loop. -/
def afterSubmit (c : Consts) (env : Env) (a : Args) (s : State) : Flow State :=
  (waitAll c env a s).bind fun s =>
  (validateAll c env a s).bind fun s =>
  afterValidate c env a s

/-- Sample constants: a vector width of 16 bytes (so that the padding is the
256 bytes gzip.cpp notes), two engines, a CRC quantum of 16 bytes. -/
def sampleConsts : Consts := ⟨16, 2, 16384, 400000, 16, false, 16⟩

/-- A sample run: a readable 1000-byte input of the byte 97, every allocation
succeeding, every iteration reporting 500 compressed bytes, writer and
comparator succeeding. -/
def sampleEnv : Env :=
  ⟨false, false, true, 1000, fun _ => 97, fun _ => false, fun _ _ => false, fun _ _ => false,
    fun _ _ => 500, fun _ _ => 0, fun _ => 0, 0⟩

/-- Sample arguments: four iterations, with report. -/
def sampleArgs : Args := ⟨fun eng => if eng = 0 then "out.gz" else "out.gz2", 4, true⟩

/-- The buffers pooled by the setup loop: those of the buffer set. -/
def Buf.pooled : Buf → Bool
  | .poutput_buffer => true
  | .gzip_out_buf => true
  | .current_crc => true
  | .pibuf => true
  | .pobuf => true
  | _ => false

/-- The size in bytes of one buffer set: host output buffer, `gzip_out_buf`,
`current_crc`, `pibuf`, `pobuf`. -/
def bufferSetBytes (c : Consts) (isz : Nat) : Nat :=
  toSizeT (outputSize c isz) + c.kMinBufferSize * c.sizeofGzipOutInfo + c.kMinBufferSize * 4 +
    input_alloc_size c isz + toSizeT (outputSize c isz)

/-- The allocations lines 303-338 request for slot `i`: the buffer set for
`i < 3`, and `pobuf_decompress` for every slot. -/
def slotRequests (c : Consts) (isz i : Nat) : List (Buf × Nat) :=
  (if i < 3 then
    [(Buf.poutput_buffer, toSizeT (outputSize c isz)),
      (Buf.gzip_out_buf, c.kMinBufferSize * c.sizeofGzipOutInfo),
      (Buf.current_crc, c.kMinBufferSize * 4),
      (Buf.pibuf, input_alloc_size c isz),
      (Buf.pobuf, toSizeT (outputSize c isz))]
  else []) ++ [(Buf.pobuf_decompress, isz)]

/-- The allocations lines 297-339 request for one engine: the `KernelInfo`
array of `N` structures, then those of the slots `0..N-1`. -/
def engineRequests (c : Consts) (isz N : Nat) : List (Buf × Nat) :=
  (Buf.kinfoArray, wrapSizeT (c.sizeofKernelInfo * N)) ::
    (List.range N).flatMap (slotRequests c isz)

/-- The allocations a run requests for engine `eng`, in order: field and size
in bytes. -/
def requestsOf (eng : Nat) (r : Flow State) : List (Buf × Nat) :=
  r.state.trace.filterMap (Event.request? eng)

/-- The sample arguments with another iteration count. -/
def sampleArgsN (N : Nat) : Args := { sampleArgs with iterations := N }

/-- The sample run with the host output buffer of the second engine's slot 0
failing to allocate. -/
def sampleEnvAllocFails : Env :=
  { sampleEnv with outputAllocFails := fun eng i => decide (eng = 1 ∧ i = 0) }

/-- The sample run with engine 0 reporting, in iteration 0, more compressed
bytes than the input has. -/
def sampleEnvOversize : Env :=
  { sampleEnv with compression_sz := fun eng i => if eng = 0 ∧ i = 0 then 2000 else 500 }

/-- The addresses the trace allocates. -/
def allocatedIn (t : List Event) : List Nat :=
  t.filterMap fun e =>
    match e with
    | .alloc _ _ _ _ addr => if addr = 0 then none else some addr
    | _ => none

/-- The addresses the trace releases. -/
def releasedIn (t : List Event) : List Nat :=
  t.filterMap fun e =>
    match e with
    | .free _ _ _ addr => some addr
    | _ => none

/-- The addresses allocated and not released at the end of the trace. -/
def liveAt (t : List Event) : List Nat :=
  (allocatedIn t).filter fun p => decide (p ∉ releasedIn t)

/-- What an event passes to `WriteBlockGzip`: the engine, which output copy
last wrote the buffer passed, the compressed size and the CRC. -/
def Event.written? : Event → Option (Nat × Option (Nat × Nat) × Nat × Nat)
  | .writeBlockGzip eng _ _ content compression_sz _ crc =>
    some (eng, content, compression_sz, crc)
  | _ => none

/-- The event releases no address below 2: the input image, at address 1, is
not what it releases. -/
def sparesInput (e : Event) : Prop :=
  match e with
  | .free _ _ _ addr => 2 ≤ addr
  | _ => True

/-! ## The ledgers of allocations and releases -/

/-- The allocation an event makes: the field, the slot `(eng, i)` through which
it is made, and the address returned (0 when the allocation fails). -/
def Event.allocation? : Event → Option (Buf × Nat × Nat × Nat)
  | .alloc what eng i _ addr => some (what, eng, i, addr)
  | _ => none

/-- The release an event makes: the field, the slot `(eng, i)` through which it
is made, and the address released. -/
def Event.release? : Event → Option (Buf × Nat × Nat × Nat)
  | .free what eng i addr => some (what, eng, i, addr)
  | _ => none

/-- The field and the slot of an allocation or a release. -/
def slotKey (x : Buf × Nat × Nat × Nat) : Buf × Nat × Nat := (x.1, x.2.1, x.2.2.1)

/-- The address of an allocation or a release. -/
def addrOf (x : Buf × Nat × Nat × Nat) : Nat := x.2.2.2

/-- The buffers lines 303-338 allocate through slot `(eng, i)`, in order, with
the addresses the slot `k` holds: the buffer set for `i < 3`, and
`pobuf_decompress` for every slot. -/
def slotAllocations (k : KernelInfo) (eng i : Nat) : List (Buf × Nat × Nat × Nat) :=
  (if i < 3 then
    [(Buf.poutput_buffer, eng, i, k.poutput_buffer),
      (Buf.gzip_out_buf, eng, i, k.gzip_out_buf),
      (Buf.current_crc, eng, i, k.current_crc),
      (Buf.pibuf, eng, i, k.pibuf),
      (Buf.pobuf, eng, i, k.pobuf)]
  else []) ++ [(Buf.pobuf_decompress, eng, i, k.pobuf_decompress)]

/-- The buffers lines 527-538 release through slot `(eng, i)`, in order, with
the addresses the slot `k` holds. -/
def slotReleases (k : KernelInfo) (eng i : Nat) : List (Buf × Nat × Nat × Nat) :=
  (if i < 3 then
    [(Buf.gzip_out_buf, eng, i, k.gzip_out_buf),
      (Buf.current_crc, eng, i, k.current_crc),
      (Buf.pibuf, eng, i, k.pibuf),
      (Buf.pobuf, eng, i, k.pobuf),
      (Buf.poutput_buffer, eng, i, k.poutput_buffer)]
  else []) ++ [(Buf.pobuf_decompress, eng, i, k.pobuf_decompress)]

/-- The allocations of one engine, as lines 297-339 make them: the `KernelInfo`
array, then those of the slots `0..N-1`. -/
def engineAllocations (s : State) (N eng : Nat) : List (Buf × Nat × Nat × Nat) :=
  (Buf.kinfoArray, eng, 0, s.kinfoPtr eng) ::
    (List.range N).flatMap fun i => slotAllocations (s.kinfo eng i) eng i

/-- The releases of one engine, as lines 526-540 make them: those of the slots
`0..N-1`, then the `KernelInfo` array. -/
def engineReleases (s : State) (N eng : Nat) : List (Buf × Nat × Nat × Nat) :=
  ((List.range N).flatMap fun i => slotReleases (s.kinfo eng i) eng i) ++
    [(Buf.kinfoArray, eng, 0, s.kinfoPtr eng)]

/-- Every allocation of a run with `E` engines and `N` iterations, in program
order, with the addresses the state `s` holds: the input image, then the
engines in turn. -/
def allocationOrder (s : State) (E N : Nat) : List (Buf × Nat × Nat × Nat) :=
  (Buf.inputImage, 0, 0, s.pinbuf) :: (List.range E).flatMap (engineAllocations s N)

/-- Every release of a run with `E` engines and `N` iterations that reaches
the end, in program order, with the addresses the state `s` holds: the input
image (lines 452-456), then the engines in turn (lines 525-541). -/
def releaseOrder (s : State) (E N : Nat) : List (Buf × Nat × Nat × Nat) :=
  (Buf.inputImage, 0, 0, s.pinbuf) :: (List.range E).flatMap (engineReleases s N)

/-- The allocations a run makes, in order: field, slot and address. -/
def allocationsOf (r : Flow State) : List (Buf × Nat × Nat × Nat) :=
  r.state.trace.filterMap Event.allocation?

/-- The releases a run makes, in order: field, slot and address. -/
def releasesOf (r : Flow State) : List (Buf × Nat × Nat × Nat) :=
  r.state.trace.filterMap Event.release?

/-- The pointers of a slot that the cleanup loops release. -/
def KernelInfo.owned (k : KernelInfo) : Nat × Nat × Nat × Nat × Nat × Nat :=
  (k.poutput_buffer, k.gzip_out_buf, k.current_crc, k.pibuf, k.pobuf, k.pobuf_decompress)

/-- State `t` holds the pointers state `s` holds: the input image, the
`KernelInfo` arrays, and the buffers of every slot. -/
def SameBuffers (s t : State) : Prop :=
  t.pinbuf = s.pinbuf ∧ t.kinfoPtr = s.kinfoPtr ∧ ∀ e j, (t.kinfo e j).owned = (s.kinfo e j).owned

/-- The addresses handed out so far increase and lie below the next address
the allocator hands out. -/
def Fresh (s : State) : Prop :=
  (allocatedIn s.trace).Pairwise (fun p q => p < q) ∧ ∀ p ∈ allocatedIn s.trace, p < s.next

/-! ## Theorems -/

/-- The check value of CRC-32: the CRC-32 of the nine bytes `123456789`,
computed in one pass, is `0xCBF43926`. -/
theorem onePassCrc32_check : onePassCrc32 (fun j => 49 + j) 9 = 0xCBF43926 := by
  decide!

theorem toInt32_of_lt {n : Nat} (h : n < 2 ^ 31) : toInt32 n = (n : Int) := by
  unfold toInt32
  have e : n % 2 ^ 32 = n := Nat.mod_eq_of_lt (by omega)
  rw [e, if_pos h]

theorem toSizeT_natCast {n : Nat} (h : n < 2 ^ 64) : toSizeT (n : Int) = n := by
  unfold toSizeT
  have : ((n : Int) % 2 ^ 64) = ((n % 2 ^ 64 : Nat) : Int) := by norm_cast
  rw [this, Nat.mod_eq_of_lt h]
  simp

theorem toSizeT_minimum_filesize (c : Consts) (hk : c.kVec + 1 < 2 ^ 31) :
    toSizeT (minimum_filesize c) = c.kVec + 1 := by
  unfold minimum_filesize
  rw [toInt32_of_lt hk]
  exact toSizeT_natCast (by omega)

theorem outputSize_eq_max (c : Consts) (isz : Nat) (h : isz + 16 * c.kVec < 2 ^ 31)
    (hm : c.kMinBufferSize < 2 ^ 31) :
    outputSize c isz = ((max (isz + 16 * c.kVec) c.kMinBufferSize : Nat) : Int) := by
  unfold outputSize kInOutPadding wrapSizeT
  have e1 : 16 * c.kVec % 2 ^ 64 = 16 * c.kVec := Nat.mod_eq_of_lt (by omega)
  have e2 : (isz + 16 * c.kVec) % 2 ^ 64 = isz + 16 * c.kVec := Nat.mod_eq_of_lt (by omega)
  rw [e1, e2]
  split
  · rw [toInt32_of_lt hm, max_eq_right (by omega)]
  · rw [toInt32_of_lt h, max_eq_left (by omega)]

section Loop

variable {σ : Type}

@[simp] theorem Flow.bind_next (s : σ) (f : σ → Flow σ) : (Flow.next s).bind f = f s := rfl

@[simp] theorem Flow.bind_ret (code : Int) (s : σ) (f : σ → Flow σ) :
    (Flow.ret code s).bind f = .ret code s := rfl

@[simp] theorem Flow.bind_undef (s : σ) (f : σ → Flow σ) :
    (Flow.undef s).bind f = .undef s := rfl

@[simp] theorem forLoop_zero (body : Nat → σ → Flow σ) (i : Nat) (s : σ) :
    forLoop body 0 i s = .next s := rfl

theorem forLoop_succ (body : Nat → σ → Flow σ) (n i : Nat) (s : σ) :
    forLoop body (n + 1) i s = (body i s).bind (forLoop body n (i + 1)) := rfl

/-- A loop whose body either falls through keeping the invariant or returns
`code` establishing `R` does the same as a whole. -/
theorem forLoop_cases (body : Nat → σ → Flow σ) (P : Nat → σ → Prop) (R : σ → Prop)
    (code : Int) : ∀ (n i : Nat) (s : σ),
    (∀ j t, i ≤ j → j < i + n → P j t →
      (∃ t', body j t = .next t' ∧ P (j + 1) t') ∨ (∃ t', body j t = .ret code t' ∧ R t')) →
    P i s →
    (∃ s', forLoop body n i s = .next s' ∧ P (i + n) s') ∨
      (∃ s', forLoop body n i s = .ret code s' ∧ R s') := by
  intro n
  induction n with
  | zero => intro i s _ h; exact Or.inl ⟨s, rfl, by simpa using h⟩
  | succ n ih =>
    intro i s hb h
    rw [forLoop_succ]
    rcases hb i s (le_refl _) (by omega) h with ⟨t', e, ht'⟩ | ⟨t', e, ht'⟩
    · rw [e, Flow.bind_next]
      have := ih (i + 1) t' (fun j t h1 h2 => hb j t (by omega) (by omega)) ht'
      have e2 : i + 1 + n = i + (n + 1) := by omega
      rw [e2] at this
      exact this
    · rw [e, Flow.bind_ret]
      exact Or.inr ⟨t', rfl, ht'⟩

/-- A loop whose body always falls through keeping the invariant falls through. -/
theorem forLoop_total (body : Nat → σ → Flow σ) (P : Nat → σ → Prop) (n i : Nat) (s : σ)
    (hb : ∀ j t, i ≤ j → j < i + n → P j t → ∃ t', body j t = .next t' ∧ P (j + 1) t')
    (h : P i s) : ∃ s', forLoop body n i s = .next s' ∧ P (i + n) s' := by
  rcases forLoop_cases body P (fun _ => False) 0 n i s
    (fun j t h1 h2 h3 => Or.inl (hb j t h1 h2 h3)) h with h' | ⟨_, _, h'⟩
  · exact h'
  · exact h'.elim

/-- An invariant of the fall-through steps holds when the loop falls through. -/
theorem forLoop_next (body : Nat → σ → Flow σ) (P : Nat → σ → Prop) : ∀ (n i : Nat) (s s' : σ),
    (∀ j t t', i ≤ j → j < i + n → P j t → body j t = .next t' → P (j + 1) t') →
    P i s → forLoop body n i s = .next s' → P (i + n) s' := by
  intro n
  induction n with
  | zero =>
    intro i s s' _ h e
    simp only [forLoop_zero, Flow.next.injEq] at e
    subst e
    simpa using h
  | succ n ih =>
    intro i s s' hb h e
    rw [forLoop_succ] at e
    cases hbody : body i s with
    | next t =>
      rw [hbody, Flow.bind_next] at e
      have := ih (i + 1) t s' (fun j t t' h1 h2 => hb j t t' (by omega) (by omega))
        (hb i s t (le_refl _) (by omega) h hbody) e
      have e2 : i + 1 + n = i + (n + 1) := by omega
      rw [e2] at this
      exact this
    | ret code t => rw [hbody, Flow.bind_ret] at e; cases e
    | undef t => rw [hbody, Flow.bind_undef] at e; cases e

/-- What every step keeps, whatever its outcome, the loop keeps. -/
theorem forLoop_state (body : Nat → σ → Flow σ) (P : σ → Prop)
    (hb : ∀ j t, P t → P (body j t).state) : ∀ (n i : Nat) (s : σ),
    P s → P (forLoop body n i s).state := by
  intro n
  induction n with
  | zero => intro i s h; exact h
  | succ n ih =>
    intro i s h
    rw [forLoop_succ]
    have h1 := hb i s h
    cases hbody : body i s with
    | next t => rw [hbody] at h1; rw [Flow.bind_next]; exact ih _ _ h1
    | ret code t => rw [hbody] at h1; exact h1
    | undef t => rw [hbody] at h1; exact h1

theorem Flow.bind_state (x : Flow σ) (f : σ → Flow σ) (P : σ → Prop)
    (hx : P x.state) (hf : ∀ t, x = .next t → P (f t).state) : P (x.bind f).state := by
  cases x with
  | next t => exact hf t rfl
  | ret code t => exact hx
  | undef t => exact hx

end Loop

/-! ### Traces -/

theorem Extends.refl (Q : Event → Prop) (s : State) : Extends Q s s :=
  ⟨[], by simp, by simp⟩

theorem Extends.of_trace_eq (Q : Event → Prop) (s s' : State) (h : s'.trace = s.trace) :
    Extends Q s s' :=
  ⟨[], by simp [h], by simp⟩

theorem Extends.trans {Q : Event → Prop} {s t u : State} (h1 : Extends Q s t)
    (h2 : Extends Q t u) : Extends Q s u := by
  obtain ⟨Y1, e1, q1⟩ := h1
  obtain ⟨Y2, e2, q2⟩ := h2
  refine ⟨Y1 ++ Y2, by rw [e2, e1, List.append_assoc], ?_⟩
  intro e he
  rcases List.mem_append.1 he with h | h
  · exact q1 e h
  · exact q2 e h

theorem Extends.mono {Q Q' : Event → Prop} {s t : State} (h : Extends Q s t)
    (hq : ∀ e, Q e → Q' e) : Extends Q' s t := by
  obtain ⟨Y, e, q⟩ := h
  exact ⟨Y, e, fun x hx => hq x (q x hx)⟩

theorem Extends.emit {Q : Event → Prop} (s : State) (e : Event) (h : Q e) :
    Extends Q s (s.emit e) :=
  ⟨[e], rfl, by simpa using h⟩

theorem forLoop_extends (Q : Event → Prop) (body : Nat → State → Flow State)
    (hb : ∀ j t, Extends Q t (body j t).state) (n i : Nat) (s : State) :
    Extends Q s (forLoop body n i s).state :=
  forLoop_state body (fun t => Extends Q s t) (fun j t h => h.trans (hb j t)) n i s
    (Extends.refl Q s)

theorem bind_extends (Q : Event → Prop) (s : State) (x : Flow State) (f : State → Flow State)
    (hx : Extends Q s x.state) (hf : ∀ t, Extends Q t (f t).state) :
    Extends Q s (x.bind f).state :=
  Flow.bind_state x f (fun t => Extends Q s t) hx
    (fun t e => by subst e; exact hx.trans (hf t))

theorem malloc_fst (s : State) (fails : Bool) (what : Buf) (eng i size : Nat) :
    (s.malloc fails what eng i size).1 = if fails then 0 else s.next := by
  unfold State.malloc; split <;> rfl

theorem malloc_next (s : State) (fails : Bool) (what : Buf) (eng i size : Nat) :
    (s.malloc fails what eng i size).2.next = if fails then s.next else s.next + 1 := by
  unfold State.malloc; split <;> rfl

theorem malloc_trace (s : State) (fails : Bool) (what : Buf) (eng i size : Nat) :
    (s.malloc fails what eng i size).2.trace =
      s.trace ++ [.alloc what eng i size (s.malloc fails what eng i size).1] := by
  unfold State.malloc; split <;> rfl

theorem malloc_kinfo (s : State) (fails : Bool) (what : Buf) (eng i size : Nat) :
    (s.malloc fails what eng i size).2.kinfo = s.kinfo := by
  unfold State.malloc; split <;> rfl

theorem malloc_kinfoPtr (s : State) (fails : Bool) (what : Buf) (eng i size : Nat) :
    (s.malloc fails what eng i size).2.kinfoPtr = s.kinfoPtr := by
  unfold State.malloc; split <;> rfl

/-- What `setupSlotRest` leaves: the slot written, the other slots untouched. -/
theorem setupSlotRest_kinfo_other (c : Consts) (env : Env) (eng i p : Nat) (s : State)
    (e j : Nat) (h : ¬ (e = eng ∧ j = i)) :
    (setupSlotRest c env eng i p s).kinfo e j = s.kinfo e j := by
  unfold setupSlotRest
  simp only [State.setSlot, if_neg h]
  split <;> simp [malloc_kinfo]

theorem setupSlotRest_alias (c : Consts) (env : Env) (eng i p : Nat) (s : State) (h : 3 ≤ i) :
    ((setupSlotRest c env eng i p s).kinfo eng i).bufferSet =
      (p, (s.kinfo eng (i - 3)).pibuf, (s.kinfo eng (i - 3)).pobuf,
        (s.kinfo eng (i - 3)).gzip_out_buf, (s.kinfo eng (i - 3)).current_crc) := by
  unfold setupSlotRest
  simp [State.setSlot, KernelInfo.bufferSet, h]

theorem setupSlotRest_fresh (c : Consts) (env : Env) (eng i p : Nat) (s : State) (h : i < 3) :
    ((setupSlotRest c env eng i p s).kinfo eng i).bufferSet =
      (p, s.next + 2, s.next + 3, s.next, s.next + 1) := by
  have h' : ¬ 3 ≤ i := by omega
  unfold setupSlotRest
  simp [State.setSlot, KernelInfo.bufferSet, h', malloc_fst, malloc_next]

theorem setupSlotRest_next (c : Consts) (env : Env) (eng i p : Nat) (s : State) :
    (setupSlotRest c env eng i p s).next =
      (if 3 ≤ i then s.next else s.next + 4) +
        (if env.decompressAllocFails eng i then 0 else 1) := by
  unfold setupSlotRest
  by_cases h : 3 ≤ i
  · simp only [State.setSlot, h, if_true, malloc_next]
    split <;> simp
  · simp only [State.setSlot, h, if_false, malloc_next]
    split <;> simp

theorem setupSlotRest_file_size (c : Consts) (env : Env) (eng i p : Nat) (s : State) :
    ((setupSlotRest c env eng i p s).kinfo eng i).file_size = env.isz := by
  unfold setupSlotRest
  simp [State.setSlot]

theorem bufferSet_pointers {k : KernelInfo} {a b c d e : Nat}
    (h : k.bufferSet = (a, b, c, d, e)) : k.pointers = [a, b, c, d, e] := by
  simp only [KernelInfo.bufferSet, Prod.mk.injEq] at h
  obtain ⟨h1, h2, h3, h4, h5⟩ := h
  simp [KernelInfo.pointers, h1, h2, h3, h4, h5]

/-- What one pass of the inner setup loop does when it falls through. -/
theorem setupSlot_next_spec (c : Consts) (env : Env) (eng i : Nat) (s s' : State)
    (h : setupSlot c env eng i s = .next s') :
    (∀ e j, ¬ (e = eng ∧ j = i) → s'.kinfo e j = s.kinfo e j) ∧
    s.next ≤ s'.next ∧
    (3 ≤ i → (s'.kinfo eng i).bufferSet = (s.kinfo eng (i - 3)).bufferSet) ∧
    (i < 3 → env.outputAllocFails eng i = false ∧
      ∀ p ∈ (s'.kinfo eng i).pointers, s.next ≤ p ∧ p < s'.next) ∧
    (s'.kinfo eng i).file_size = env.isz := by
  unfold setupSlot at h
  by_cases h3 : 3 ≤ i
  · rw [if_pos h3] at h
    simp only [Flow.next.injEq] at h
    subst h
    refine ⟨fun e j hne => setupSlotRest_kinfo_other c env eng i _ s e j hne, ?_, ?_, ?_, ?_⟩
    · rw [setupSlotRest_next, if_pos h3]; omega
    · intro _
      rw [setupSlotRest_alias c env eng i _ s h3]
      rfl
    · intro hlt; omega
    · exact setupSlotRest_file_size c env eng i _ s
  · rw [if_neg h3] at h
    have hi : i < 3 := by omega
    cases hf : env.outputAllocFails eng i with
    | true =>
      simp [hf, malloc_fst] at h
    | false =>
      simp only [hf, malloc_fst] at h
      by_cases h0 : s.next = 0
      · simp [h0] at h
      · simp only [Bool.false_eq_true, if_false, h0] at h
        simp only [Flow.next.injEq] at h
        subst h
        refine ⟨fun e j hne => ?_, ?_, ?_, ?_, ?_⟩
        · rw [setupSlotRest_kinfo_other c env eng i _ _ e j hne, malloc_kinfo]
        · rw [setupSlotRest_next, if_neg h3, malloc_next]
          simp only [Bool.false_eq_true, if_false]
          omega
        · intro h; omega
        · intro _
          refine ⟨rfl, ?_⟩
          intro p hp
          rw [bufferSet_pointers (setupSlotRest_fresh c env eng i _ _ hi)] at hp
          rw [setupSlotRest_next, if_neg h3]
          simp only [malloc_next, Bool.false_eq_true, if_false] at hp ⊢
          simp only [List.mem_cons, List.mem_singleton, List.not_mem_nil, or_false] at hp
          rcases hp with hp | hp | hp | hp | hp <;> subst hp <;> constructor <;> omega
        · exact setupSlotRest_file_size c env eng i _ _

theorem alias_mod {α : Type} (f : Nat → α) (N : Nat)
    (halias : ∀ i, 3 ≤ i → i < N → f i = f (i - 3)) : ∀ i, i < N → f i = f (i % 3) := by
  intro i
  induction i using Nat.strong_induction_on with
  | _ i ih =>
    intro hi
    by_cases h3 : 3 ≤ i
    · rw [halias i h3 hi, ih (i - 3) (by omega) (by omega)]
      congr 1
      omega
    · rw [Nat.mod_eq_of_lt (by omega)]

theorem card_image_alias {α : Type} [DecidableEq α] (f : Nat → α) (N : Nat)
    (halias : ∀ i, 3 ≤ i → i < N → f i = f (i - 3))
    (hinj : ∀ i j, i < j → j < N → j < 3 → f i ≠ f j) :
    ((Finset.range N).image f).card = min N 3 := by
  have himg : (Finset.range N).image f = (Finset.range (min N 3)).image f := by
    ext x
    simp only [Finset.mem_image, Finset.mem_range]
    constructor
    · rintro ⟨i, hi, rfl⟩
      refine ⟨i % 3, ?_, (alias_mod f N halias i hi).symm⟩
      have := Nat.mod_le i 3
      have := Nat.mod_lt i (by norm_num : 3 > 0)
      omega
    · rintro ⟨i, hi, rfl⟩
      exact ⟨i, by omega, rfl⟩
  rw [himg, Finset.card_image_of_injOn, Finset.card_range]
  intro i hi j hj hij
  simp only [Finset.coe_range, Set.mem_Iio] at hi hj
  by_contra hne
  rcases Nat.lt_or_gt_of_ne hne with h | h
  · exact hinj i j h (by omega) (by omega) hij
  · exact hinj j i h (by omega) (by omega) hij.symm

theorem SlotsOk.zero (env : Env) (s : State) (eng lo : Nat) : SlotsOk env s eng lo 0 :=
  ⟨fun i _ h => by omega, fun i h => by omega, fun i j _ h => by omega, fun i h => by omega,
    fun i h => by omega⟩

/-- One more slot. -/
theorem SlotsOk.succ_slot (c : Consts) (env : Env) (eng lo k : Nat) (s s' : State)
    (hlo : lo ≤ s.next) (h : SlotsOk env s eng lo k)
    (hs : setupSlot c env eng k s = .next s') : SlotsOk env s' eng lo (k + 1) := by
  obtain ⟨hother, hnext, halias, hfresh, hsize⟩ := setupSlot_next_spec c env eng k s s' hs
  have hold : ∀ j, j < k → s'.kinfo eng j = s.kinfo eng j :=
    fun j hj => hother eng j (by omega)
  constructor
  · intro i h3 hi
    by_cases hik : i = k
    · subst hik
      rw [halias h3, hold (i - 3) (by omega)]
    · rw [hold i (by omega), hold (i - 3) (by omega)]
      exact h.aliased i h3 (by omega)
  · intro i hi h3 p hp
    by_cases hik : i = k
    · subst hik
      have := (hfresh h3).2 p hp
      omega
    · rw [hold i (by omega)] at hp
      have := h.fresh i (by omega) h3 p hp
      omega
  · intro i j hij hj h3 p hp q hq
    rw [hold i (by omega)] at hp
    have hp' := h.fresh i (by omega) (by omega) p hp
    by_cases hjk : j = k
    · subst hjk
      have := (hfresh h3).2 q hq
      omega
    · rw [hold j (by omega)] at hq
      exact h.apart i j hij (by omega) h3 p hp q hq
  · intro i hi
    by_cases hik : i = k
    · subst hik; exact hsize
    · rw [hold i (by omega)]
      exact h.size i (by omega)
  · intro i hi h3
    by_cases hik : i = k
    · subst hik; exact (hfresh h3).1
    · exact h.noFail i (by omega) h3

/-- Slots of other engines and the allocator bound do not invalidate `SlotsOk`. -/
theorem SlotsOk.frame (env : Env) (eng lo k : Nat) (s s' : State) (h : SlotsOk env s eng lo k)
    (hk : ∀ j, s'.kinfo eng j = s.kinfo eng j) (hn : s.next ≤ s'.next) :
    SlotsOk env s' eng lo k := by
  constructor
  · intro i h3 hi; rw [hk, hk]; exact h.aliased i h3 hi
  · intro i hi h3 p hp
    rw [hk] at hp
    have := h.fresh i hi h3 p hp
    omega
  · intro i j hij hj h3 p hp q hq
    rw [hk] at hp hq
    exact h.apart i j hij hj h3 p hp q hq
  · intro i hi; rw [hk]; exact h.size i hi
  · exact h.noFail

/-- What one pass of the outer setup loop does when it falls through. -/
theorem setupEngine_next_spec (c : Consts) (env : Env) (a : Args) (eng : Nat) (s s' : State)
    (h : setupEngine c env a eng s = .next s') :
    SlotsOk env s' eng s.next a.iterations ∧
    (∀ e, e ≠ eng → ∀ j, s'.kinfo e j = s.kinfo e j) ∧ s.next ≤ s'.next ∧
    env.kinfoAllocFails eng = false := by
  unfold setupEngine at h
  simp only [malloc_fst] at h
  cases hf : env.kinfoAllocFails eng with
  | true => simp [hf] at h
  | false =>
    simp only [hf, Bool.false_eq_true, if_false] at h
    by_cases h0 : s.next = 0
    · simp [h0] at h
    · rw [if_neg h0] at h
      have key := forLoop_next (setupSlot c env eng)
        (fun k t => SlotsOk env t eng s.next k ∧ s.next ≤ t.next ∧
          ∀ e, e ≠ eng → ∀ j, t.kinfo e j = s.kinfo e j)
        a.iterations 0 _ s'
        (fun j t t' _ _ hP ht => by
          obtain ⟨h1, h2, h3⟩ := hP
          obtain ⟨hother, hnext, _⟩ := setupSlot_next_spec c env eng j t t' ht
          refine ⟨SlotsOk.succ_slot c env eng s.next j t t' h2 h1 ht, by omega, ?_⟩
          intro e he i
          rw [hother e i (by simp [he]), h3 e he i])
        ⟨SlotsOk.zero env _ eng s.next, by simp [malloc_next],
          by intro e _ j; simp [malloc_kinfo]⟩
        h
      simp only [Nat.zero_add] at key
      exact ⟨key.1, key.2.2, key.2.1, rfl⟩

/-- What the buffer setup loop leaves when it falls through. -/
theorem setup_next_spec (c : Consts) (env : Env) (a : Args) (s s' : State)
    (h : setup c env a s = .next s') :
    (∀ eng, eng < c.kNumEngines → env.kinfoAllocFails eng = false ∧
      ∃ lo, s.next ≤ lo ∧ SlotsOk env s' eng lo a.iterations) ∧ s.next ≤ s'.next := by
  unfold setup at h
  have key := forLoop_next (setupEngine c env a)
    (fun k t => (∀ eng, eng < k → env.kinfoAllocFails eng = false ∧
        ∃ lo, s.next ≤ lo ∧ SlotsOk env t eng lo a.iterations) ∧ s.next ≤ t.next)
    c.kNumEngines 0 s s'
    (fun j t t' _ _ hP ht => by
      obtain ⟨h1, h2⟩ := hP
      obtain ⟨hs, hother, hnext, hnf⟩ := setupEngine_next_spec c env a j t t' ht
      refine ⟨?_, by omega⟩
      intro eng heng
      by_cases hej : eng = j
      · subst hej
        exact ⟨hnf, t.next, h2, hs⟩
      · obtain ⟨hk, lo, hlo, hok⟩ := h1 eng (by omega)
        exact ⟨hk, lo, hlo, hok.frame env eng lo _ t t' (hother eng hej) hnext⟩)
    ⟨fun eng he => by omega, le_refl _⟩
    h
  simpa using key

theorem Extends.emit_of {Q : Event → Prop} {s t : State} (h : Extends Q s t) (e : Event)
    (he : Q e) : Extends Q s (t.emit e) :=
  h.trans (Extends.emit t e he)

theorem Extends.malloc_of {Q : Event → Prop} {s t : State} (h : Extends Q s t) (fails : Bool)
    (what : Buf) (eng i size : Nat) (hq : ∀ addr, Q (.alloc what eng i size addr)) :
    Extends Q s (t.malloc fails what eng i size).2 :=
  h.trans ⟨[.alloc what eng i size (t.malloc fails what eng i size).1],
    malloc_trace t fails what eng i size, by simpa using hq _⟩

theorem Extends.setSlot_of {Q : Event → Prop} {s t : State} (h : Extends Q s t) (eng i : Nat)
    (k : KernelInfo) : Extends Q s (t.setSlot eng i k) :=
  h.trans (Extends.of_trace_eq Q _ _ rfl)

theorem readInput_extends (c : Consts) (env : Env) (s : State) :
    Extends (kindIn preludeKinds) s (readInput c env s).state := by
  have h0 : Extends (kindIn preludeKinds) s
      (if env.isS10 && !env.prepin then s.emit (.print .warnNoPrepin) else s) := by
    split
    · exact Extends.emit s _ (by simp [kindIn, preludeKinds, Event.kind])
    · exact Extends.refl _ s
  unfold readInput
  by_cases ho : env.fileOpen = true
  · simp only [ho, if_true, Flow.state]
    exact (h0.malloc_of false .inputImage 0 0 _ (by simp [kindIn, preludeKinds, Event.kind])).trans
      (Extends.of_trace_eq _ _ _ rfl)
  · simp only [ho, if_false, Flow.state]
    exact h0.emit_of _ (by simp [kindIn, preludeKinds, Event.kind])

theorem checkMinimum_extends (c : Consts) (env : Env) (s : State) :
    Extends (kindIn [.minsize]) s (checkMinimum c env s).state := by
  unfold checkMinimum
  split
  · exact Extends.emit s _ (by simp [kindIn, Event.kind])
  · exact Extends.refl _ s

theorem setupSlotRest_extends (c : Consts) (env : Env) (eng i p : Nat) (s : State) :
    Extends (kindIn preludeKinds) s (setupSlotRest c env eng i p s) := by
  unfold setupSlotRest
  have hq : ∀ what size addr, (kindIn preludeKinds) (.alloc what eng i size addr) := by
    intro what size addr; simp [kindIn, preludeKinds, Event.kind]
  by_cases h : 3 ≤ i
  · simp only [h, if_true]
    exact ((Extends.refl _ s).malloc_of _ _ _ _ _ (hq _ _)).setSlot_of _ _ _
  · simp only [h, if_false]
    exact ((((((Extends.refl _ s).malloc_of _ _ _ _ _ (hq _ _)).malloc_of _ _ _ _ _
      (hq _ _)).malloc_of _ _ _ _ _ (hq _ _)).malloc_of _ _ _ _ _ (hq _ _)).malloc_of
      _ _ _ _ _ (hq _ _)).setSlot_of _ _ _

theorem setupSlot_extends (c : Consts) (env : Env) (eng i : Nat) (s : State) :
    Extends (kindIn preludeKinds) s (setupSlot c env eng i s).state := by
  unfold setupSlot
  split
  · exact setupSlotRest_extends c env eng i _ s
  · have h1 : Extends (kindIn preludeKinds) s
        (s.malloc (env.outputAllocFails eng i) .poutput_buffer eng i
          (toSizeT (outputSize c env.isz))).2 :=
      (Extends.refl _ s).malloc_of _ _ _ _ _ (by simp [kindIn, preludeKinds, Event.kind])
    simp only
    split
    · exact (h1.emit_of _ (by simp [kindIn, preludeKinds, Event.kind])).emit_of _
        (by simp [kindIn, preludeKinds, Event.kind])
    · exact h1.trans (setupSlotRest_extends c env eng i _ _)

theorem setupEngine_extends (c : Consts) (env : Env) (a : Args) (eng : Nat) (s : State) :
    Extends (kindIn preludeKinds) s (setupEngine c env a eng s).state := by
  unfold setupEngine
  have h1 : Extends (kindIn preludeKinds) s
      (s.malloc (env.kinfoAllocFails eng) .kinfoArray eng 0
          (wrapSizeT (c.sizeofKernelInfo * a.iterations))).2 :=
    (Extends.refl _ s).malloc_of _ _ _ _ _ (by simp [kindIn, preludeKinds, Event.kind])
  have h2 := h1.trans (Extends.of_trace_eq (kindIn preludeKinds) _
    { (s.malloc (env.kinfoAllocFails eng) .kinfoArray eng 0
        (wrapSizeT (c.sizeofKernelInfo * a.iterations))).2 with
      kinfoPtr := fun e => if e = eng then (s.malloc (env.kinfoAllocFails eng) .kinfoArray eng 0
        (wrapSizeT (c.sizeofKernelInfo * a.iterations))).1
      else (s.malloc (env.kinfoAllocFails eng) .kinfoArray eng 0
        (wrapSizeT (c.sizeofKernelInfo * a.iterations))).2.kinfoPtr e } rfl)
  simp only
  split
  · exact h2.emit_of _ (by simp [kindIn, preludeKinds, Event.kind])
  · exact h2.trans (forLoop_extends _ _ (setupSlot_extends c env eng) _ _ _)

theorem setup_extends (c : Consts) (env : Env) (a : Args) (s : State) :
    Extends (kindIn preludeKinds) s (setup c env a s).state :=
  forLoop_extends _ _ (setupEngine_extends c env a) _ _ _

/-- An inner loop whose pass `i` rewrites slot `(eng, i)` alone. -/
theorem slotLoop_kinfo (body : Nat → State → Flow State) (eng : Nat)
    (U : Nat → KernelInfo → KernelInfo)
    (hb : ∀ i t t', body i t = .next t' → ∀ e j,
      t'.kinfo e j = if e = eng ∧ j = i then U i (t.kinfo e j) else t.kinfo e j)
    (n : Nat) (s s' : State) (h : forLoop body n 0 s = .next s') :
    ∀ e j, s'.kinfo e j = if e = eng ∧ j < n then U j (s.kinfo e j) else s.kinfo e j := by
  have key := forLoop_next body
    (fun k t => ∀ e j, t.kinfo e j = if e = eng ∧ j < k then U j (s.kinfo e j) else s.kinfo e j)
    n 0 s s'
    (fun i t t' _ _ hP ht e j => by
      rw [hb i t t' ht e j, hP e j]
      by_cases h1 : e = eng ∧ j = i
      · obtain ⟨rfl, rfl⟩ := h1
        simp
      · rw [if_neg h1]
        by_cases h2 : e = eng ∧ j < i
        · rw [if_pos h2, if_pos ⟨h2.1, by omega⟩]
        · rw [if_neg h2, if_neg]
          rintro ⟨h3, h4⟩
          rcases Nat.lt_succ_iff_lt_or_eq.1 h4 with h5 | h5
          · exact h2 ⟨h3, h5⟩
          · exact h1 ⟨h3, h5⟩)
    (fun e j => by simp)
    h
  simpa using key

/-- An outer loop whose pass `eng` rewrites the slots `(eng, j)`, `j < n`, alone. -/
theorem engineLoop_kinfo (body : Nat → State → Flow State) (n : Nat)
    (U : Nat → Nat → KernelInfo → KernelInfo)
    (hb : ∀ eng t t', body eng t = .next t' → ∀ e j,
      t'.kinfo e j = if e = eng ∧ j < n then U e j (t.kinfo e j) else t.kinfo e j)
    (m : Nat) (s s' : State) (h : forLoop body m 0 s = .next s') :
    ∀ e j, s'.kinfo e j = if e < m ∧ j < n then U e j (s.kinfo e j) else s.kinfo e j := by
  have key := forLoop_next body
    (fun k t => ∀ e j,
      t.kinfo e j = if e < k ∧ j < n then U e j (s.kinfo e j) else s.kinfo e j)
    m 0 s s'
    (fun i t t' _ _ hP ht e j => by
      rw [hb i t t' ht e j, hP e j]
      by_cases h1 : e = i ∧ j < n
      · obtain ⟨rfl, h1⟩ := h1
        simp [h1]
      · rw [if_neg h1]
        by_cases h2 : e < i ∧ j < n
        · rw [if_pos h2, if_pos ⟨by omega, h2.2⟩]
        · rw [if_neg h2, if_neg]
          rintro ⟨h3, h4⟩
          rcases Nat.lt_succ_iff_lt_or_eq.1 h3 with h5 | h5
          · exact h2 ⟨h5, h4⟩
          · exact h1 ⟨h5, h4⟩)
    (fun e j => by simp)
    h
  simpa using key

/-! ### The submission loop -/

theorem submitSlot_eq (i eng : Nat) (s : State) :
    submitSlot i eng s = .next { s with trace := s.trace ++
      [.submit .inputCopy eng i, .submit .compute eng i, .print .currentCrcPtr,
        .submit .outputCopy eng i, .submit .sizeCopy eng i, .submit .crcCopy eng i] } := by
  simp [submitSlot, State.emit]

/-- A loop whose passes all fall through, changing the trace alone. -/
theorem forLoop_traceOnly (body : Nat → State → Flow State) (g : Nat → List Event)
    (hb : ∀ j t, body j t = .next { t with trace := t.trace ++ g j }) :
    ∀ (n i : Nat) (s : State), forLoop body n i s =
      .next { s with trace := s.trace ++ (List.range' i n).flatMap g } := by
  intro n
  induction n with
  | zero => intro i s; simp
  | succ n ih =>
    intro i s
    rw [forLoop_succ, hb, Flow.bind_next, ih]
    simp [List.range'_succ, List.flatMap_cons, List.append_assoc]

theorem submitAll_eq (c : Consts) (a : Args) (s : State) :
    submitAll c a s = .next { s with trace := s.trace ++ submitTrace c.kNumEngines a.iterations } := by
  unfold submitAll submitTrace
  exact forLoop_traceOnly _ _
    (fun i t => forLoop_traceOnly _ _ (fun eng u => submitSlot_eq i eng u) _ _ _) _ _ _

theorem timeAll_eq (c : Consts) (a : Args) (s : State) :
    timeAll c a s = .next { s with trace := s.trace ++ timeTrace c.kNumEngines a.iterations } := by
  unfold timeAll timeTrace
  exact forLoop_traceOnly _ _
    (fun eng t => forLoop_traceOnly _ _ (fun i u => by simp [timeSlot, State.emit]) _ _ _) _ _ _

/-! ### The wait barrier -/

theorem waitSlot_kinfo (env : Env) (eng i : Nat) (s s' : State)
    (h : waitSlot env eng i s = .next s') : ∀ e j,
    s'.kinfo e j = if e = eng ∧ j = i then copiedBack env eng i (s.kinfo e j) else s.kinfo e j := by
  unfold waitSlot at h
  simp only [Flow.next.injEq] at h
  subst h
  intro e j
  by_cases h1 : e = eng ∧ j = i
  · obtain ⟨rfl, rfl⟩ := h1
    simp [State.setSlot, State.emit, copiedBack]
  · simp [State.setSlot, State.emit, h1]

theorem waitSlot_extends (env : Env) (eng i : Nat) (s : State) :
    Extends (kindIn [.wait]) s (waitSlot env eng i s).state := by
  unfold waitSlot
  simp only [Flow.state]
  refine ⟨[.wait .e_output_dma eng i, .wait .e_size_dma eng i, .wait .e_crc_dma eng i], ?_, ?_⟩
  · simp [State.setSlot, State.emit]
  · simp [kindIn, Event.kind]

theorem waitEngine_total (env : Env) (n eng : Nat) (s : State) :
    ∃ s', forLoop (waitSlot env eng) n 0 s = .next s' := by
  obtain ⟨s', h, _⟩ := forLoop_total (waitSlot env eng) (fun _ _ => True) n 0 s
    (fun j t _ _ _ => ⟨_, rfl, trivial⟩) trivial
  exact ⟨s', h⟩

/-- The wait barrier falls through, with every slot holding what was copied back. -/
theorem waitAll_spec (c : Consts) (env : Env) (a : Args) (s : State) :
    ∃ s', waitAll c env a s = .next s' ∧
      (∀ e j, s'.kinfo e j = if e < c.kNumEngines ∧ j < a.iterations
        then copiedBack env e j (s.kinfo e j) else s.kinfo e j) ∧
      Extends (kindIn [.wait]) s s' := by
  unfold waitAll
  obtain ⟨s', h, _⟩ := forLoop_total
    (fun eng => forLoop (waitSlot env eng) a.iterations 0) (fun _ _ => True)
    c.kNumEngines 0 s
    (fun j t _ _ _ => by
      obtain ⟨t', ht'⟩ := waitEngine_total env a.iterations j t
      exact ⟨t', ht', trivial⟩) trivial
  refine ⟨s', h, ?_, ?_⟩
  · exact engineLoop_kinfo _ a.iterations (copiedBack env)
      (fun eng t t' ht e j => by
        rw [slotLoop_kinfo _ eng (copiedBack env eng)
          (fun i u u' hu => waitSlot_kinfo env eng i u u' hu) _ t t' ht e j]
        by_cases h1 : e = eng ∧ j < a.iterations
        · obtain ⟨rfl, h1⟩ := h1
          simp [h1]
        · simp [h1]) _ s s' h
  · have := forLoop_extends (kindIn [.wait])
      (fun eng => forLoop (waitSlot env eng) a.iterations 0)
      (fun eng t => forLoop_extends (kindIn [.wait]) _ (waitSlot_extends env eng) _ _ _)
      c.kNumEngines 0 s
    rw [h] at this
    exact this

/-! ### Validation -/

theorem validateSlot_cases (c : Consts) (env : Env) (eng i : Nat) (s : State) :
    ((s.kinfo eng i).out_info0 ≤ (s.kinfo eng i).file_size ∧
      ∃ s', validateSlot c env eng i s = .next s' ∧ s'.trace = s.trace ∧
        ∀ e j, s'.kinfo e j =
          if e = eng ∧ j = i then reconciled c env (s.kinfo e j) else s.kinfo e j) ∨
    ((s.kinfo eng i).file_size < (s.kinfo eng i).out_info0 ∧
      validateSlot c env eng i s = .ret 1 (s.emit (.print .unsupportedLarger))) := by
  unfold validateSlot
  by_cases h : (s.kinfo eng i).out_info0 > (s.kinfo eng i).file_size
  · right
    rw [if_pos h]
    exact ⟨h, rfl⟩
  · left
    rw [if_neg h]
    refine ⟨by omega, _, rfl, rfl, ?_⟩
    intro e j
    by_cases h1 : e = eng ∧ j = i
    · obtain ⟨rfl, rfl⟩ := h1
      simp [State.setSlot, reconciled]
    · simp [State.setSlot, h1]

theorem validateSlot_extends (c : Consts) (env : Env) (eng i : Nat) (s : State) :
    Extends (kindIn [.note]) s (validateSlot c env eng i s).state := by
  rcases validateSlot_cases c env eng i s with ⟨_, s', h, ht, _⟩ | ⟨_, h⟩
  · rw [h]; exact Extends.of_trace_eq _ _ _ ht
  · rw [h]; exact Extends.emit s _ (by simp [kindIn, Event.kind])

theorem validateSlot_kinfo (c : Consts) (env : Env) (eng i : Nat) (s s' : State)
    (h : validateSlot c env eng i s = .next s') : ∀ e j,
    s'.kinfo e j = if e = eng ∧ j = i then reconciled c env (s.kinfo e j) else s.kinfo e j := by
  rcases validateSlot_cases c env eng i s with ⟨_, t, ht, _, hk⟩ | ⟨_, hr⟩
  · rw [ht] at h
    simp only [Flow.next.injEq] at h
    subst h
    exact hk
  · rw [hr] at h; cases h

theorem Reported.of_kinfo {c : Consts} {env : Env} {a : Args} {s t : State}
    (h : Reported c env a s)
    (hk : ∀ e j, (t.kinfo e j).out_info0 = (s.kinfo e j).out_info0 ∧
      (t.kinfo e j).file_size = (s.kinfo e j).file_size) : Reported c env a t := by
  intro e j he hj
  rw [(hk e j).1, (hk e j).2]
  exact h e j he hj

/-- The validation of one engine: it falls through when every size it checks
is within the input size, and returns 1 otherwise. -/
theorem validateEngine_cases (c : Consts) (env : Env) (a : Args) (eng : Nat) (s : State)
    (heng : eng < c.kNumEngines) (hs : Reported c env a s) :
    (∃ s', forLoop (validateSlot c env eng) a.iterations 0 s = .next s' ∧
      (Reported c env a s' ∧ ∀ j, j < a.iterations → env.compression_sz eng j ≤ env.isz)) ∨
    (∃ s', forLoop (validateSlot c env eng) a.iterations 0 s = .ret 1 s' ∧
      ∃ e j, e < c.kNumEngines ∧ j < a.iterations ∧ env.isz < env.compression_sz e j) := by
  have key := forLoop_cases (validateSlot c env eng)
    (fun k t => Reported c env a t ∧ ∀ j, j < k → env.compression_sz eng j ≤ env.isz)
    (fun _ => ∃ e j, e < c.kNumEngines ∧ j < a.iterations ∧ env.isz < env.compression_sz e j)
    1 a.iterations 0 s
    (fun i t _ hi hP => by
      obtain ⟨hrep, hdone⟩ := hP
      have hri := hrep eng i heng (by omega)
      rcases validateSlot_cases c env eng i t with ⟨hle, t', ht', _, hk⟩ | ⟨hlt, hr⟩
      · left
        refine ⟨t', ht', ?_, ?_⟩
        · refine hrep.of_kinfo (fun e j => ?_)
          rw [hk e j]
          split <;> simp [reconciled]
        · intro j hj
          rcases Nat.lt_succ_iff_lt_or_eq.1 hj with h5 | h5
          · exact hdone j h5
          · subst h5
            rw [hri.1, hri.2] at hle
            exact hle
      · right
        refine ⟨_, hr, eng, i, heng, by omega, ?_⟩
        rw [hri.1, hri.2] at hlt
        exact hlt)
    ⟨hs, fun j hj => by omega⟩
  simpa using key

/-- The validation loops: they fall through when every reported size is within
the input size, and return 1 otherwise. -/
theorem validateAll_cases (c : Consts) (env : Env) (a : Args) (s : State)
    (hs : Reported c env a s) :
    (∃ s', validateAll c env a s = .next s' ∧ Reported c env a s' ∧
      ∀ e j, e < c.kNumEngines → j < a.iterations → env.compression_sz e j ≤ env.isz) ∨
    (∃ s', validateAll c env a s = .ret 1 s' ∧
      ∃ e j, e < c.kNumEngines ∧ j < a.iterations ∧ env.isz < env.compression_sz e j) := by
  unfold validateAll
  have key := forLoop_cases
    (fun eng s0 => forLoop (validateSlot c env eng) a.iterations 0
      { s0 with compressed_sz := fun e => if e = eng then 0 else s0.compressed_sz e })
    (fun k t => Reported c env a t ∧
      ∀ e j, e < k → j < a.iterations → env.compression_sz e j ≤ env.isz)
    (fun _ => ∃ e j, e < c.kNumEngines ∧ j < a.iterations ∧ env.isz < env.compression_sz e j)
    1 c.kNumEngines 0 s
    (fun eng t _ heng hP => by
      obtain ⟨hrep, hdone⟩ := hP
      rcases validateEngine_cases c env a eng
        { t with compressed_sz := fun e => if e = eng then 0 else t.compressed_sz e }
        (by omega) (hrep.of_kinfo (fun e j => ⟨rfl, rfl⟩)) with ⟨t', ht', hr', hall⟩ | h
      · left
        refine ⟨t', ht', hr', ?_⟩
        intro e j he hj
        rcases Nat.lt_succ_iff_lt_or_eq.1 he with h5 | h5
        · exact hdone e j h5 hj
        · subst h5; exact hall j hj
      · right
        exact h)
    ⟨hs, fun e j he => by omega⟩
  simpa using key

theorem validateAll_extends (c : Consts) (env : Env) (a : Args) (s : State) :
    Extends (kindIn [.note]) s (validateAll c env a s).state := by
  unfold validateAll
  exact forLoop_extends (kindIn [.note]) _
    (fun eng t => (Extends.of_trace_eq (kindIn [.note]) t
      { t with compressed_sz := fun e => if e = eng then 0 else t.compressed_sz e } rfl).trans
      (forLoop_extends (kindIn [.note]) _ (validateSlot_extends c env eng) _ _ _)) _ _ _

/-! ### Projections of a trace -/

theorem kind_ne_of_mem {l : List Kind} {K : Kind} (hK : K ∉ l) {e : Event}
    (he : kindIn l e) : e.kind ≠ K := by
  intro h
  rw [kindIn, h] at he
  exact hK he

theorem Event.submission?_of_kind (e : Event) (h : e.kind ≠ .submit) : e.submission? = none := by
  cases e <;> simp_all [Event.kind, Event.submission?]

theorem Event.writeCall?_of_kind (e : Event) (h : e.kind ≠ .write) : e.writeCall? = none := by
  cases e <;> simp_all [Event.kind, Event.writeCall?]

theorem Event.compareCall?_of_kind (e : Event) (h : e.kind ≠ .compare) :
    e.compareCall? = none := by
  cases e <;> simp_all [Event.kind, Event.compareCall?]

theorem Event.request?_of_kind (eng : Nat) (e : Event) (h : e.kind ≠ .alloc) :
    e.request? eng = none := by
  cases e <;> simp_all [Event.kind, Event.request?]

/-- Events that a projection ignores do not change what it sees. -/
theorem Extends.filterMap_eq {β : Type} (f : Event → Option β) {Q : Event → Prop}
    {s t : State} (h : Extends Q s t) (hf : ∀ e, Q e → f e = none) :
    t.trace.filterMap f = s.trace.filterMap f := by
  obtain ⟨Y, e, q⟩ := h
  rw [e, List.filterMap_append]
  have : Y.filterMap f = [] := by
    rw [List.filterMap_eq_nil_iff]
    exact fun x hx => hf x (q x hx)
  rw [this, List.append_nil]

/-- Events of kinds other than `K` leave a trace without events of kind `K` so. -/
theorem Extends.no_kind {l : List Kind} {K : Kind} (hK : K ∉ l) {s t : State}
    (h : Extends (kindIn l) s t) (hs : ∀ e ∈ s.trace, e.kind ≠ K) :
    ∀ e ∈ t.trace, e.kind ≠ K := by
  obtain ⟨Y, e, q⟩ := h
  intro x hx
  rw [e] at hx
  rcases List.mem_append.1 hx with h1 | h1
  · exact hs x h1
  · exact kind_ne_of_mem hK (q x h1)

theorem Extends.kinds_mono {l l' : List Kind} (hl : ∀ K ∈ l, K ∈ l') {s t : State}
    (h : Extends (kindIn l) s t) : Extends (kindIn l') s t :=
  h.mono (fun _ he => hl _ he)

/-- The projection of the trace of a loop that falls through. -/
theorem forLoop_proj {β : Type} (f : Event → Option β) (body : Nat → State → Flow State)
    (g : Nat → List β) (n i : Nat) (s s' : State)
    (hb : ∀ j t t', i ≤ j → j < i + n → body j t = .next t' →
      t'.trace.filterMap f = t.trace.filterMap f ++ g j)
    (h : forLoop body n i s = .next s') :
    s'.trace.filterMap f = s.trace.filterMap f ++ (List.range' i n).flatMap g := by
  have key := forLoop_next body
    (fun k t => t.trace.filterMap f = s.trace.filterMap f ++ (List.range' i (k - i)).flatMap g)
    n i s s'
    (fun j t t' h1 h2 hP ht => by
      show t'.trace.filterMap f = s.trace.filterMap f ++ (List.range' i (j + 1 - i)).flatMap g
      have hP' : t.trace.filterMap f =
        s.trace.filterMap f ++ (List.range' i (j - i)).flatMap g := hP
      rw [hb j t t' h1 h2 ht, hP']
      have e1 : j + 1 - i = (j - i) + 1 := by omega
      rw [e1, List.range'_concat, List.flatMap_append, List.append_assoc]
      have e2 : i + (j - i) = j := by omega
      simp [e2])
    (by simp) h
  simpa using key

/-! ### Release of the input, writer and comparator -/

theorem freeInput_eq (s : State) :
    freeInput s = .next (s.emit (.free .inputImage 0 0 s.pinbuf)) := rfl

/-- Kinds of the events of the write loop. -/
theorem writeEngine_extends (env : Env) (a : Args) (eng : Nat) (s : State) :
    Extends (kindIn [.write, .note]) s (writeEngine env a eng s).state := by
  unfold writeEngine
  by_cases h0 : a.iterations = 0
  · rw [if_pos h0]; exact Extends.refl _ s
  · rw [if_neg h0]
    have h1 : Extends (kindIn [.write, .note]) s (s.emit (.print .crcLine)) :=
      Extends.emit s _ (by simp [kindIn, Event.kind])
    by_cases hr : a.report = true
    · simp only [hr, if_true]
      have h2 := h1.emit_of (.writeBlockGzip eng (a.outfilenames eng)
        (s.kinfo eng 0).poutput_buffer (s.content (s.kinfo eng 0).poutput_buffer)
        (s.kinfo eng 0).out_info0 (s.kinfo eng 0).file_size (s.kinfo eng 0).buffer_crc0)
        (by simp [kindIn, Event.kind])
      split
      · exact h2.emit_of _ (by simp [kindIn, Event.kind])
      · exact h2
    · simp only [hr]
      exact h1

theorem writeAll_extends (c : Consts) (env : Env) (a : Args) (s : State) :
    Extends (kindIn [.write, .note]) s (writeAll c env a s).state :=
  forLoop_extends _ _ (writeEngine_extends env a) _ _ _

theorem writeEngine_next (env : Env) (a : Args) (eng : Nat) (s : State)
    (hN : 0 < a.iterations) (hw : a.report = true → env.writeResult eng = 0) :
    ∃ s', writeEngine env a eng s = .next s' ∧ s'.kinfo = s.kinfo ∧
      s'.trace.filterMap Event.writeCall? = s.trace.filterMap Event.writeCall? ++
        (if a.report then [(eng, a.outfilenames eng)] else []) := by
  unfold writeEngine
  rw [if_neg (by omega)]
  by_cases hr : a.report = true
  · simp only [hr, if_true, hw hr, ne_eq, not_true_eq_false, if_false]
    refine ⟨_, rfl, rfl, ?_⟩
    simp [State.emit, List.filterMap_append, Event.writeCall?]
  · simp only [hr]
    refine ⟨_, rfl, rfl, ?_⟩
    simp [State.emit, List.filterMap_append, Event.writeCall?]

/-- With at least one iteration and no failing write, the write loop falls
through, having called the writer once per engine, in engine order, when
`report` is set and not at all otherwise. -/
theorem writeAll_next (c : Consts) (env : Env) (a : Args) (s : State)
    (hN : 0 < a.iterations)
    (hw : a.report = true → ∀ eng, eng < c.kNumEngines → env.writeResult eng = 0) :
    ∃ s', writeAll c env a s = .next s' ∧
      s'.trace.filterMap Event.writeCall? = s.trace.filterMap Event.writeCall? ++
        (List.range' 0 c.kNumEngines).flatMap
          (fun eng => if a.report then [(eng, a.outfilenames eng)] else []) := by
  unfold writeAll
  obtain ⟨s', h, _⟩ := forLoop_total (writeEngine env a) (fun _ _ => True) c.kNumEngines 0 s
    (fun j t _ hj _ => by
      obtain ⟨t', ht', _⟩ := writeEngine_next env a j t hN (fun hr => hw hr j (by omega))
      exact ⟨t', ht', trivial⟩) trivial
  refine ⟨s', h, ?_⟩
  exact forLoop_proj Event.writeCall? (writeEngine env a) _ c.kNumEngines 0 s s'
    (fun j t t' _ hj ht => by
      obtain ⟨u, hu, _, hp⟩ := writeEngine_next env a j t hN (fun hr => hw hr j (by omega))
      rw [hu] at ht
      simp only [Flow.next.injEq] at ht
      subst ht
      exact hp) h

theorem compareStage_extends (env : Env) (a : Args) (s : State) :
    Extends (kindIn [.compare, .note]) s (compareStage env a s).state := by
  unfold compareStage
  by_cases hr : a.report = true
  · simp only [hr, if_true]
    have h1 : Extends (kindIn [.compare, .note]) s
        (s.emit (.compareGzipFiles (a.outfilenames 0))) :=
      Extends.emit s _ (by simp [kindIn, Event.kind])
    split
    · exact h1.emit_of _ (by simp [kindIn, Event.kind])
    · exact h1
  · rw [if_neg hr]
    exact Extends.refl _ s

theorem compareStage_quiet (env : Env) (a : Args) (s : State) (hr : a.report = false) :
    compareStage env a s = .next s := by
  simp [compareStage, hr]

/-! ### Timing, report, cleanup -/

theorem timeAll_extends (c : Consts) (a : Args) (s : State) :
    Extends (kindIn [.wait]) s (timeAll c a s).state := by
  rw [timeAll_eq]
  refine ⟨_, rfl, ?_⟩
  intro e he
  simp only [timeTrace, List.mem_flatMap, List.mem_cons, List.mem_singleton,
    List.not_mem_nil, or_false] at he
  obtain ⟨_, _, _, _, h | h | h⟩ := he <;> subst h <;> simp [kindIn, Event.kind]

theorem reportStage_spec (c : Consts) (a : Args) (s : State) :
    ∃ s', reportStage c a s = .next s' ∧ Extends (kindIn [.note]) s s' ∧
      s'.kinfo = s.kinfo ∧ s'.kinfoPtr = s.kinfoPtr := by
  unfold reportStage
  by_cases hr : a.report = true
  · simp only [hr, if_true]
    by_cases he : c.fpgaEmulator = true
    · simp only [he, if_true, Flow.bind_next]
      exact ⟨_, rfl, Extends.emit s _ (by simp [kindIn, Event.kind]), rfl, rfl⟩
    · simp only [he]
      rw [forLoop_traceOnly (fun _ s0 => Flow.next (s0.emit (.print .tpBreakdown)))
        (fun _ => [.print .tpBreakdown]) (fun j t => rfl)]
      refine ⟨_, rfl, ?_, rfl, rfl⟩
      refine ⟨.print .throughput :: ((List.range' 0 c.kNumEngines).flatMap
        (fun _ => [.print .tpBreakdown]) ++ [.print .compressionRatio]), ?_, ?_⟩
      · simp [State.emit]
      · intro e he
        simp only [List.mem_cons, List.mem_append, List.mem_flatMap, List.mem_singleton,
          List.not_mem_nil, or_false] at he
        rcases he with h | ⟨_, _, h⟩ | h <;> subst h <;> simp [kindIn, Event.kind]
  · rw [if_neg hr]
    exact ⟨s, rfl, Extends.refl _ s, rfl, rfl⟩

theorem cleanupSlot_extends (eng i : Nat) (s : State) :
    Extends (kindIn [.free]) s (cleanupSlot eng i s).state := by
  unfold cleanupSlot
  simp only [Flow.state]
  have hq : ∀ what addr, kindIn [.free] (.free what eng i addr) := by
    intro what addr; simp [kindIn, Event.kind]
  by_cases h : i < 3
  · simp only [h, if_true]
    exact ((((((Extends.refl _ s).emit_of _ (hq _ _)).emit_of _ (hq _ _)).emit_of _
      (hq _ _)).emit_of _ (hq _ _)).emit_of _ (hq _ _)).emit_of _ (hq _ _)
  · simp only [h, if_false]
    exact (Extends.refl _ s).emit_of _ (hq _ _)

theorem cleanupAll_spec (c : Consts) (a : Args) (s : State) :
    ∃ s', cleanupAll c a s = .next s' ∧ Extends (kindIn [.free]) s s' := by
  unfold cleanupAll
  have hslot : ∀ eng t, ∃ t', forLoop (cleanupSlot eng) a.iterations 0 t = .next t' := by
    intro eng t
    obtain ⟨t', ht', _⟩ := forLoop_total (cleanupSlot eng) (fun _ _ => True) a.iterations 0 t
      (fun j u _ _ _ => ⟨_, rfl, trivial⟩) trivial
    exact ⟨t', ht'⟩
  obtain ⟨s', h, _⟩ := forLoop_total
    (fun eng s0 => (forLoop (cleanupSlot eng) a.iterations 0 s0).bind
      (fun s1 => .next (s1.emit (.free .kinfoArray eng 0 (s1.kinfoPtr eng)))))
    (fun _ _ => True) c.kNumEngines 0 s
    (fun j t _ _ _ => by
      obtain ⟨t', ht'⟩ := hslot j t
      refine ⟨t'.emit (.free .kinfoArray j 0 (t'.kinfoPtr j)), ?_, trivial⟩
      show (forLoop (cleanupSlot j) a.iterations 0 t).bind _ = _
      rw [ht']
      rfl) trivial
  refine ⟨s', h, ?_⟩
  have := forLoop_extends (kindIn [.free])
    (fun eng s0 => (forLoop (cleanupSlot eng) a.iterations 0 s0).bind
      (fun s1 => .next (s1.emit (.free .kinfoArray eng 0 (s1.kinfoPtr eng)))))
    (fun eng t => bind_extends _ t _ _
      (forLoop_extends _ _ (cleanupSlot_extends eng) _ _ _)
      (fun u => Extends.emit u _ (by simp [kindIn, Event.kind])))
    c.kNumEngines 0 s
  rw [h] at this
  exact this

theorem Flow.bind_assoc {σ : Type} (x : Flow σ) (f g : σ → Flow σ) :
    (x.bind f).bind g = x.bind (fun s => (f s).bind g) := by
  cases x <;> rfl

theorem CompressFile_eq_reachValidate (c : Consts) (env : Env) (a : Args) :
    CompressFile c env a = (reachValidate c env a).bind (afterValidate c env a) := by
  simp only [CompressFile, afterChecks, reachValidate, Flow.bind_assoc]

/-! ### The prelude -/

theorem readInput_open (c : Consts) (env : Env) (s : State) (h : env.fileOpen = true) :
    ∃ s', readInput c env s = .next s' ∧ s'.next = s.next + 1 ∧ s'.pinbuf = s.next := by
  by_cases hw : (env.isS10 && !env.prepin) = true
  · exact ⟨_, by simp only [readInput, h, hw, if_true]; rfl, rfl, rfl⟩
  · exact ⟨_, by simp only [readInput, h, hw, if_true, if_false]; rfl, rfl, rfl⟩

theorem readInput_closed (c : Consts) (env : Env) (s : State) (h : env.fileOpen = false) :
    ∃ s', readInput c env s = .ret 1 s' := by
  unfold readInput
  simp only [h]
  exact ⟨_, rfl⟩

theorem checkMinimum_pass (c : Consts) (env : Env) (s : State)
    (h : ¬ env.isz < toSizeT (minimum_filesize c)) : checkMinimum c env s = .next s := by
  unfold checkMinimum
  rw [if_neg h]

theorem checkMinimum_reject (c : Consts) (env : Env) (s : State)
    (h : env.isz < toSizeT (minimum_filesize c)) :
    checkMinimum c env s = .ret 1 (s.emit (.print .minimumFilesize)) := by
  unfold checkMinimum
  rw [if_pos h]

theorem setupSlot_cases (c : Consts) (env : Env) (eng i : Nat) (s : State) :
    (∃ s', setupSlot c env eng i s = .next s') ∨ (∃ s', setupSlot c env eng i s = .ret 1 s') := by
  unfold setupSlot
  split
  · exact Or.inl ⟨_, rfl⟩
  · simp only
    split
    · exact Or.inr ⟨_, rfl⟩
    · exact Or.inl ⟨_, rfl⟩

theorem setupEngine_cases (c : Consts) (env : Env) (a : Args) (eng : Nat) (s : State) :
    (∃ s', setupEngine c env a eng s = .next s') ∨
      (∃ s', setupEngine c env a eng s = .ret 1 s') := by
  unfold setupEngine
  simp only
  split
  · exact Or.inr ⟨_, rfl⟩
  · rcases forLoop_cases (setupSlot c env eng) (fun _ _ => True) (fun _ => True) 1
      a.iterations 0 _ (fun j t _ _ _ => by
        rcases setupSlot_cases c env eng j t with ⟨t', h⟩ | ⟨t', h⟩
        · exact Or.inl ⟨t', h, trivial⟩
        · exact Or.inr ⟨t', h, trivial⟩) trivial with ⟨s', h, _⟩ | ⟨s', h, _⟩
    · exact Or.inl ⟨s', h⟩
    · exact Or.inr ⟨s', h⟩

/-- The setup loop falls through or returns 1. -/
theorem setup_cases (c : Consts) (env : Env) (a : Args) (s : State) :
    (∃ s', setup c env a s = .next s') ∨ (∃ s', setup c env a s = .ret 1 s') := by
  unfold setup
  rcases forLoop_cases (setupEngine c env a) (fun _ _ => True) (fun _ => True) 1
    c.kNumEngines 0 s (fun j t _ _ _ => by
      rcases setupEngine_cases c env a j t with ⟨t', h⟩ | ⟨t', h⟩
      · exact Or.inl ⟨t', h, trivial⟩
      · exact Or.inr ⟨t', h, trivial⟩) trivial with ⟨s', h, _⟩ | ⟨s', h, _⟩
  · exact Or.inl ⟨s', h⟩
  · exact Or.inr ⟨s', h⟩

theorem setupSlot_total (c : Consts) (env : Env) (eng i : Nat) (s : State) (h0 : 0 < s.next)
    (hf : i < 3 → env.outputAllocFails eng i = false) :
    ∃ s', setupSlot c env eng i s = .next s' ∧ 0 < s'.next := by
  have key : ∃ s', setupSlot c env eng i s = .next s' := by
    unfold setupSlot
    by_cases h3 : 3 ≤ i
    · rw [if_pos h3]; exact ⟨_, rfl⟩
    · rw [if_neg h3]
      simp only [malloc_fst, hf (by omega), Bool.false_eq_true, if_false]
      rw [if_neg (by omega)]
      exact ⟨_, rfl⟩
  obtain ⟨s', h⟩ := key
  have := (setupSlot_next_spec c env eng i s s' h).2.1
  exact ⟨s', h, by omega⟩

theorem setupEngine_total (c : Consts) (env : Env) (a : Args) (eng : Nat) (s : State)
    (h0 : 0 < s.next) (hk : env.kinfoAllocFails eng = false)
    (hf : ∀ i, i < a.iterations → i < 3 → env.outputAllocFails eng i = false) :
    ∃ s', setupEngine c env a eng s = .next s' ∧ 0 < s'.next := by
  unfold setupEngine
  simp only [malloc_fst, hk, Bool.false_eq_true, if_false]
  rw [if_neg (by omega)]
  exact forLoop_total (setupSlot c env eng) (fun _ t => 0 < t.next) a.iterations 0 _
    (fun j t _ hj ht => setupSlot_total c env eng j t ht (hf j (by omega)))
    (by simp [malloc_next])

/-- When no checked allocation fails the setup loop falls through. -/
theorem setup_total (c : Consts) (env : Env) (a : Args) (s : State) (h0 : 0 < s.next)
    (hok : AllocOk c env a) : ∃ s', setup c env a s = .next s' := by
  unfold setup
  obtain ⟨s', h, _⟩ := forLoop_total (setupEngine c env a) (fun _ t => 0 < t.next)
    c.kNumEngines 0 s
    (fun j t _ hj ht => setupEngine_total c env a j t ht (hok.1 j (by omega))
      (fun i hi h3 => hok.2 j i (by omega) hi h3)) h0
  exact ⟨s', h⟩

/-! ### The run up to the validation loops -/

theorem reachSubmit_extends (c : Consts) (env : Env) (a : Args) :
    Extends (kindIn [.alloc, .free, .submit, .note, .minsize]) State.init
      (reachSubmit c env a).state := by
  unfold reachSubmit
  refine bind_extends _ _ _ _ ((readInput_extends c env _).kinds_mono (by decide)) (fun t => ?_)
  refine bind_extends _ _ _ _ ((checkMinimum_extends c env _).kinds_mono (by decide))
    (fun t => ?_)
  refine bind_extends _ _ _ _ ((setup_extends c env a _).kinds_mono (by decide)) (fun t => ?_)
  rw [submitAll_eq]
  refine ⟨_, rfl, ?_⟩
  intro e he
  simp only [submitTrace, List.mem_flatMap, List.mem_cons, List.mem_singleton,
    List.not_mem_nil, or_false] at he
  obtain ⟨_, _, _, _, h | h | h | h | h | h⟩ := he <;> subst h <;> simp [kindIn, Event.kind]

theorem reachValidate_extends (c : Consts) (env : Env) (a : Args) :
    Extends (kindIn quietKinds) State.init (reachValidate c env a).state := by
  have e : reachValidate c env a = (reachSubmit c env a).bind fun s =>
      (waitAll c env a s).bind fun s => validateAll c env a s := by
    simp only [reachValidate, reachSubmit, Flow.bind_assoc]
  rw [e]
  refine bind_extends _ _ _ _ ((reachSubmit_extends c env a).kinds_mono (by decide))
    (fun t => ?_)
  obtain ⟨t', ht', _, hx⟩ := waitAll_spec c env a t
  rw [ht', Flow.bind_next]
  exact (hx.kinds_mono (by decide)).trans ((validateAll_extends c env a t').kinds_mono (by decide))

theorem afterValidate_extends (c : Consts) (env : Env) (a : Args) (s : State) :
    Extends (kindIn tailKinds) s (afterValidate c env a s).state := by
  unfold afterValidate
  rw [freeInput_eq, Flow.bind_next]
  refine (Extends.emit s (.free .inputImage 0 0 s.pinbuf)
    (by simp [kindIn, tailKinds, Event.kind])).trans ?_
  refine bind_extends _ _ _ _ ((writeAll_extends c env a _).kinds_mono (by decide)) (fun t => ?_)
  refine bind_extends _ _ _ _ ((compareStage_extends env a _).kinds_mono (by decide))
    (fun t => ?_)
  refine bind_extends _ _ _ _ ((timeAll_extends c a _).kinds_mono (by decide)) (fun t => ?_)
  obtain ⟨t1, h1, x1, _⟩ := reportStage_spec c a t
  rw [h1, Flow.bind_next]
  refine (x1.kinds_mono (by decide)).trans ?_
  obtain ⟨t2, h2, x2⟩ := cleanupAll_spec c a t1
  rw [h2, Flow.bind_next]
  refine (x2.kinds_mono (by decide)).trans ?_
  unfold finish
  simp only [Flow.state]
  split
  · exact Extends.emit _ _ (by simp [kindIn, tailKinds, Event.kind])
  · exact Extends.refl _ _

theorem reachValidate_eq_reachBarrier (c : Consts) (env : Env) (a : Args) :
    reachValidate c env a = (reachBarrier c env a).bind (validateAll c env a) := by
  simp only [reachValidate, reachBarrier, Flow.bind_assoc]

/-- After the setup loop, the main loop and the wait barrier every slot holds
the reported size and the input size. -/
theorem barrier_after_setup (c : Consts) (env : Env) (a : Args) (s s1 : State)
    (h1 : setup c env a s = .next s1) :
    ∃ s3, (setup c env a s).bind (fun s => (submitAll c a s).bind fun s => waitAll c env a s)
        = .next s3 ∧ Reported c env a s3 ∧
      (∀ e j, s3.kinfo e j = if e < c.kNumEngines ∧ j < a.iterations
        then copiedBack env e j (s1.kinfo e j) else s1.kinfo e j) := by
  rw [h1, Flow.bind_next, submitAll_eq, Flow.bind_next]
  obtain ⟨s3, h3, hk, _⟩ := waitAll_spec c env a
    { s1 with trace := s1.trace ++ submitTrace c.kNumEngines a.iterations }
  refine ⟨s3, h3, ?_, hk⟩
  intro e j he hj
  rw [hk e j, if_pos ⟨he, hj⟩]
  obtain ⟨_, lo, _, hok⟩ := (setup_next_spec c env a s s1 h1).1 e he
  exact ⟨rfl, hok.size j hj⟩

/-- The run reaches the end of the wait barrier, or has returned 1. -/
theorem reachBarrier_cases (c : Consts) (env : Env) (a : Args) :
    (∃ s, reachBarrier c env a = .next s ∧ Reported c env a s) ∨
      (∃ s, reachBarrier c env a = .ret 1 s) := by
  unfold reachBarrier
  cases ho : env.fileOpen with
  | false =>
    obtain ⟨s', h⟩ := readInput_closed c env State.init ho
    rw [h]
    exact Or.inr ⟨s', rfl⟩
  | true =>
    obtain ⟨s0, h0, _⟩ := readInput_open c env State.init ho
    rw [h0, Flow.bind_next]
    by_cases hm : env.isz < toSizeT (minimum_filesize c)
    · rw [checkMinimum_reject c env s0 hm]
      exact Or.inr ⟨_, rfl⟩
    · rw [checkMinimum_pass c env s0 hm, Flow.bind_next]
      rcases setup_cases c env a s0 with ⟨s1, h1⟩ | ⟨s1, h1⟩
      · obtain ⟨s3, h3, hr, _⟩ := barrier_after_setup c env a s0 s1 h1
        exact Or.inl ⟨s3, h3, hr⟩
      · rw [h1]
        exact Or.inr ⟨s1, rfl⟩

/-- With a readable input of at least the minimum size and no failing
allocation the run reaches the end of the wait barrier. -/
theorem reachBarrier_total (c : Consts) (env : Env) (a : Args) (ho : env.fileOpen = true)
    (hm : ¬ env.isz < toSizeT (minimum_filesize c)) (hok : AllocOk c env a) :
    ∃ s, reachBarrier c env a = .next s ∧ Reported c env a s := by
  unfold reachBarrier
  obtain ⟨s0, h0, hn, _⟩ := readInput_open c env State.init ho
  rw [h0, Flow.bind_next, checkMinimum_pass c env s0 hm, Flow.bind_next]
  obtain ⟨s1, h1⟩ := setup_total c env a s0 (by omega) hok
  obtain ⟨s3, h3, hr, _⟩ := barrier_after_setup c env a s0 s1 h1
  exact ⟨s3, h3, hr⟩

/-- A reported size above the input size makes the run return 1 before the
validation loops are left. -/
theorem reachValidate_ret (c : Consts) (env : Env) (a : Args)
    (h : ∃ eng i, eng < c.kNumEngines ∧ i < a.iterations ∧ env.isz < env.compression_sz eng i) :
    ∃ s, reachValidate c env a = .ret 1 s := by
  rw [reachValidate_eq_reachBarrier]
  rcases reachBarrier_cases c env a with ⟨s, hs, hr⟩ | ⟨s, hs⟩
  · rw [hs, Flow.bind_next]
    rcases validateAll_cases c env a s hr with ⟨s', _, _, hall⟩ | ⟨s', hs', _⟩
    · obtain ⟨eng, i, he, hi, hlt⟩ := h
      have := hall eng i he hi
      omega
    · exact ⟨s', hs'⟩
  · rw [hs]
    exact ⟨s, rfl⟩

/-- C3. Size invariant: when some engine and some iteration reports a
compressed size greater than the input size, `CompressFile` returns 1, makes no
call of `WriteBlockGzip` or `CompareGzipFiles` and does not print `PASSED`; and
a run returns 0 only if every iteration of every engine reported a compressed
size within the input size. -/
theorem C3_size_invariant (c : Consts) (env : Env) (a : Args) :
    ((∃ eng i, eng < c.kNumEngines ∧ i < a.iterations ∧
        env.isz < env.compression_sz eng i) →
      (CompressFile c env a).code = some 1 ∧
      ∀ e ∈ (CompressFile c env a).state.trace,
        e.kind ≠ .write ∧ e.kind ≠ .compare ∧ e.kind ≠ .passed) ∧
    ((CompressFile c env a).code = some 0 →
      ∀ eng i, eng < c.kNumEngines → i < a.iterations →
        env.compression_sz eng i ≤ env.isz) := by
  have key : (∃ eng i, eng < c.kNumEngines ∧ i < a.iterations ∧
        env.isz < env.compression_sz eng i) →
      (CompressFile c env a).code = some 1 ∧
      ∀ e ∈ (CompressFile c env a).state.trace,
        e.kind ≠ .write ∧ e.kind ≠ .compare ∧ e.kind ≠ .passed := by
    intro h
    obtain ⟨s, hs⟩ := reachValidate_ret c env a h
    have hx := reachValidate_extends c env a
    rw [CompressFile_eq_reachValidate, hs, Flow.bind_ret]
    rw [hs] at hx
    refine ⟨rfl, fun e he => ⟨?_, ?_, ?_⟩⟩
    · exact hx.no_kind (K := .write) (by decide) (by simp [State.init]) e he
    · exact hx.no_kind (K := .compare) (by decide) (by simp [State.init]) e he
    · exact hx.no_kind (K := .passed) (by decide) (by simp [State.init]) e he
  refine ⟨key, ?_⟩
  intro h0 eng i he hi
  by_contra hlt
  have := (key ⟨eng, i, he, hi, by omega⟩).1
  rw [this] at h0
  cases h0

/-- The timing loop, the report and the cleanup run to the final `return 0`. -/
theorem tail_after_compare (c : Consts) (a : Args) (s : State) :
    ∃ s', ((timeAll c a s).bind fun s => (reportStage c a s).bind fun s =>
        (cleanupAll c a s).bind fun s => finish a s) = .ret 0 s' ∧
      Extends (kindIn [.wait, .note, .free, .passed]) s s' := by
  have x0 := timeAll_extends c a s
  rw [timeAll_eq] at x0 ⊢
  rw [Flow.bind_next]
  obtain ⟨t1, h1, x1, _⟩ := reportStage_spec c a
    { s with trace := s.trace ++ timeTrace c.kNumEngines a.iterations }
  rw [h1, Flow.bind_next]
  obtain ⟨t2, h2, x2⟩ := cleanupAll_spec c a t1
  rw [h2, Flow.bind_next]
  refine ⟨_, rfl, ?_⟩
  have x3 : Extends (kindIn [.wait, .note, .free, .passed]) s t2 :=
    ((x0.kinds_mono (by decide)).trans (x1.kinds_mono (by decide))).trans
      (x2.kinds_mono (by decide))
  split
  · exact x3.emit_of _ (by simp [kindIn, Event.kind])
  · exact x3

theorem List.flatMap_ite_singleton {α β : Type} (l : List α) (f : α → β) (b : Bool) :
    (l.flatMap fun x => if b then [f x] else []) = if b then l.map f else [] := by
  cases b with
  | true =>
    simp only [if_true]
    induction l with
    | nil => rfl
    | cons x l ih => simp [List.flatMap_cons, ih]
  | false =>
    simp only [Bool.false_eq_true, if_false]
    induction l with
    | nil => rfl
    | cons x l ih => simp [List.flatMap_cons, ih]

/-- What follows the validation loops, with at least one iteration and no
failing write: the writer is called once per engine in engine order and the
comparator once, on the first output file, when `report` is set, and neither
is called otherwise; the run returns 1 when the comparison fails and 0
otherwise. -/
theorem afterValidate_calls (c : Consts) (env : Env) (a : Args) (s : State)
    (hN : 0 < a.iterations)
    (hw : a.report = true → ∀ eng, eng < c.kNumEngines → env.writeResult eng = 0) :
    (afterValidate c env a s).state.trace.filterMap Event.writeCall? =
      s.trace.filterMap Event.writeCall? ++
        (if a.report then (List.range c.kNumEngines).map (fun eng => (eng, a.outfilenames eng))
          else []) ∧
    (afterValidate c env a s).state.trace.filterMap Event.compareCall? =
      s.trace.filterMap Event.compareCall? ++ (if a.report then [a.outfilenames 0] else []) ∧
    (afterValidate c env a s).code =
      some (if a.report = true ∧ env.compareResult ≠ 0 then 1 else 0) := by
  unfold afterValidate
  rw [freeInput_eq, Flow.bind_next]
  obtain ⟨s6, h6, hp6⟩ := writeAll_next c env a (s.emit (.free .inputImage 0 0 s.pinbuf)) hN hw
  have x6 : Extends (kindIn [.write, .note]) (s.emit (.free .inputImage 0 0 s.pinbuf)) s6 := by
    have := writeAll_extends c env a (s.emit (.free .inputImage 0 0 s.pinbuf))
    rw [h6] at this
    exact this
  rw [h6, Flow.bind_next]
  have hw6 : s6.trace.filterMap Event.writeCall? = s.trace.filterMap Event.writeCall? ++
      (if a.report then (List.range c.kNumEngines).map (fun eng => (eng, a.outfilenames eng))
        else []) := by
    rw [hp6, List.flatMap_ite_singleton, List.range_eq_range']
    simp [State.emit, List.filterMap_append, Event.writeCall?]
  have hc6 : s6.trace.filterMap Event.compareCall? = s.trace.filterMap Event.compareCall? := by
    rw [x6.filterMap_eq Event.compareCall?
      (fun e he => Event.compareCall?_of_kind e (kind_ne_of_mem (by decide) he))]
    simp [State.emit, List.filterMap_append, Event.compareCall?]
  have tail : ∀ t : State, ∃ t', ((timeAll c a t).bind fun s => (reportStage c a s).bind fun s =>
        (cleanupAll c a s).bind fun s => finish a s) = .ret 0 t' ∧
      t'.trace.filterMap Event.writeCall? = t.trace.filterMap Event.writeCall? ∧
      t'.trace.filterMap Event.compareCall? = t.trace.filterMap Event.compareCall? := by
    intro t
    obtain ⟨t', ht', xt⟩ := tail_after_compare c a t
    exact ⟨t', ht',
      xt.filterMap_eq _ (fun e he => Event.writeCall?_of_kind e (kind_ne_of_mem (by decide) he)),
      xt.filterMap_eq _
        (fun e he => Event.compareCall?_of_kind e (kind_ne_of_mem (by decide) he))⟩
  cases hr : a.report with
  | false =>
    rw [compareStage_quiet env a s6 hr, Flow.bind_next]
    obtain ⟨t', ht', hw', hc'⟩ := tail s6
    rw [ht']
    simp only [Flow.state, Flow.code, hw', hc', hw6, hc6, hr]
    simp
  | true =>
    unfold compareStage
    simp only [hr, if_true]
    by_cases hcmp : env.compareResult ≠ 0
    · rw [if_pos hcmp, Flow.bind_ret]
      simp only [Flow.state, Flow.code, State.emit, List.filterMap_append, hw6, hc6, hr, hcmp]
      simp [Event.writeCall?, Event.compareCall?, hcmp]
    · rw [if_neg hcmp, Flow.bind_next]
      obtain ⟨t', ht', hw', hc'⟩ := tail (s6.emit (.compareGzipFiles (a.outfilenames 0)))
      rw [ht']
      simp only [Flow.state, Flow.code, hw', hc', State.emit, List.filterMap_append, hw6, hc6,
        hr, hcmp]
      simp [Event.writeCall?, Event.compareCall?]

/-- With a readable input of at least the minimum size, no failing allocation
and every reported size within the input size, the run leaves the validation
loops having made no call. -/
theorem reachValidate_total (c : Consts) (env : Env) (a : Args) (ho : env.fileOpen = true)
    (hm : ¬ env.isz < toSizeT (minimum_filesize c)) (hok : AllocOk c env a)
    (hsz : ∀ eng i, eng < c.kNumEngines → i < a.iterations →
      env.compression_sz eng i ≤ env.isz) :
    ∃ s, reachValidate c env a = .next s ∧ Extends (kindIn quietKinds) State.init s := by
  have hx := reachValidate_extends c env a
  rw [reachValidate_eq_reachBarrier] at hx ⊢
  obtain ⟨s3, h3, hr⟩ := reachBarrier_total c env a ho hm hok
  rw [h3, Flow.bind_next] at hx ⊢
  rcases validateAll_cases c env a s3 hr with ⟨s4, h4, _, _⟩ | ⟨_, _, eng, i, he, hi, hlt⟩
  · rw [h4] at hx
    exact ⟨s4, h4, hx⟩
  · have := hsz eng i he hi
    omega

/-- C7. Run modes: in a run that passes every size check (readable input of
at least the minimum size, the buffers allocated, every reported size within
the input size, at least one iteration), the report flag alone decides the
external calls.  With `report` and every write succeeding `WriteBlockGzip` is
called exactly once per engine, in engine order, with `outfilenames[eng]`, and
`CompareGzipFiles` exactly once, on `outfilenames[0]`; without `report` neither
is called and the run returns 0. -/
theorem C7_run_modes (c : Consts) (env : Env) (a : Args) (ho : env.fileOpen = true)
    (hm : ¬ env.isz < toSizeT (minimum_filesize c)) (hok : AllocOk c env a)
    (hsz : ∀ eng i, eng < c.kNumEngines → i < a.iterations →
      env.compression_sz eng i ≤ env.isz)
    (hN : 0 < a.iterations) :
    (a.report = true → (∀ eng, eng < c.kNumEngines → env.writeResult eng = 0) →
      (CompressFile c env a).state.trace.filterMap Event.writeCall? =
        (List.range c.kNumEngines).map (fun eng => (eng, a.outfilenames eng)) ∧
      (CompressFile c env a).state.trace.filterMap Event.compareCall? = [a.outfilenames 0]) ∧
    (a.report = false →
      (CompressFile c env a).state.trace.filterMap Event.writeCall? = [] ∧
      (CompressFile c env a).state.trace.filterMap Event.compareCall? = [] ∧
      (CompressFile c env a).code = some 0) := by
  obtain ⟨s4, h4, x4⟩ := reachValidate_total c env a ho hm hok hsz
  have hw4 : s4.trace.filterMap Event.writeCall? = [] := by
    rw [x4.filterMap_eq _
      (fun e he => Event.writeCall?_of_kind e (kind_ne_of_mem (by decide) he))]
    rfl
  have hc4 : s4.trace.filterMap Event.compareCall? = [] := by
    rw [x4.filterMap_eq _
      (fun e he => Event.compareCall?_of_kind e (kind_ne_of_mem (by decide) he))]
    rfl
  rw [CompressFile_eq_reachValidate, h4, Flow.bind_next]
  constructor
  · intro hr hw
    obtain ⟨e1, e2, _⟩ := afterValidate_calls c env a s4 hN (fun _ => hw)
    rw [e1, e2, hw4, hc4, hr]
    simp
  · intro hr
    obtain ⟨e1, e2, e3⟩ := afterValidate_calls c env a s4 hN
      (fun h => by rw [hr] at h; cases h)
    rw [e1, e2, e3, hw4, hc4, hr]
    simp

theorem bind_extends_from (Q : Event → Prop) (x : Flow State) (f : State → Flow State)
    (hf : ∀ t, Extends Q t (f t).state) : Extends Q x.state (x.bind f).state := by
  cases x with
  | next t => exact hf t
  | ret code t => exact Extends.refl _ _
  | undef t => exact Extends.refl _ _

theorem CompressFile_eq_afterSubmit (c : Consts) (env : Env) (a : Args) :
    CompressFile c env a = (reachSubmit c env a).bind (afterSubmit c env a) := by
  simp only [CompressFile, afterChecks, reachSubmit, Flow.bind_assoc]
  rfl

/-- After the main loop nothing is submitted. -/
theorem afterSubmit_extends (c : Consts) (env : Env) (a : Args) (s : State) :
    Extends (kindIn [.free, .write, .compare, .wait, .note, .passed]) s
      (afterSubmit c env a s).state := by
  unfold afterSubmit
  obtain ⟨t, ht, _, hx⟩ := waitAll_spec c env a s
  rw [ht, Flow.bind_next]
  refine (hx.kinds_mono (by decide)).trans ?_
  exact bind_extends _ _ _ _ ((validateAll_extends c env a t).kinds_mono (by decide))
    (fun u => afterValidate_extends c env a u)

theorem submitTrace_submissions (E N : Nat) :
    (submitTrace E N).filterMap Event.submission? = submissionOrder E N := by
  unfold submitTrace submissionOrder
  rw [List.filterMap_flatMap, ← List.range_eq_range']
  congr 1
  funext i
  rw [List.filterMap_flatMap, ← List.range_eq_range']
  congr 1

/-- With a readable input of at least the minimum size and no failing
allocation the run reaches the end of the main loop, having made the
submissions in the order of `submissionOrder`. -/
theorem reachSubmit_total (c : Consts) (env : Env) (a : Args) (ho : env.fileOpen = true)
    (hm : ¬ env.isz < toSizeT (minimum_filesize c)) (hok : AllocOk c env a) :
    ∃ s, reachSubmit c env a = .next s ∧
      s.trace.filterMap Event.submission? = submissionOrder c.kNumEngines a.iterations := by
  unfold reachSubmit
  obtain ⟨s0, h0, hn, _⟩ := readInput_open c env State.init ho
  have x0 : Extends (kindIn preludeKinds) State.init s0 := by
    have := readInput_extends c env State.init
    rw [h0] at this
    exact this
  rw [h0, Flow.bind_next, checkMinimum_pass c env s0 hm, Flow.bind_next]
  obtain ⟨s1, h1⟩ := setup_total c env a s0 (by omega) hok
  have x1 : Extends (kindIn preludeKinds) s0 s1 := by
    have := setup_extends c env a s0
    rw [h1] at this
    exact this
  rw [h1, Flow.bind_next, submitAll_eq]
  refine ⟨_, rfl, ?_⟩
  have e1 : s1.trace.filterMap Event.submission? = [] := by
    rw [(x0.trans x1).filterMap_eq _
      (fun e he => Event.submission?_of_kind e (kind_ne_of_mem (by decide) he))]
    rfl
  simp only [List.filterMap_append, e1, List.nil_append]
  exact submitTrace_submissions _ _

theorem submissionOrder_pairwise (E N : Nat) : (submissionOrder E N).Pairwise Before := by
  unfold submissionOrder
  rw [List.pairwise_flatMap]
  constructor
  · intro i _
    rw [List.pairwise_flatMap]
    constructor
    · intro eng _
      simp [Before, Op.rank]
    · refine (List.pairwise_lt_range E).imp ?_
      intro e1 e2 h x hx y hy
      simp only [List.mem_cons, List.mem_singleton, List.not_mem_nil, or_false] at hx hy
      rcases hx with rfl | rfl | rfl | rfl | rfl <;> rcases hy with rfl | rfl | rfl | rfl | rfl <;>
        exact Or.inr ⟨rfl, Or.inl h⟩
  · refine (List.pairwise_lt_range N).imp ?_
    intro i1 i2 h x hx y hy
    simp only [List.mem_flatMap, List.mem_cons, List.mem_singleton, List.not_mem_nil,
      or_false] at hx hy
    obtain ⟨_, _, hx⟩ := hx
    obtain ⟨_, _, hy⟩ := hy
    rcases hx with rfl | rfl | rfl | rfl | rfl <;> rcases hy with rfl | rfl | rfl | rfl | rfl <;>
      exact Or.inl h

theorem suffix_after (T1 Y l1 l2 : List Event) (w : Event) (h : T1 ++ Y = l1 ++ w :: l2)
    (hw : w ∉ T1) : ∀ e ∈ l2, e ∈ Y := by
  rcases List.append_eq_append_iff.1 h with ⟨a', _, hY⟩ | ⟨c', hT, hc⟩
  · intro e he
    rw [hY]
    simp [he]
  · cases c' with
    | nil =>
      intro e he
      rw [List.nil_append] at hc
      rw [← hc]
      simp [he]
    | cons x c' =>
      rw [List.cons_append] at hc
      injection hc with hx _
      subst hx
      exact absurd (by rw [hT]; simp) hw

/-- C10. Submission order of the main loop: in a run that reaches the main
loop (readable input of at least the minimum size, no failing allocation) the
submissions are, for `i = 0..N-1` and within it for `eng = 0..E-1`, the chain
input copy, compute stage, output copy, size copy, CRC copy of `(eng, i)`, so
that each submission comes before the later ones in (iteration, engine, place
in the chain) order; and in every run no wait on any handle is followed by a
submission. -/
theorem C10_submission_order (c : Consts) (env : Env) (a : Args) :
    (env.fileOpen = true → ¬ env.isz < toSizeT (minimum_filesize c) → AllocOk c env a →
      (CompressFile c env a).state.trace.filterMap Event.submission? =
        submissionOrder c.kNumEngines a.iterations ∧
      ((CompressFile c env a).state.trace.filterMap Event.submission?).Pairwise Before) ∧
    (∀ l1 l2 w, (CompressFile c env a).state.trace = l1 ++ w :: l2 → w.kind = .wait →
      ∀ e ∈ l2, e.kind ≠ .submit) := by
  have hx := bind_extends_from _ (reachSubmit c env a) (afterSubmit c env a)
    (afterSubmit_extends c env a)
  rw [← CompressFile_eq_afterSubmit] at hx
  constructor
  · intro ho hm hok
    obtain ⟨s, hs, hp⟩ := reachSubmit_total c env a ho hm hok
    rw [hs] at hx
    have e : (CompressFile c env a).state.trace.filterMap Event.submission? =
        submissionOrder c.kNumEngines a.iterations := by
      rw [hx.filterMap_eq _
        (fun e he => Event.submission?_of_kind e (kind_ne_of_mem (by decide) he))]
      exact hp
    rw [e]
    exact ⟨rfl, submissionOrder_pairwise _ _⟩
  · intro l1 l2 w ht hw e he
    obtain ⟨Y, hY, hq⟩ := hx
    have hpre := (reachSubmit_extends c env a).no_kind (K := .wait) (by decide)
      (by simp [State.init])
    rw [hY] at ht
    have hmem := suffix_after _ Y l1 l2 w ht (fun hin => hpre w hin hw) e he
    exact kind_ne_of_mem (by decide) (hq e hmem)

/-- C1. Buffer-count invariant of the buffer setup loop: whenever the loop
completes (and it does when no checked allocation fails), for every engine
every slot `i` with `3 <= i < N` has the `poutput_buffer`, `pibuf`, `pobuf`,
`gzip_out_buf` and `current_crc` of slot `i - 3`, hence of slot `i mod 3`;
the buffers of slots 0, 1 and 2 are addresses the allocator had not returned
before the loop, those of different slots pairwise distinct; and the number of
distinct buffer sets of the engine is `min N 3`. -/
theorem C1_buffer_count (c : Consts) (env : Env) (a : Args) (s : State) :
    (0 < s.next → AllocOk c env a → ∃ s', setup c env a s = .next s') ∧
    (∀ s', setup c env a s = .next s' → ∀ eng, eng < c.kNumEngines →
      (∀ i, 3 ≤ i → i < a.iterations →
        (s'.kinfo eng i).bufferSet = (s'.kinfo eng (i - 3)).bufferSet) ∧
      (∀ i, i < a.iterations →
        (s'.kinfo eng i).bufferSet = (s'.kinfo eng (i % 3)).bufferSet) ∧
      (∀ i, i < a.iterations → i < 3 → ∀ p ∈ (s'.kinfo eng i).pointers, s.next ≤ p) ∧
      (∀ i j, i < j → j < a.iterations → j < 3 →
        ∀ p ∈ (s'.kinfo eng i).pointers, ∀ q ∈ (s'.kinfo eng j).pointers, p ≠ q) ∧
      ((Finset.range a.iterations).image (fun i => (s'.kinfo eng i).bufferSet)).card =
        min a.iterations 3) := by
  refine ⟨fun h0 hok => setup_total c env a s h0 hok, ?_⟩
  intro s' h eng heng
  obtain ⟨_, lo, hlo, hok⟩ := (setup_next_spec c env a s s' h).1 eng heng
  have hne : ∀ i j, i < j → j < a.iterations → j < 3 →
      (s'.kinfo eng i).bufferSet ≠ (s'.kinfo eng j).bufferSet := by
    intro i j hij hj h3 heq
    have hp : (s'.kinfo eng i).poutput_buffer ∈ (s'.kinfo eng i).pointers := by
      simp [KernelInfo.pointers]
    have hq : (s'.kinfo eng j).poutput_buffer ∈ (s'.kinfo eng j).pointers := by
      simp [KernelInfo.pointers]
    have hlt := hok.apart i j hij hj h3 _ hp _ hq
    simp only [KernelInfo.bufferSet, Prod.mk.injEq] at heq
    omega
  refine ⟨hok.aliased, ?_, ?_, ?_, ?_⟩
  · exact alias_mod (fun i => (s'.kinfo eng i).bufferSet) a.iterations hok.aliased
  · intro i hi h3 p hp
    have := hok.fresh i hi h3 p hp
    omega
  · intro i j hij hj h3 p hp q hq
    have := hok.apart i j hij hj h3 p hp q hq
    omega
  · exact card_image_alias _ _ hok.aliased hne

/-- Witness of C1, the sample run: four iterations leave three distinct buffer
sets on engine 0. -/
theorem C1_buffer_count_witness :
    (∃ s', setup sampleConsts sampleEnv sampleArgs State.init = .next s') ∧
    ((Finset.range 4).image (fun i =>
      ((setup sampleConsts sampleEnv sampleArgs State.init).state.kinfo 0 i).bufferSet)).card
      = min 4 3 :=
  ⟨(C1_buffer_count sampleConsts sampleEnv sampleArgs State.init).1 (by decide)
      ⟨fun _ _ => rfl, fun _ _ _ _ _ => rfl⟩,
    ((C1_buffer_count sampleConsts sampleEnv sampleArgs State.init).2
      (setup sampleConsts sampleEnv sampleArgs State.init).state rfl 0 (by decide)).2.2.2.2⟩

theorem malloc_requests (eng : Nat) (s : State) (fails : Bool) (what : Buf) (e i size : Nat) :
    (s.malloc fails what e i size).2.trace.filterMap (Event.request? eng) =
      s.trace.filterMap (Event.request? eng) ++
        (if e = eng ∧ what ≠ .inputImage then [(what, size)] else []) := by
  rw [malloc_trace, List.filterMap_append]
  congr 1
  by_cases h : e = eng ∧ what ≠ .inputImage
  · simp [Event.request?, h]
  · simp only [List.filterMap_cons, Event.request?, if_neg h, List.filterMap_nil]

theorem setupSlotRest_requests (c : Consts) (env : Env) (eng e i p : Nat) (s : State) :
    (setupSlotRest c env e i p s).trace.filterMap (Event.request? eng) =
      s.trace.filterMap (Event.request? eng) ++
        (if e = eng then (slotRequests c env.isz i).drop (if i < 3 then 1 else 0) else []) := by
  unfold setupSlotRest
  by_cases h3 : 3 ≤ i
  · have h3' : ¬ i < 3 := by omega
    simp only [h3, if_true, State.setSlot, malloc_requests, slotRequests, h3', if_false]
    by_cases he : e = eng <;> simp [he]
  · have h3' : i < 3 := by omega
    simp only [h3, if_false, State.setSlot, malloc_requests, slotRequests, h3', if_true]
    by_cases he : e = eng <;> simp [he]

theorem setupSlot_requests (c : Consts) (env : Env) (eng e i : Nat) (s s' : State)
    (h : setupSlot c env e i s = .next s') :
    s'.trace.filterMap (Event.request? eng) = s.trace.filterMap (Event.request? eng) ++
      (if e = eng then slotRequests c env.isz i else []) := by
  unfold setupSlot at h
  by_cases h3 : 3 ≤ i
  · rw [if_pos h3] at h
    simp only [Flow.next.injEq] at h
    subst h
    rw [setupSlotRest_requests]
    have h3' : ¬ i < 3 := by omega
    simp [h3']
  · rw [if_neg h3] at h
    have h3' : i < 3 := by omega
    simp only at h
    split at h
    · cases h
    · simp only [Flow.next.injEq] at h
      subst h
      rw [setupSlotRest_requests, malloc_requests]
      by_cases he : e = eng
      · simp [he, h3', slotRequests]
      · simp [he]

theorem flatMap_range'_ite {β : Type} (n eng : Nat) (l : List β) (h : eng < n) :
    ((List.range' 0 n).flatMap fun e => if e = eng then l else []) = l := by
  induction n with
  | zero => omega
  | succ n ih =>
    rw [List.range'_concat, List.flatMap_append]
    simp only [Nat.zero_add, one_mul, List.flatMap_cons, List.flatMap_nil, List.append_nil]
    rcases Nat.lt_succ_iff_lt_or_eq.1 h with h1 | h1
    · rw [ih h1, if_neg (by omega), List.append_nil]
    · subst h1
      have : ((List.range' 0 eng).flatMap fun e => if e = eng then l else []) = [] := by
        rw [List.flatMap_eq_nil_iff]
        intro x hx
        rw [List.mem_range'] at hx
        obtain ⟨i, hi, rfl⟩ := hx
        rw [if_neg (by omega)]
      rw [this, if_pos rfl, List.nil_append]

theorem flatMap_ite_const {α β : Type} (l : List α) (f : α → List β) (b : Prop) [Decidable b] :
    (l.flatMap fun x => if b then f x else []) = if b then l.flatMap f else [] := by
  by_cases h : b
  · simp [h]
  · simp [h]

theorem setupEngine_requests (c : Consts) (env : Env) (a : Args) (eng e : Nat) (s s' : State)
    (h : setupEngine c env a e s = .next s') :
    s'.trace.filterMap (Event.request? eng) = s.trace.filterMap (Event.request? eng) ++
      (if e = eng then engineRequests c env.isz a.iterations else []) := by
  unfold setupEngine at h
  simp only at h
  split at h
  · cases h
  · rw [forLoop_proj (Event.request? eng) (setupSlot c env e)
      (fun i => if e = eng then slotRequests c env.isz i else []) a.iterations 0 _ s'
      (fun j t t' _ _ ht => setupSlot_requests c env eng e j t t' ht) h]
    rw [show ∀ (t : State) (f : Nat → Nat), ({ t with kinfoPtr := f } : State).trace = t.trace
      from fun _ _ => rfl, malloc_requests, flatMap_ite_const, ← List.range_eq_range']
    by_cases he : e = eng
    · simp [he, engineRequests]
    · simp [he]

/-- What the setup loop requests for engine `eng`. -/
theorem setup_requests (c : Consts) (env : Env) (a : Args) (eng : Nat) (s s' : State)
    (heng : eng < c.kNumEngines) (h : setup c env a s = .next s') :
    s'.trace.filterMap (Event.request? eng) = s.trace.filterMap (Event.request? eng) ++
      engineRequests c env.isz a.iterations := by
  unfold setup at h
  rw [forLoop_proj (Event.request? eng) (setupEngine c env a)
    (fun e => if e = eng then engineRequests c env.isz a.iterations else []) c.kNumEngines 0 s s'
    (fun j t t' _ _ ht => setupEngine_requests c env a eng j t t' ht) h,
    flatMap_range'_ite _ _ _ heng]

theorem slots_split (c : Consts) (isz N : Nat) (hN : 3 ≤ N) :
    (List.range N).flatMap (slotRequests c isz) =
      (List.range 3).flatMap (slotRequests c isz) ++
        List.replicate (N - 3) (Buf.pobuf_decompress, isz) := by
  induction N, hN using Nat.le_induction with
  | base => simp
  | succ n hn ih =>
    rw [List.range_succ, List.flatMap_append, ih, List.append_assoc]
    congr 1
    have e : n + 1 - 3 = (n - 3) + 1 := by omega
    rw [e, List.replicate_succ']
    simp [slotRequests, show ¬ n < 3 by omega]

theorem engineRequests_eq (c : Consts) (isz N : Nat) (hN : 3 ≤ N) :
    engineRequests c isz N =
      (Buf.kinfoArray, wrapSizeT (c.sizeofKernelInfo * N)) ::
        ((slotRequests c isz 0 ++ slotRequests c isz 1 ++ slotRequests c isz 2) ++
          List.replicate (N - 3) (Buf.pobuf_decompress, isz)) := by
  unfold engineRequests
  rw [slots_split c isz N hN]
  simp [List.range_succ]

/-- What a run that passes the setup loop requests for engine `eng`. -/
theorem run_requests (c : Consts) (env : Env) (a : Args) (eng : Nat) (ho : env.fileOpen = true)
    (hm : ¬ env.isz < toSizeT (minimum_filesize c)) (hok : AllocOk c env a)
    (heng : eng < c.kNumEngines) :
    requestsOf eng (CompressFile c env a) = engineRequests c env.isz a.iterations := by
  unfold requestsOf
  have hx := bind_extends_from _ (reachSubmit c env a) (afterSubmit c env a)
    (afterSubmit_extends c env a)
  rw [← CompressFile_eq_afterSubmit] at hx
  rw [hx.filterMap_eq _
    (fun e he => Event.request?_of_kind eng e (kind_ne_of_mem (by decide) he))]
  unfold reachSubmit
  obtain ⟨s0, h0, hn, _⟩ := readInput_open c env State.init ho
  have e0 : s0.trace.filterMap (Event.request? eng) = [] := by
    have h0' := h0
    unfold readInput at h0'
    simp only [ho, if_true, Flow.next.injEq] at h0'
    subst h0'
    simp only [malloc_requests]
    split <;> simp [State.emit, State.init, Event.request?]
  rw [h0, Flow.bind_next, checkMinimum_pass c env s0 hm, Flow.bind_next]
  obtain ⟨s1, h1⟩ := setup_total c env a s0 (by omega) hok
  rw [h1, Flow.bind_next, submitAll_eq]
  simp only [Flow.state, List.filterMap_append]
  rw [setup_requests c env a eng s0 s1 heng h1, e0, List.nil_append]
  have : (submitTrace c.kNumEngines a.iterations).filterMap (Event.request? eng) = [] := by
    rw [List.filterMap_eq_nil_iff]
    intro e he
    simp only [submitTrace, List.mem_flatMap, List.mem_cons, List.mem_singleton,
      List.not_mem_nil, or_false] at he
    obtain ⟨_, _, _, _, h | h | h | h | h | h⟩ := he <;> subst h <;> rfl
  rw [this, List.append_nil]

/-- C9, as the code has it.  In a run that passes the setup loop with `N >= 3`
iterations, the pooled buffers requested for one engine are the 15 of the
three buffer sets, whatever `N` is; the `KernelInfo` array is requested for `N`
structures and one `pobuf_decompress` of the input size for each of the `N`
slots, so that the engine's requests number `N + 16` and their total size is
`sizeof(KernelInfo) * N + N * isz` plus three buffer sets. -/
theorem C9_allocations (c : Consts) (env : Env) (a : Args) (eng : Nat)
    (ho : env.fileOpen = true) (hm : ¬ env.isz < toSizeT (minimum_filesize c))
    (hok : AllocOk c env a) (heng : eng < c.kNumEngines) (hN : 3 ≤ a.iterations) :
    requestsOf eng (CompressFile c env a) = engineRequests c env.isz a.iterations ∧
    ((requestsOf eng (CompressFile c env a)).filter (fun r => r.1.pooled)).length = 15 ∧
    (((requestsOf eng (CompressFile c env a)).filter (fun r => r.1.pooled)).map Prod.snd).sum =
      3 * bufferSetBytes c env.isz ∧
    (requestsOf eng (CompressFile c env a)).length = a.iterations + 16 ∧
    ((requestsOf eng (CompressFile c env a)).map Prod.snd).sum =
      wrapSizeT (c.sizeofKernelInfo * a.iterations) + a.iterations * env.isz +
        3 * bufferSetBytes c env.isz := by
  rw [run_requests c env a eng ho hm hok heng]
  refine ⟨rfl, ?_, ?_, ?_, ?_⟩
  · rw [engineRequests_eq c env.isz a.iterations hN]
    simp [slotRequests, Buf.pooled, List.filter_cons, List.filter_append,
      List.filter_replicate]
  · rw [engineRequests_eq c env.isz a.iterations hN]
    simp [slotRequests, Buf.pooled, List.filter_cons, List.filter_append,
      List.filter_replicate, bufferSetBytes]
    omega
  · rw [engineRequests_eq c env.isz a.iterations hN]
    simp [slotRequests]
    omega
  · rw [engineRequests_eq c env.isz a.iterations hN]
    simp [slotRequests, bufferSetBytes, List.sum_replicate]
    have : (a.iterations - 3) * env.isz + 3 * env.isz = a.iterations * env.isz := by
      rw [← Nat.add_mul]
      congr 1
      omega
    omega

/-! ### The claims on sizes and on the CRC -/

/-- C5 at a 2 GiB and at a 4 GiB input: the output size stored in the `int` is
negative for the first and 256 for the second, not the padded input size. -/
theorem C5_outputSize_truncated :
    outputSize sampleConsts 2147483648 = -2147483392 ∧
    outputSize sampleConsts 4294967296 = 256 ∧
    toSizeT (outputSize sampleConsts 4294967296) ≠
      max (4294967296 + kInOutPadding sampleConsts) sampleConsts.kMinBufferSize := by
  decide

theorem afterChecks_extends (c : Consts) (env : Env) (a : Args) (s : State) :
    Extends (kindIn [.alloc, .free, .submit, .wait, .write, .compare, .note, .passed]) s
      (afterChecks c env a s).state := by
  have e : afterChecks c env a s = (setup c env a s).bind fun s =>
      (submitAll c a s).bind (afterSubmit c env a) := rfl
  rw [e]
  refine bind_extends _ _ _ _ ((setup_extends c env a s).kinds_mono (by decide)) (fun t => ?_)
  rw [submitAll_eq, Flow.bind_next]
  refine Extends.trans ⟨submitTrace c.kNumEngines a.iterations, rfl, ?_⟩
    ((afterSubmit_extends c env a _).kinds_mono (by decide))
  intro e he
  simp only [submitTrace, List.mem_flatMap, List.mem_cons, List.mem_singleton,
    List.not_mem_nil, or_false] at he
  obtain ⟨_, _, _, _, h | h | h | h | h | h⟩ := he <;> subst h <;> simp [kindIn, Event.kind]

/-- C4. Minimum size boundary: for a readable input of size `isz` (and a
vector width for which `kVec + 1` is an `int`), `CompressFile` returns 1 with
the minimum-size message exactly when `isz < kVec + 1`: it then returns at the
check, and otherwise goes on to the setup loop. -/
theorem C4_minimum_size (c : Consts) (env : Env) (a : Args) (hk : c.kVec + 1 < 2 ^ 31)
    (ho : env.fileOpen = true) :
    (((CompressFile c env a).code = some 1 ∧
        Event.print .minimumFilesize ∈ (CompressFile c env a).state.trace) ↔
      env.isz < c.kVec + 1) ∧
    (env.isz < c.kVec + 1 → CompressFile c env a =
      .ret 1 ((readInput c env State.init).state.emit (.print .minimumFilesize))) ∧
    (¬ env.isz < c.kVec + 1 → CompressFile c env a =
      afterChecks c env a (readInput c env State.init).state) := by
  obtain ⟨s0, h0, _⟩ := readInput_open c env State.init ho
  have x0 : Extends (kindIn preludeKinds) State.init s0 := by
    have := readInput_extends c env State.init
    rw [h0] at this
    exact this
  have hmin := toSizeT_minimum_filesize c hk
  have hrej : env.isz < c.kVec + 1 → CompressFile c env a =
      .ret 1 ((readInput c env State.init).state.emit (.print .minimumFilesize)) := by
    intro h
    unfold CompressFile
    rw [h0, Flow.bind_next, checkMinimum_reject c env s0 (by rw [hmin]; exact h)]
    rfl
  have hpass : ¬ env.isz < c.kVec + 1 → CompressFile c env a =
      afterChecks c env a (readInput c env State.init).state := by
    intro h
    unfold CompressFile
    rw [h0, Flow.bind_next, checkMinimum_pass c env s0 (by rw [hmin]; exact h)]
    rfl
  refine ⟨⟨?_, ?_⟩, hrej, hpass⟩
  · rintro ⟨_, hmem⟩
    by_contra h
    rw [hpass h, h0] at hmem
    have x0' : Extends (kindIn [.alloc, .free, .submit, .wait, .write, .compare, .note,
      .passed]) State.init s0 := x0.kinds_mono (by decide)
    have hx := x0'.trans (afterChecks_extends c env a s0)
    exact hx.no_kind (K := .minsize) (by decide) (by simp [State.init]) _ hmem rfl
  · intro h
    rw [hrej h]
    exact ⟨rfl, by simp [Flow.state, State.emit]⟩

/-- Witness of C4: an input of exactly `kVec` bytes is rejected at the check,
one of `kVec + 1` bytes passes it. -/
theorem C4_minimum_size_witness :
    CompressFile sampleConsts { sampleEnv with isz := 16 } sampleArgs =
      .ret 1 ((readInput sampleConsts { sampleEnv with isz := 16 } State.init).state.emit
        (.print .minimumFilesize)) ∧
    CompressFile sampleConsts { sampleEnv with isz := 17 } sampleArgs =
      afterChecks sampleConsts { sampleEnv with isz := 17 } sampleArgs
        (readInput sampleConsts { sampleEnv with isz := 17 } State.init).state :=
  ⟨(C4_minimum_size sampleConsts { sampleEnv with isz := 16 } sampleArgs (by decide) rfl).2.1
      (by decide),
    (C4_minimum_size sampleConsts { sampleEnv with isz := 17 } sampleArgs (by decide) rfl).2.2
      (by decide)⟩

theorem sample_allocOk (N : Nat) : AllocOk sampleConsts sampleEnv (sampleArgsN N) :=
  ⟨fun _ _ => rfl, fun _ _ _ _ _ => rfl⟩

/-- Witness of C3: the sample run with an oversized report returns 1 without
calling the writer or the comparator and without `PASSED`. -/
theorem C3_size_invariant_witness :
    (CompressFile sampleConsts sampleEnvOversize sampleArgs).code = some 1 ∧
    ∀ e ∈ (CompressFile sampleConsts sampleEnvOversize sampleArgs).state.trace,
      e.kind ≠ .write ∧ e.kind ≠ .compare ∧ e.kind ≠ .passed :=
  (C3_size_invariant sampleConsts sampleEnvOversize sampleArgs).1
    ⟨0, 0, by decide, by decide, by decide⟩

/-- Witness of C7: the sample run writes `out.gz` for engine 0, then `out.gz2`
for engine 1, and compares `out.gz`. -/
theorem C7_run_modes_witness :
    (CompressFile sampleConsts sampleEnv sampleArgs).state.trace.filterMap Event.writeCall? =
      (List.range sampleConsts.kNumEngines).map (fun eng => (eng, sampleArgs.outfilenames eng)) ∧
    (CompressFile sampleConsts sampleEnv sampleArgs).state.trace.filterMap Event.compareCall? =
      [sampleArgs.outfilenames 0] :=
  (C7_run_modes sampleConsts sampleEnv sampleArgs rfl (by decide) (sample_allocOk 4)
    (fun _ _ _ _ => (by decide : (500 : Nat) ≤ 1000)) (by decide)).1 rfl (fun _ _ => rfl)

/-- Witness of C10: the sample run submits in the order of
`submissionOrder 2 4`. -/
theorem C10_submission_order_witness :
    (CompressFile sampleConsts sampleEnv sampleArgs).state.trace.filterMap Event.submission? =
      submissionOrder sampleConsts.kNumEngines sampleArgs.iterations ∧
    ((CompressFile sampleConsts sampleEnv sampleArgs).state.trace.filterMap
      Event.submission?).Pairwise Before :=
  (C10_submission_order sampleConsts sampleEnv sampleArgs).1 rfl (by decide) (sample_allocOk 4)

/-- C9 as stated fails: with three iterations engine 0 is given 19
allocations of 2288112 bytes in all, with four iterations 20 of 2689112. -/
theorem C9_counterexample :
    (requestsOf 0 (CompressFile sampleConsts sampleEnv (sampleArgsN 3))).length = 19 ∧
    (requestsOf 0 (CompressFile sampleConsts sampleEnv (sampleArgsN 4))).length = 20 ∧
    ((requestsOf 0 (CompressFile sampleConsts sampleEnv (sampleArgsN 3))).map Prod.snd).sum
      = 2288112 ∧
    ((requestsOf 0 (CompressFile sampleConsts sampleEnv (sampleArgsN 4))).map Prod.snd).sum
      = 2689112 := by
  decide!

/-- Witness of C9: the sample run with four iterations makes 20 requests for
engine 0. -/
theorem C9_allocations_witness :
    (requestsOf 0 (CompressFile sampleConsts sampleEnv (sampleArgsN 4))).length = 4 + 16 :=
  (C9_allocations sampleConsts sampleEnv (sampleArgsN 4) 0 rfl (by decide) (sample_allocOk 4)
    (by decide) (by decide)).2.2.2.1

/-- C6 at the failing input: with the host output buffer of the second
engine's first slot failing to allocate, the run returns 1 having submitted
nothing and called neither writer nor comparator, and only the second engine's
`KernelInfo` array has been released: the input image (address 1) and the
`KernelInfo` array and buffers of the first engine (addresses 2 to 8) are still
allocated. -/
theorem C6_allocation_failure_leaks :
    (CompressFile sampleConsts sampleEnvAllocFails (sampleArgsN 1)).code = some 1 ∧
    (CompressFile sampleConsts sampleEnvAllocFails (sampleArgsN 1)).state.trace.all
      (fun e => decide (e.kind ≠ .submit ∧ e.kind ≠ .write ∧ e.kind ≠ .compare)) = true ∧
    releasedIn (CompressFile sampleConsts sampleEnvAllocFails (sampleArgsN 1)).state.trace
      = [9] ∧
    liveAt (CompressFile sampleConsts sampleEnvAllocFails (sampleArgsN 1)).state.trace
      = [1, 2, 3, 4, 5, 6, 7, 8] := by
  decide!

/-- The pooled buffers of different engines are apart: those of an earlier
engine lie below those of a later one. -/
theorem setup_sep (c : Consts) (env : Env) (a : Args) (s s' : State)
    (h : setup c env a s = .next s') :
    ∀ e e' i j, e < e' → e' < c.kNumEngines → i < a.iterations → i < 3 →
      j < a.iterations → j < 3 →
      ∀ p ∈ (s'.kinfo e i).pointers, ∀ q ∈ (s'.kinfo e' j).pointers, p < q := by
  unfold setup at h
  have key := forLoop_next (setupEngine c env a)
    (fun k t => (∀ e, e < k → ∃ lo, SlotsOk env t e lo a.iterations) ∧
      ∀ e e' i j, e < e' → e' < k → i < a.iterations → i < 3 → j < a.iterations → j < 3 →
        ∀ p ∈ (t.kinfo e i).pointers, ∀ q ∈ (t.kinfo e' j).pointers, p < q)
    c.kNumEngines 0 s s'
    (fun k t t' _ _ hP ht => by
      obtain ⟨h1, h2⟩ := hP
      obtain ⟨hs, hother, hnext, _⟩ := setupEngine_next_spec c env a k t t' ht
      constructor
      · intro e he
        by_cases hek : e = k
        · subst hek
          exact ⟨t.next, hs⟩
        · obtain ⟨lo, hok⟩ := h1 e (by omega)
          exact ⟨lo, hok.frame env e lo _ t t' (hother e hek) hnext⟩
      · intro e e' i j hee he' hi hi3 hj hj3 p hp q hq
        by_cases hek : e' = k
        · subst hek
          rw [hother e (by omega) i] at hp
          obtain ⟨lo, hok⟩ := h1 e (by omega)
          have hp' := hok.fresh i hi hi3 p hp
          have hq' := hs.fresh j hj hj3 q hq
          omega
        · rw [hother e (by omega) i] at hp
          rw [hother e' hek j] at hq
          exact h2 e e' i j hee (by omega) hi hi3 hj hj3 p hp q hq)
    ⟨fun e he => by omega, fun e e' i j _ he' => by omega⟩
    h
  simpa using key.2

/-- The host output buffers of two slots coincide only for the same engine and
slots that are congruent modulo 3. -/
theorem poutput_eq_iff (c : Consts) (env : Env) (a : Args) (s s' : State)
    (h : setup c env a s = .next s') (e e' i j : Nat) (he : e < c.kNumEngines)
    (he' : e' < c.kNumEngines) (hi : i < a.iterations) (hj : j < a.iterations) :
    (s'.kinfo e i).poutput_buffer = (s'.kinfo e' j).poutput_buffer ↔
      e = e' ∧ i % 3 = j % 3 := by
  obtain ⟨_, lo, _, hok⟩ := (setup_next_spec c env a s s' h).1 e he
  obtain ⟨_, lo', _, hok'⟩ := (setup_next_spec c env a s s' h).1 e' he'
  have hsep := setup_sep c env a s s' h
  have hmod : ∀ (x : Nat) (hx : x < c.kNumEngines) (y : Nat), y < a.iterations →
      (s'.kinfo x y).poutput_buffer = (s'.kinfo x (y % 3)).poutput_buffer := by
    intro x hx y hy
    obtain ⟨_, l, _, hk⟩ := (setup_next_spec c env a s s' h).1 x hx
    have := alias_mod (fun i => (s'.kinfo x i).bufferSet) a.iterations hk.aliased y hy
    simp only [KernelInfo.bufferSet, Prod.mk.injEq] at this
    exact this.1
  have hmem : ∀ x y, (s'.kinfo x y).poutput_buffer ∈ (s'.kinfo x y).pointers := by
    intro x y; simp [KernelInfo.pointers]
  have hi3 : i % 3 < 3 := Nat.mod_lt _ (by norm_num)
  have hj3 : j % 3 < 3 := Nat.mod_lt _ (by norm_num)
  have hil : i % 3 < a.iterations := lt_of_le_of_lt (Nat.mod_le _ _) hi
  have hjl : j % 3 < a.iterations := lt_of_le_of_lt (Nat.mod_le _ _) hj
  rw [hmod e he i hi, hmod e' he' j hj]
  constructor
  · intro heq
    rcases Nat.lt_trichotomy e e' with hlt | heq' | hgt
    · have := hsep e e' (i % 3) (j % 3) hlt he' hil hi3 hjl hj3 _ (hmem _ _) _ (hmem _ _)
      omega
    · subst heq'
      refine ⟨rfl, ?_⟩
      rcases Nat.lt_trichotomy (i % 3) (j % 3) with h1 | h1 | h1
      · have := hok.apart (i % 3) (j % 3) h1 hjl hj3 _ (hmem _ _) _ (hmem _ _)
        omega
      · exact h1
      · have := hok.apart (j % 3) (i % 3) h1 hil hi3 _ (hmem _ _) _ (hmem _ _)
        omega
    · have := hsep e' e (j % 3) (i % 3) hgt he hjl hj3 hil hi3 _ (hmem _ _) _ (hmem _ _)
      omega
  · rintro ⟨rfl, hm⟩
    rw [hm]

theorem content_cons (s : State) (x : Nat × Nat × Nat) (addr : Nat) (t : State)
    (h : t.hostMem = x :: s.hostMem) :
    t.content addr = if x.1 = addr then some x.2 else s.content addr := by
  unfold State.content
  rw [h, List.find?_cons]
  by_cases hx : x.1 = addr
  · simp [hx]
  · simp [hx]

theorem waitSlot_hostMem (env : Env) (eng i : Nat) (s s' : State)
    (h : waitSlot env eng i s = .next s') :
    s'.hostMem = ((s.kinfo eng i).poutput_buffer, eng, i) :: s.hostMem := by
  unfold waitSlot at h
  simp only [Flow.next.injEq] at h
  subst h
  rfl

theorem waitSlot_poutput (env : Env) (eng i : Nat) (s s' : State)
    (h : waitSlot env eng i s = .next s') (e j : Nat) :
    (s'.kinfo e j).poutput_buffer = (s.kinfo e j).poutput_buffer := by
  rw [waitSlot_kinfo env eng i s s' h e j]
  split <;> rfl

/-- The waits of one engine: each of its host output buffers was last written
by the last iteration that uses it, those of the other engines are untouched. -/
theorem waitEngine_content (c : Consts) (env : Env) (a : Args) (s0 s1 : State)
    (hsetup : setup c env a s0 = .next s1) (eng : Nat) (heng : eng < c.kNumEngines)
    (t t' : State) (hptr : ∀ e i, (t.kinfo e i).poutput_buffer = (s1.kinfo e i).poutput_buffer)
    (h : forLoop (waitSlot env eng) a.iterations 0 t = .next t') :
    (∀ e i, (t'.kinfo e i).poutput_buffer = (s1.kinfo e i).poutput_buffer) ∧
    (∀ i0, i0 < 3 → i0 < a.iterations → ∃ jj,
      t'.content (s1.kinfo eng i0).poutput_buffer = some (eng, jj) ∧
        jj % 3 = i0 ∧ jj < a.iterations ∧ a.iterations ≤ jj + 3) ∧
    (∀ e i0, e < c.kNumEngines → e ≠ eng → i0 < a.iterations →
      t'.content (s1.kinfo e i0).poutput_buffer = t.content (s1.kinfo e i0).poutput_buffer) := by
  have key := forLoop_next (waitSlot env eng)
    (fun j u => (∀ e i, (u.kinfo e i).poutput_buffer = (s1.kinfo e i).poutput_buffer) ∧
      (∀ i0, i0 < 3 → i0 < j → ∃ jj,
        u.content (s1.kinfo eng i0).poutput_buffer = some (eng, jj) ∧
          jj % 3 = i0 ∧ jj < j ∧ j ≤ jj + 3) ∧
      (∀ e i0, e < c.kNumEngines → e ≠ eng → i0 < a.iterations →
        u.content (s1.kinfo e i0).poutput_buffer = t.content (s1.kinfo e i0).poutput_buffer))
    a.iterations 0 t t'
    (fun j u u' _ hj hP hu => by
      obtain ⟨h1, h2, h3⟩ := hP
      have hj' : j < a.iterations := by omega
      have hc : ∀ addr, u'.content addr =
          if (s1.kinfo eng j).poutput_buffer = addr then some (eng, j) else u.content addr := by
        intro addr
        rw [content_cons u _ addr u' (waitSlot_hostMem env eng j u u' hu), h1 eng j]
      refine ⟨fun e i => by rw [waitSlot_poutput env eng j u u' hu, h1], ?_, ?_⟩
      · intro i0 hi3 hi0
        have hi0' : i0 < a.iterations := by omega
        rw [hc]
        by_cases hm : j % 3 = i0
        · have := (poutput_eq_iff c env a s0 s1 hsetup eng eng j i0 heng heng hj' hi0').2
            ⟨rfl, by rw [hm, Nat.mod_eq_of_lt hi3]⟩
          rw [if_pos this]
          exact ⟨j, rfl, hm, by omega, by omega⟩
        · have hne : ¬ (s1.kinfo eng j).poutput_buffer = (s1.kinfo eng i0).poutput_buffer := by
            intro heq
            have := ((poutput_eq_iff c env a s0 s1 hsetup eng eng j i0 heng heng hj' hi0').1
              heq).2
            rw [Nat.mod_eq_of_lt hi3] at this
            exact hm this
          rw [if_neg hne]
          have hlt : i0 < j := by
            rcases Nat.lt_succ_iff_lt_or_eq.1 hi0 with h5 | h5
            · exact h5
            · subst h5
              exact absurd (Nat.mod_eq_of_lt hi3) hm
          obtain ⟨jj, hjj, hm', hlt', hle⟩ := h2 i0 hi3 hlt
          refine ⟨jj, hjj, hm', by omega, ?_⟩
          omega
      · intro e i0 he hne hi0
        rw [hc, h3 e i0 he hne hi0]
        have hne' : ¬ (s1.kinfo eng j).poutput_buffer = (s1.kinfo e i0).poutput_buffer := by
          intro heq
          exact hne ((poutput_eq_iff c env a s0 s1 hsetup eng e j i0 heng he hj' hi0).1 heq).1.symm
        rw [if_neg hne'])
    ⟨hptr, fun i0 _ h0 => by omega, fun e i0 _ _ _ => rfl⟩
    h
  simp only [Nat.zero_add] at key
  exact key

/-- After the wait barrier every host output buffer was last written by the
last iteration that uses it. -/
theorem waitAll_content (c : Consts) (env : Env) (a : Args) (s0 s1 : State)
    (hsetup : setup c env a s0 = .next s1) (t t' : State)
    (hptr : ∀ e i, (t.kinfo e i).poutput_buffer = (s1.kinfo e i).poutput_buffer)
    (h : waitAll c env a t = .next t') :
    ∀ e i0, e < c.kNumEngines → i0 < 3 → i0 < a.iterations → ∃ jj,
      t'.content (s1.kinfo e i0).poutput_buffer = some (e, jj) ∧
        jj % 3 = i0 ∧ jj < a.iterations ∧ a.iterations ≤ jj + 3 := by
  unfold waitAll at h
  have key := forLoop_next (fun eng => forLoop (waitSlot env eng) a.iterations 0)
    (fun k u => (∀ e i, (u.kinfo e i).poutput_buffer = (s1.kinfo e i).poutput_buffer) ∧
      ∀ e i0, e < k → i0 < 3 → i0 < a.iterations → ∃ jj,
        u.content (s1.kinfo e i0).poutput_buffer = some (e, jj) ∧
          jj % 3 = i0 ∧ jj < a.iterations ∧ a.iterations ≤ jj + 3)
    c.kNumEngines 0 t t'
    (fun k u u' _ hk hP hu => by
      obtain ⟨h1, h2⟩ := hP
      obtain ⟨g1, g2, g3⟩ := waitEngine_content c env a s0 s1 hsetup k (by omega) u u' h1 hu
      refine ⟨g1, ?_⟩
      intro e i0 he hi3 hi0
      by_cases hek : e = k
      · subst hek
        exact g2 i0 hi3 hi0
      · rw [g3 e i0 (by omega) hek hi0]
        exact h2 e i0 (by omega) hi3 hi0)
    ⟨hptr, fun e i0 he => by omega⟩
    h
  simp only [Nat.zero_add] at key
  exact key.2

theorem Event.written?_of_kind (e : Event) (h : e.kind ≠ .write) : e.written? = none := by
  cases e <;> simp_all [Event.kind, Event.written?]

/-- The projection of the trace of a loop that falls through, for passes that
keep an invariant of the state. -/
theorem forLoop_proj_inv {β : Type} (f : Event → Option β) (body : Nat → State → Flow State)
    (I : State → Prop) (g : Nat → List β) (n i : Nat) (s s' : State) (hI : I s)
    (hb : ∀ j t t', i ≤ j → j < i + n → I t → body j t = .next t' →
      I t' ∧ t'.trace.filterMap f = t.trace.filterMap f ++ g j)
    (h : forLoop body n i s = .next s') :
    I s' ∧ s'.trace.filterMap f = s.trace.filterMap f ++ (List.range' i n).flatMap g := by
  have key := forLoop_next body
    (fun k t => I t ∧
      t.trace.filterMap f = s.trace.filterMap f ++ (List.range' i (k - i)).flatMap g)
    n i s s'
    (fun j t t' h1 h2 hP ht => by
      show I t' ∧
        t'.trace.filterMap f = s.trace.filterMap f ++ (List.range' i (j + 1 - i)).flatMap g
      have hP' : I t ∧ t.trace.filterMap f =
        s.trace.filterMap f ++ (List.range' i (j - i)).flatMap g := hP
      obtain ⟨hI', hp⟩ := hb j t t' h1 h2 hP'.1 ht
      refine ⟨hI', ?_⟩
      rw [hp, hP'.2]
      have e1 : j + 1 - i = (j - i) + 1 := by omega
      rw [e1, List.range'_concat, List.flatMap_append, List.append_assoc]
      have e2 : i + (j - i) = j := by omega
      simp [e2])
    ⟨hI, by simp⟩ h
  simpa using key

theorem validateSlot_hostMem (c : Consts) (env : Env) (eng i : Nat) (s s' : State)
    (h : validateSlot c env eng i s = .next s') : s'.hostMem = s.hostMem := by
  unfold validateSlot at h
  simp only at h
  split at h
  · cases h
  · simp only [Flow.next.injEq] at h
    subst h
    rfl

/-- The validation loops, when they fall through, leave every slot reconciled
and the host memory as it was. -/
theorem validateAll_next_spec (c : Consts) (env : Env) (a : Args) (s s' : State)
    (h : validateAll c env a s = .next s') :
    s'.hostMem = s.hostMem ∧
    ∀ e j, s'.kinfo e j = if e < c.kNumEngines ∧ j < a.iterations
      then reconciled c env (s.kinfo e j) else s.kinfo e j := by
  unfold validateAll at h
  constructor
  · have key := forLoop_next
      (fun eng s0 => forLoop (validateSlot c env eng) a.iterations 0
        { s0 with compressed_sz := fun e => if e = eng then 0 else s0.compressed_sz e })
      (fun _ t => t.hostMem = s.hostMem) c.kNumEngines 0 s s'
      (fun eng t t' _ _ hP ht => by
        have inner := forLoop_next (validateSlot c env eng) (fun _ u => u.hostMem = s.hostMem)
          a.iterations 0
          { t with compressed_sz := fun e => if e = eng then 0 else t.compressed_sz e } t'
          (fun j u u' _ _ hQ hu => by
            show u'.hostMem = s.hostMem
            rw [validateSlot_hostMem c env eng j u u' hu]
            exact hQ)
          hP ht
        exact inner)
      rfl h
    exact key
  · exact engineLoop_kinfo _ a.iterations (fun _ _ => reconciled c env)
      (fun eng t t' ht e j => by
        rw [slotLoop_kinfo _ eng (fun _ => reconciled c env)
          (fun i u u' hu => validateSlot_kinfo c env eng i u u' hu) _ _ t' ht e j])
      _ s s' h

/-- One call of the writer, in a state with at least one iteration, report set
and the write succeeding. -/
theorem writeEngine_written (env : Env) (a : Args) (eng : Nat) (s s' : State)
    (hN : 0 < a.iterations) (hr : a.report = true) (hw : env.writeResult eng = 0)
    (h : writeEngine env a eng s = .next s') :
    s'.kinfo = s.kinfo ∧ s'.hostMem = s.hostMem ∧
    s'.trace.filterMap Event.written? = s.trace.filterMap Event.written? ++
      [(eng, s.content (s.kinfo eng 0).poutput_buffer, (s.kinfo eng 0).out_info0,
        (s.kinfo eng 0).buffer_crc0)] := by
  unfold writeEngine at h
  rw [if_neg (by omega)] at h
  simp only [hr, if_true, hw, ne_eq, not_true_eq_false, if_false, Flow.next.injEq] at h
  subst h
  refine ⟨rfl, rfl, ?_⟩
  simp [State.emit, List.filterMap_append, Event.written?]

/-- What follows the validation loops, with at least one iteration, report set
and no failing write: `WriteBlockGzip` is passed, for each engine in turn, slot
0's host output buffer as the wait barrier left it, and slot 0's size and
CRC. -/
theorem afterValidate_written (c : Consts) (env : Env) (a : Args) (s : State)
    (hN : 0 < a.iterations) (hr : a.report = true)
    (hw : ∀ eng, eng < c.kNumEngines → env.writeResult eng = 0) :
    (afterValidate c env a s).state.trace.filterMap Event.written? =
      s.trace.filterMap Event.written? ++
        (List.range c.kNumEngines).map (fun eng =>
          (eng, s.content (s.kinfo eng 0).poutput_buffer, (s.kinfo eng 0).out_info0,
            (s.kinfo eng 0).buffer_crc0)) := by
  unfold afterValidate
  rw [freeInput_eq, Flow.bind_next]
  obtain ⟨s6, h6, _⟩ := writeAll_next c env a (s.emit (.free .inputImage 0 0 s.pinbuf)) hN
    (fun _ => hw)
  have hp := forLoop_proj_inv Event.written? (writeEngine env a)
    (fun t => t.kinfo = s.kinfo ∧ t.hostMem = s.hostMem)
    (fun eng => [(eng, s.content (s.kinfo eng 0).poutput_buffer, (s.kinfo eng 0).out_info0,
      (s.kinfo eng 0).buffer_crc0)])
    c.kNumEngines 0 (s.emit (.free .inputImage 0 0 s.pinbuf)) s6 ⟨rfl, rfl⟩
    (fun j t t' _ hj hI ht => by
      obtain ⟨g1, g2, g3⟩ := writeEngine_written env a j t t' hN hr (hw j (by omega)) ht
      refine ⟨⟨by rw [g1, hI.1], by rw [g2, hI.2]⟩, ?_⟩
      rw [g3]
      have hc : t.content (t.kinfo j 0).poutput_buffer =
          s.content (s.kinfo j 0).poutput_buffer := by
        unfold State.content
        rw [hI.1, hI.2]
      rw [hc, hI.1])
    h6
  rw [h6, Flow.bind_next]
  have htail : Extends (kindIn [.compare, .note, .wait, .free, .passed]) s6
      ((compareStage env a s6).bind fun s => (timeAll c a s).bind fun s =>
        (reportStage c a s).bind fun s => (cleanupAll c a s).bind fun s => finish a s).state := by
    refine bind_extends _ _ _ _ ((compareStage_extends env a s6).kinds_mono (by decide))
      (fun t => ?_)
    obtain ⟨t', ht', xt⟩ := tail_after_compare c a t
    rw [ht']
    exact xt.kinds_mono (by decide)
  rw [htail.filterMap_eq _
    (fun e he => Event.written?_of_kind e (kind_ne_of_mem (by decide) he)), hp.2]
  have e1 : (s.emit (.free .inputImage 0 0 s.pinbuf)).trace.filterMap Event.written? =
      s.trace.filterMap Event.written? := by
    simp [State.emit, List.filterMap_append, Event.written?]
  rw [e1, List.range_eq_range']
  congr 1
  induction (List.range' 0 c.kNumEngines) with
  | nil => rfl
  | cons x l ih => simp [List.flatMap_cons, ih]

/-- What `WriteBlockGzip` is passed, for every iteration count.  In a run that
passes every check, with report set and every write succeeding, the call for
engine `eng` is passed a buffer last written by the output copy of iteration
`3 * ((N - 1) / 3)`, the last iteration that shares slot 0's buffer, together
with the compressed size reported by iteration 0 and the CRC reconciled from
the partial CRC of iteration 0. -/
theorem written_by_last_sharer (c : Consts) (env : Env) (a : Args) (ho : env.fileOpen = true)
    (hm : ¬ env.isz < toSizeT (minimum_filesize c)) (hok : AllocOk c env a)
    (hsz : ∀ eng i, eng < c.kNumEngines → i < a.iterations →
      env.compression_sz eng i ≤ env.isz)
    (hN : 0 < a.iterations) (hr : a.report = true)
    (hw : ∀ eng, eng < c.kNumEngines → env.writeResult eng = 0) :
    (CompressFile c env a).state.trace.filterMap Event.written? =
      (List.range c.kNumEngines).map (fun eng =>
        (eng, some (eng, 3 * ((a.iterations - 1) / 3)), env.compression_sz eng 0,
          Crc32 c.crcQuantum env.fileBytes env.isz (env.device_crc eng 0))) := by
  obtain ⟨s4', h4', x4⟩ := reachValidate_total c env a ho hm hok hsz
  have hq : s4'.trace.filterMap Event.written? = [] := by
    rw [x4.filterMap_eq _
      (fun e he => Event.written?_of_kind e (kind_ne_of_mem (by decide) he))]
    rfl
  rw [CompressFile_eq_reachValidate, h4', Flow.bind_next,
    afterValidate_written c env a s4' hN hr hw, hq, List.nil_append]
  -- the state the validation loops leave
  unfold reachValidate at h4'
  obtain ⟨s0, h0, hn, _⟩ := readInput_open c env State.init ho
  rw [h0, Flow.bind_next, checkMinimum_pass c env s0 hm, Flow.bind_next] at h4'
  obtain ⟨s1, h1⟩ := setup_total c env a s0 (by omega) hok
  rw [h1, Flow.bind_next, submitAll_eq, Flow.bind_next] at h4'
  obtain ⟨s3, h3, hk3, _⟩ := waitAll_spec c env a
    { s1 with trace := s1.trace ++ submitTrace c.kNumEngines a.iterations }
  have hc3 := waitAll_content c env a s0 s1 h1
    { s1 with trace := s1.trace ++ submitTrace c.kNumEngines a.iterations } s3
    (fun _ _ => rfl) h3
  rw [h3, Flow.bind_next] at h4'
  obtain ⟨hm4, hk4⟩ := validateAll_next_spec c env a s3 s4' h4'
  apply List.map_congr_left
  intro eng heng
  rw [List.mem_range] at heng
  have hslot : s4'.kinfo eng 0 = reconciled c env (copiedBack env eng 0 (s1.kinfo eng 0)) := by
    rw [hk4 eng 0, if_pos ⟨heng, hN⟩, hk3 eng 0, if_pos ⟨heng, hN⟩]
  obtain ⟨_, lo, _, hslots⟩ := (setup_next_spec c env a s0 s1 h1).1 eng heng
  have hfs := hslots.size 0 hN
  obtain ⟨jj, hjj, hmod, hlt, hle⟩ := hc3 eng 0 heng (by norm_num) hN
  have hcontent : s4'.content (s4'.kinfo eng 0).poutput_buffer = some (eng, jj) := by
    rw [hslot]
    unfold State.content
    rw [hm4]
    exact hjj
  have hjj' : jj = 3 * ((a.iterations - 1) / 3) := by omega
  rw [hcontent, hjj', hslot]
  simp [reconciled, copiedBack, reconcile, hfs]

/-! ### What is released when an allocation fails -/

theorem setupSlotRest_kinfoPtr (c : Consts) (env : Env) (eng i p : Nat) (s : State) :
    (setupSlotRest c env eng i p s).kinfoPtr = s.kinfoPtr := by
  unfold setupSlotRest
  by_cases h : 3 ≤ i
  · simp [h, State.setSlot, malloc_kinfoPtr]
  · simp [h, State.setSlot, malloc_kinfoPtr]

theorem setupSlotRest_allocs (c : Consts) (env : Env) (eng i p : Nat) (s : State) :
    Extends (kindIn [.alloc]) s (setupSlotRest c env eng i p s) := by
  unfold setupSlotRest
  have hq : ∀ what size addr, (kindIn [.alloc]) (.alloc what eng i size addr) := by
    intro what size addr; simp [kindIn, Event.kind]
  by_cases h : 3 ≤ i
  · simp only [h, if_true]
    exact ((Extends.refl _ s).malloc_of _ _ _ _ _ (hq _ _)).setSlot_of _ _ _
  · simp only [h, if_false]
    exact ((((((Extends.refl _ s).malloc_of _ _ _ _ _ (hq _ _)).malloc_of _ _ _ _ _
      (hq _ _)).malloc_of _ _ _ _ _ (hq _ _)).malloc_of _ _ _ _ _ (hq _ _)).malloc_of
      _ _ _ _ _ (hq _ _)).setSlot_of _ _ _

theorem sparesInput_of_kind (e : Event) (h : e.kind ≠ .free) : sparesInput e := by
  cases e <;> simp_all [Event.kind, sparesInput]

/-- One pass of the inner setup loop releases nothing but the engine's
`KernelInfo` array. -/
theorem setupSlot_spares (c : Consts) (env : Env) (eng i : Nat) (s : State)
    (h : 2 ≤ s.kinfoPtr eng) :
    Extends sparesInput s (setupSlot c env eng i s).state ∧
      (setupSlot c env eng i s).state.kinfoPtr = s.kinfoPtr := by
  have hx : ∀ (t : State) (p : Nat), Extends sparesInput t (setupSlotRest c env eng i p t) :=
    fun t p => (setupSlotRest_allocs c env eng i p t).mono
      (fun e he => sparesInput_of_kind e (kind_ne_of_mem (by decide) he))
  unfold setupSlot
  by_cases h3 : 3 ≤ i
  · rw [if_pos h3]
    exact ⟨hx _ _, setupSlotRest_kinfoPtr c env eng i _ s⟩
  · rw [if_neg h3]
    have h1 : Extends sparesInput s
        (s.malloc (env.outputAllocFails eng i) .poutput_buffer eng i
          (toSizeT (outputSize c env.isz))).2 :=
      (Extends.refl _ s).malloc_of _ _ _ _ _ (fun _ => trivial)
    simp only
    split
    · refine ⟨(h1.emit_of (.print .cannotAllocOutput) trivial).emit_of _ ?_, ?_⟩
      · show 2 ≤ _
        rw [malloc_kinfoPtr]
        exact h
      · simp only [Flow.state, State.emit, malloc_kinfoPtr]
    · exact ⟨h1.trans (hx _ _), by
        simp only [Flow.state]
        rw [setupSlotRest_kinfoPtr, malloc_kinfoPtr]⟩

theorem setupSlotRest_next_ge (c : Consts) (env : Env) (eng i p : Nat) (s : State) :
    s.next ≤ (setupSlotRest c env eng i p s).next := by
  rw [setupSlotRest_next]
  split_ifs <;> omega

theorem setupSlot_next_mono (c : Consts) (env : Env) (eng i : Nat) (s : State) :
    s.next ≤ (setupSlot c env eng i s).state.next := by
  unfold setupSlot
  by_cases h3 : 3 ≤ i
  · rw [if_pos h3]
    exact setupSlotRest_next_ge c env eng i _ s
  · rw [if_neg h3]
    have hm : s.next ≤ (s.malloc (env.outputAllocFails eng i) .poutput_buffer eng i
        (toSizeT (outputSize c env.isz))).2.next := by
      rw [malloc_next]
      split_ifs <;> omega
    simp only
    split
    · exact hm
    · exact le_trans hm (setupSlotRest_next_ge c env eng i _ _)

/-- One pass of the outer setup loop releases nothing but the engine's
`KernelInfo` array. -/
theorem setupEngine_spares (c : Consts) (env : Env) (a : Args) (eng : Nat) (s : State)
    (h : 2 ≤ s.next) :
    Extends sparesInput s (setupEngine c env a eng s).state ∧
      2 ≤ (setupEngine c env a eng s).state.next := by
  unfold setupEngine
  simp only [malloc_fst]
  cases hf : env.kinfoAllocFails eng with
  | true =>
    simp only [if_true, Flow.state]
    refine ⟨(((Extends.refl _ s).malloc_of true .kinfoArray eng 0 _ (fun _ => trivial)).trans
      (Extends.of_trace_eq _ _ _ rfl)).emit_of (.print .cannotAllocKinfo) trivial, ?_⟩
    simp [State.emit, malloc_next, h]
  | false =>
    simp only [Bool.false_eq_true, if_false]
    rw [if_neg (by omega)]
    have key := forLoop_state (setupSlot c env eng)
      (fun t => Extends sparesInput s t ∧ 2 ≤ t.kinfoPtr eng ∧ 2 ≤ t.next)
      (fun j t hP => by
        obtain ⟨g1, g2⟩ := setupSlot_spares c env eng j t hP.2.1
        refine ⟨hP.1.trans g1, by rw [g2]; exact hP.2.1, ?_⟩
        have := setupSlot_next_mono c env eng j t
        omega)
      a.iterations 0
      { (s.malloc false .kinfoArray eng 0 (wrapSizeT (c.sizeofKernelInfo * a.iterations))).2 with
        kinfoPtr := fun e => if e = eng then s.next
          else (s.malloc false .kinfoArray eng 0
            (wrapSizeT (c.sizeofKernelInfo * a.iterations))).2.kinfoPtr e }
      ⟨((Extends.refl _ s).malloc_of false .kinfoArray eng 0 _ (fun _ => trivial)).trans
        (Extends.of_trace_eq _ _ _ rfl), by simp [h], by simp [malloc_next]; omega⟩
    exact ⟨key.1, key.2.2⟩

/-- The setup loop releases nothing but `KernelInfo` arrays. -/
theorem setup_spares (c : Consts) (env : Env) (a : Args) (s : State) (h : 2 ≤ s.next) :
    Extends sparesInput s (setup c env a s).state := by
  unfold setup
  have key := forLoop_state (setupEngine c env a)
    (fun t => Extends sparesInput s t ∧ 2 ≤ t.next)
    (fun j t hP => by
      obtain ⟨g1, g2⟩ := setupEngine_spares c env a j t hP.2
      exact ⟨hP.1.trans g1, g2⟩)
    c.kNumEngines 0 s ⟨Extends.refl _ s, h⟩
  exact key.1

/-- When a checked allocation fails the setup loop returns 1. -/
theorem setup_ret_of_fail (c : Consts) (env : Env) (a : Args) (s : State)
    (hfail : ¬ AllocOk c env a) : ∃ s', setup c env a s = .ret 1 s' := by
  rcases setup_cases c env a s with ⟨s', h⟩ | h
  · exfalso
    apply hfail
    have hs := (setup_next_spec c env a s s' h).1
    refine ⟨fun eng he => (hs eng he).1, fun eng i he hi h3 => ?_⟩
    obtain ⟨_, lo, _, hok⟩ := hs eng he
    exact hok.noFail i hi h3
  · exact h

/-- The leak of C6, for every failing allocation.  With a readable input of at
least the minimum size, when the `KernelInfo` array of some engine or the host
output buffer of one of its slots 0, 1, 2 fails to allocate, `CompressFile`
returns 1 having submitted nothing, waited for nothing and called neither
writer nor comparator, and the input image (address 1) is still allocated. -/
theorem alloc_failure_leaks_input (c : Consts) (env : Env) (a : Args)
    (ho : env.fileOpen = true) (hm : ¬ env.isz < toSizeT (minimum_filesize c))
    (hfail : ¬ AllocOk c env a) :
    (CompressFile c env a).code = some 1 ∧
    (∀ e ∈ (CompressFile c env a).state.trace,
      e.kind ≠ .submit ∧ e.kind ≠ .wait ∧ e.kind ≠ .write ∧ e.kind ≠ .compare) ∧
    1 ∈ liveAt (CompressFile c env a).state.trace := by
  obtain ⟨s0, h0, hn, _⟩ := readInput_open c env State.init ho
  have x0 : Extends (kindIn preludeKinds) State.init s0 := by
    have := readInput_extends c env State.init
    rw [h0] at this
    exact this
  obtain ⟨s1, h1⟩ := setup_ret_of_fail c env a s0 hfail
  have x1 : Extends (kindIn preludeKinds) s0 s1 := by
    have := setup_extends c env a s0
    rw [h1] at this
    exact this
  have y1 : Extends sparesInput s0 s1 := by
    have := setup_spares c env a s0 (by rw [hn]; simp [State.init])
    rw [h1] at this
    exact this
  have hrun : CompressFile c env a = .ret 1 s1 := by
    unfold CompressFile afterChecks
    rw [h0, Flow.bind_next, checkMinimum_pass c env s0 hm, Flow.bind_next, h1]
    rfl
  rw [hrun]
  refine ⟨rfl, ?_, ?_⟩
  · intro e he
    have hx := x0.trans x1
    exact ⟨hx.no_kind (K := .submit) (by decide) (by simp [State.init]) e he,
      hx.no_kind (K := .wait) (by decide) (by simp [State.init]) e he,
      hx.no_kind (K := .write) (by decide) (by simp [State.init]) e he,
      hx.no_kind (K := .compare) (by decide) (by simp [State.init]) e he⟩
  · -- the trace read so far: the warning, if any, and the allocation at address 1
    have ht0 : ∃ l, s0.trace = l ++ [.alloc .inputImage 0 0
        (wrapSizeT (env.isz + kInOutPadding c)) 1] ∧ ∀ e ∈ l, e.kind = .note := by
      have h0' := h0
      unfold readInput at h0'
      simp only [ho, if_true, Flow.next.injEq] at h0'
      subst h0'
      by_cases hw : (env.isS10 && !env.prepin) = true
      · exact ⟨[.print .warnNoPrepin], by simp [hw, State.malloc, State.emit, State.init],
          by simp [Event.kind]⟩
      · exact ⟨[], by simp [hw, State.malloc, State.emit, State.init], by simp⟩
    obtain ⟨l, hl, hnote⟩ := ht0
    obtain ⟨Y, hY, hq⟩ := y1
    simp only [Flow.state, liveAt, List.mem_filter, decide_eq_true_eq]
    constructor
    · rw [hY, hl]
      simp [allocatedIn, List.filterMap_append]
    · rw [hY, hl]
      simp only [releasedIn, List.filterMap_append, List.mem_append, List.mem_filterMap,
        not_or, not_exists, not_and]
      refine ⟨⟨?_, ?_⟩, ?_⟩
      · intro e he
        have := hnote e he
        cases e <;> simp_all [Event.kind]
      · intro e he
        simp only [List.mem_singleton] at he
        subst he
        simp
      · intro e he
        have := hq e he
        cases e <;> simp_all [sparesInput]
        omega

/-! ### Runs that return 0 -/

/-- A sequence returns `code` only when its first part does or when the first
part falls through and the rest returns `code`. -/
theorem Flow.code_bind {σ : Type} (x : Flow σ) (f : σ → Flow σ) (code : Int)
    (h : (x.bind f).code = some code) (hx : x.code ≠ some code) :
    ∃ t, x = .next t ∧ (f t).code = some code := by
  cases x with
  | next t => exact ⟨t, rfl, h⟩
  | ret code' t => exact absurd h hx
  | undef t => cases h

/-- A loop whose passes never return `code` does not return `code`. -/
theorem forLoop_code_ne {σ : Type} (body : Nat → σ → Flow σ) (code : Int)
    (hb : ∀ j t, (body j t).code ≠ some code) :
    ∀ (n i : Nat) (s : σ), (forLoop body n i s).code ≠ some code := by
  intro n
  induction n with
  | zero => intro i s h; cases h
  | succ n ih =>
    intro i s h
    rw [forLoop_succ] at h
    obtain ⟨t, _, ht⟩ := Flow.code_bind _ _ _ h (hb i s)
    exact ih _ _ ht

theorem readInput_code (c : Consts) (env : Env) (s : State) :
    (readInput c env s).code ≠ some 0 := by
  unfold readInput
  by_cases ho : env.fileOpen = true
  · simp [ho, Flow.code]
  · simp [ho, Flow.code]

theorem checkMinimum_code (c : Consts) (env : Env) (s : State) :
    (checkMinimum c env s).code ≠ some 0 := by
  unfold checkMinimum
  split <;> simp [Flow.code]

theorem setupSlot_code (c : Consts) (env : Env) (eng i : Nat) (s : State) :
    (setupSlot c env eng i s).code ≠ some 0 := by
  unfold setupSlot
  by_cases h3 : 3 ≤ i
  · simp [h3, Flow.code]
  · simp only [h3, if_false]
    split <;> simp [Flow.code]

theorem setupEngine_code (c : Consts) (env : Env) (a : Args) (eng : Nat) (s : State) :
    (setupEngine c env a eng s).code ≠ some 0 := by
  unfold setupEngine
  simp only
  split
  · simp [Flow.code]
  · exact forLoop_code_ne _ _ (setupSlot_code c env eng) _ _ _

theorem setup_code (c : Consts) (env : Env) (a : Args) (s : State) :
    (setup c env a s).code ≠ some 0 :=
  forLoop_code_ne _ _ (setupEngine_code c env a) _ _ _

theorem validateSlot_code (c : Consts) (env : Env) (eng i : Nat) (s : State) :
    (validateSlot c env eng i s).code ≠ some 0 := by
  unfold validateSlot
  simp only
  split <;> simp [Flow.code]

theorem validateAll_code (c : Consts) (env : Env) (a : Args) (s : State) :
    (validateAll c env a s).code ≠ some 0 :=
  forLoop_code_ne _ _ (fun eng _ => forLoop_code_ne _ _ (validateSlot_code c env eng) _ _ _) _ _ _

theorem writeEngine_code (env : Env) (a : Args) (eng : Nat) (s : State) :
    (writeEngine env a eng s).code ≠ some 0 := by
  unfold writeEngine
  simp only
  split_ifs <;> simp [Flow.code]

theorem writeAll_code (c : Consts) (env : Env) (a : Args) (s : State) :
    (writeAll c env a s).code ≠ some 0 :=
  forLoop_code_ne _ _ (writeEngine_code env a) _ _ _

theorem compareStage_code (env : Env) (a : Args) (s : State) :
    (compareStage env a s).code ≠ some 0 := by
  unfold compareStage
  split_ifs <;> simp [Flow.code]

/-- A run that returns 0 falls through every stage: the states after the
input is read, after the setup loop, after the wait barrier, after the
validation loops, after the write loop, after the comparison, after the
report and after the cleanup loops. -/
theorem success_path (c : Consts) (env : Env) (a : Args)
    (h : (CompressFile c env a).code = some 0) :
    ∃ s0 s1 s3 s4 s6 s7 s9 s10,
      readInput c env State.init = .next s0 ∧
      setup c env a s0 = .next s1 ∧
      waitAll c env a
        { s1 with trace := s1.trace ++ submitTrace c.kNumEngines a.iterations } = .next s3 ∧
      validateAll c env a s3 = .next s4 ∧
      writeAll c env a (s4.emit (.free .inputImage 0 0 s4.pinbuf)) = .next s6 ∧
      compareStage env a s6 = .next s7 ∧
      reportStage c a
        { s7 with trace := s7.trace ++ timeTrace c.kNumEngines a.iterations } = .next s9 ∧
      cleanupAll c a s9 = .next s10 ∧
      (CompressFile c env a).state = (if a.report then s10.emit (.print .passed) else s10) := by
  unfold CompressFile at h ⊢
  obtain ⟨s0, e0, h1⟩ := Flow.code_bind _ _ _ h (readInput_code c env _)
  obtain ⟨s0', e0', h2⟩ := Flow.code_bind _ _ _ h1 (checkMinimum_code c env _)
  have hs0 : s0' = s0 := by
    unfold checkMinimum at e0'
    split at e0'
    · cases e0'
    · simp only [Flow.next.injEq] at e0'
      exact e0'.symm
  rw [hs0] at h2 e0'
  unfold afterChecks at h2 ⊢
  obtain ⟨s1, e1, h3⟩ := Flow.code_bind _ _ _ h2 (setup_code c env a _)
  rw [submitAll_eq, Flow.bind_next] at h3
  obtain ⟨s3, e3, _, _⟩ := waitAll_spec c env a
    { s1 with trace := s1.trace ++ submitTrace c.kNumEngines a.iterations }
  rw [e3, Flow.bind_next] at h3
  obtain ⟨s4, e4, h4⟩ := Flow.code_bind _ _ _ h3 (validateAll_code c env a _)
  unfold afterValidate at h4 ⊢
  rw [freeInput_eq, Flow.bind_next] at h4
  obtain ⟨s6, e6, h5⟩ := Flow.code_bind _ _ _ h4 (writeAll_code c env a _)
  obtain ⟨s7, e7, h6⟩ := Flow.code_bind _ _ _ h5 (compareStage_code env a _)
  obtain ⟨s9, e9, _⟩ := reportStage_spec c a
    { s7 with trace := s7.trace ++ timeTrace c.kNumEngines a.iterations }
  obtain ⟨s10, e10, _⟩ := cleanupAll_spec c a s9
  refine ⟨s0, s1, s3, s4, s6, s7, s9, s10, e0, e1, e3, e4, e6, e7, e9, e10, ?_⟩
  rw [e0, Flow.bind_next, e0', Flow.bind_next, e1, Flow.bind_next, submitAll_eq, Flow.bind_next,
    e3, Flow.bind_next, e4, Flow.bind_next, freeInput_eq, Flow.bind_next, e6, Flow.bind_next,
    e7, Flow.bind_next, timeAll_eq, Flow.bind_next, e9, Flow.bind_next, e10, Flow.bind_next]
  rfl

/-! ### Stages that allocate and release nothing -/

theorem Event.allocation?_of_kind (e : Event) (h : e.kind ≠ .alloc) : e.allocation? = none := by
  cases e <;> simp_all [Event.kind, Event.allocation?]

theorem Event.release?_of_kind (e : Event) (h : e.kind ≠ .free) : e.release? = none := by
  cases e <;> simp_all [Event.kind, Event.release?]

/-- Events that are neither allocations nor releases leave both ledgers as
they were. -/
theorem Extends.ledger {l : List Kind} (hA : Kind.alloc ∉ l) (hF : Kind.free ∉ l)
    {s t : State} (h : Extends (kindIn l) s t) :
    t.trace.filterMap Event.allocation? = s.trace.filterMap Event.allocation? ∧
    t.trace.filterMap Event.release? = s.trace.filterMap Event.release? :=
  ⟨h.filterMap_eq _ (fun e he => Event.allocation?_of_kind e (kind_ne_of_mem hA he)),
    h.filterMap_eq _ (fun e he => Event.release?_of_kind e (kind_ne_of_mem hF he))⟩

theorem SameBuffers.same_refl (s : State) : SameBuffers s s := ⟨rfl, rfl, fun _ _ => rfl⟩

theorem SameBuffers.same_trans {s t u : State} (h1 : SameBuffers s t) (h2 : SameBuffers t u) :
    SameBuffers s u :=
  ⟨h2.1.trans h1.1, h2.2.1.trans h1.2.1, fun e j => (h2.2.2 e j).trans (h1.2.2 e j)⟩

theorem forLoop_same (body : Nat → State → Flow State)
    (hb : ∀ j t, SameBuffers t (body j t).state) (n i : Nat) (s : State) :
    SameBuffers s (forLoop body n i s).state :=
  forLoop_state body (fun t => SameBuffers s t) (fun j t h => h.same_trans (hb j t)) n i s
    (SameBuffers.same_refl s)

theorem waitSlot_same (env : Env) (eng i : Nat) (s : State) :
    SameBuffers s (waitSlot env eng i s).state := by
  unfold waitSlot
  refine ⟨rfl, rfl, ?_⟩
  intro e j
  simp only [Flow.state, State.setSlot, State.emit]
  split_ifs with h
  · rw [h.1, h.2]; rfl
  · rfl

theorem waitAll_same (c : Consts) (env : Env) (a : Args) (s : State) :
    SameBuffers s (waitAll c env a s).state :=
  forLoop_same _ (fun eng _ => forLoop_same _ (waitSlot_same env eng) _ _ _) _ _ _

theorem validateSlot_same (c : Consts) (env : Env) (eng i : Nat) (s : State) :
    SameBuffers s (validateSlot c env eng i s).state := by
  unfold validateSlot
  simp only
  split
  · exact ⟨rfl, rfl, fun _ _ => rfl⟩
  · refine ⟨rfl, rfl, ?_⟩
    intro e j
    simp only [Flow.state, State.setSlot]
    split_ifs with h
    · rw [h.1, h.2]; rfl
    · rfl

theorem validateAll_same (c : Consts) (env : Env) (a : Args) (s : State) :
    SameBuffers s (validateAll c env a s).state := by
  unfold validateAll
  refine forLoop_same _ (fun eng t => ?_) _ _ _
  have h0 : SameBuffers t
      { t with compressed_sz := fun e => if e = eng then 0 else t.compressed_sz e } :=
    ⟨rfl, rfl, fun _ _ => rfl⟩
  exact h0.same_trans (forLoop_same _ (validateSlot_same c env eng) _ _ _)

theorem writeEngine_same (env : Env) (a : Args) (eng : Nat) (s : State) :
    SameBuffers s (writeEngine env a eng s).state := by
  unfold writeEngine
  simp only
  split_ifs <;> exact ⟨rfl, rfl, fun _ _ => rfl⟩

theorem writeAll_same (c : Consts) (env : Env) (a : Args) (s : State) :
    SameBuffers s (writeAll c env a s).state :=
  forLoop_same _ (writeEngine_same env a) _ _ _

theorem compareStage_same (env : Env) (a : Args) (s : State) :
    SameBuffers s (compareStage env a s).state := by
  unfold compareStage
  split_ifs <;> exact ⟨rfl, rfl, fun _ _ => rfl⟩

theorem reportStage_same (c : Consts) (a : Args) (s : State) :
    SameBuffers s (reportStage c a s).state := by
  unfold reportStage
  by_cases hr : a.report = true
  · simp only [hr, if_true]
    by_cases he : c.fpgaEmulator = true
    · simp only [he, if_true, Flow.bind_next]
      exact ⟨rfl, rfl, fun _ _ => rfl⟩
    · simp only [he]
      rw [forLoop_traceOnly (fun _ s0 => Flow.next (s0.emit (.print .tpBreakdown)))
        (fun _ => [.print .tpBreakdown]) (fun j t => rfl)]
      exact ⟨rfl, rfl, fun _ _ => rfl⟩
  · rw [if_neg hr]
    exact SameBuffers.same_refl s

theorem cleanupSlot_same (eng i : Nat) (s : State) :
    SameBuffers s (cleanupSlot eng i s).state := by
  unfold cleanupSlot
  simp only
  split_ifs <;> exact ⟨rfl, rfl, fun _ _ => rfl⟩

theorem cleanupAll_same (c : Consts) (a : Args) (s : State) :
    SameBuffers s (cleanupAll c a s).state :=
  forLoop_same _ (fun eng t => Flow.bind_state _ _ (fun u => SameBuffers t u)
    (forLoop_same _ (cleanupSlot_same eng) _ _ _)
    (fun u hu => by
      have h1 := forLoop_same _ (cleanupSlot_same eng) a.iterations 0 t
      rw [hu] at h1
      exact h1.same_trans ⟨rfl, rfl, fun _ _ => rfl⟩)) _ _ _

/-! ### The ledgers as functions of the pointers held -/

theorem slotAllocations_congr {k k' : KernelInfo} (h : k'.owned = k.owned) (eng i : Nat) :
    slotAllocations k' eng i = slotAllocations k eng i := by
  simp only [KernelInfo.owned, Prod.mk.injEq] at h
  obtain ⟨h1, h2, h3, h4, h5, h6⟩ := h
  simp only [slotAllocations, h1, h2, h3, h4, h5, h6]

theorem slotReleases_congr {k k' : KernelInfo} (h : k'.owned = k.owned) (eng i : Nat) :
    slotReleases k' eng i = slotReleases k eng i := by
  simp only [KernelInfo.owned, Prod.mk.injEq] at h
  obtain ⟨h1, h2, h3, h4, h5, h6⟩ := h
  simp only [slotReleases, h1, h2, h3, h4, h5, h6]

theorem SameBuffers.same_engineAllocations {s t : State} (h : SameBuffers s t) (N eng : Nat) :
    engineAllocations t N eng = engineAllocations s N eng := by
  obtain ⟨_, h2, h3⟩ := h
  unfold Gzip.engineAllocations
  rw [h2]
  congr 1
  exact List.flatMap_congr (fun i _ => slotAllocations_congr (h3 eng i) eng i)

theorem SameBuffers.same_engineReleases {s t : State} (h : SameBuffers s t) (N eng : Nat) :
    engineReleases t N eng = engineReleases s N eng := by
  obtain ⟨_, h2, h3⟩ := h
  unfold Gzip.engineReleases
  rw [h2]
  congr 1
  exact List.flatMap_congr (fun i _ => slotReleases_congr (h3 eng i) eng i)

theorem SameBuffers.same_allocationOrder {s t : State} (h : SameBuffers s t) (E N : Nat) :
    allocationOrder t E N = allocationOrder s E N := by
  unfold Gzip.allocationOrder
  rw [h.1]
  congr 1
  exact List.flatMap_congr (fun eng _ => h.same_engineAllocations N eng)

theorem SameBuffers.same_releaseOrder {s t : State} (h : SameBuffers s t) (E N : Nat) :
    releaseOrder t E N = releaseOrder s E N := by
  unfold Gzip.releaseOrder
  rw [h.1]
  congr 1
  exact List.flatMap_congr (fun eng _ => h.same_engineReleases N eng)

/-! ### The ledger of the setup loop -/

/-- The projection of the trace of a loop that falls through, when what pass
`j` adds is read from the state it leaves and later passes keep it. -/
theorem forLoop_proj_dep {β : Type} (f : Event → Option β) (body : Nat → State → Flow State)
    (I : State → Prop) (G : State → Nat → List β) (n i : Nat) (s s' : State) (hI : I s)
    (hb : ∀ j t t', i ≤ j → j < i + n → I t → body j t = .next t' →
      I t' ∧ t'.trace.filterMap f = t.trace.filterMap f ++ G t' j ∧
        ∀ k, i ≤ k → k < j → G t' k = G t k)
    (h : forLoop body n i s = .next s') :
    I s' ∧ s'.trace.filterMap f = s.trace.filterMap f ++ (List.range' i n).flatMap (G s') := by
  have key := forLoop_next body
    (fun k t => I t ∧
      t.trace.filterMap f = s.trace.filterMap f ++ (List.range' i (k - i)).flatMap (G t))
    n i s s'
    (fun j t t' h1 h2 hP ht => by
      show I t' ∧
        t'.trace.filterMap f = s.trace.filterMap f ++ (List.range' i (j + 1 - i)).flatMap (G t')
      have hP' : I t ∧ t.trace.filterMap f =
        s.trace.filterMap f ++ (List.range' i (j - i)).flatMap (G t) := hP
      obtain ⟨hI', hp, hk⟩ := hb j t t' h1 h2 hP'.1 ht
      refine ⟨hI', ?_⟩
      rw [hp, hP'.2]
      have e1 : j + 1 - i = (j - i) + 1 := by omega
      rw [e1, List.range'_concat, List.flatMap_append, List.append_assoc]
      have e2 : i + (j - i) = j := by omega
      have e3 : (List.range' i (j - i)).flatMap (G t') = (List.range' i (j - i)).flatMap (G t) :=
        List.flatMap_congr (fun k hk' => by
          rw [List.mem_range'_1] at hk'
          exact hk k hk'.1 (by omega))
      rw [e3]
      simp [e2])
    ⟨hI, by simp⟩ h
  simpa using key

theorem setupSlotRest_pinbuf (c : Consts) (env : Env) (eng i p : Nat) (s : State) :
    (setupSlotRest c env eng i p s).pinbuf = s.pinbuf := by
  unfold setupSlotRest
  by_cases h : 3 ≤ i
  · simp only [h, if_true, State.setSlot, State.malloc]
    split <;> rfl
  · simp only [h, if_false, State.setSlot, State.malloc, Bool.false_eq_true, if_false]
    split <;> rfl

/-- What one pass of the inner setup loop adds to the ledgers when it falls
through: the allocations of the slot, with the addresses the slot now holds,
and no release. -/
theorem setupSlot_ledger (c : Consts) (env : Env) (eng i : Nat) (s s' : State)
    (h : setupSlot c env eng i s = .next s') :
    s'.trace.filterMap Event.allocation? =
      s.trace.filterMap Event.allocation? ++ slotAllocations (s'.kinfo eng i) eng i ∧
    s'.trace.filterMap Event.release? = s.trace.filterMap Event.release? ∧
    s'.kinfoPtr = s.kinfoPtr ∧ s'.pinbuf = s.pinbuf := by
  unfold setupSlot at h
  by_cases h3 : 3 ≤ i
  · rw [if_pos h3] at h
    simp only [Flow.next.injEq] at h
    subst h
    have h3' : ¬ i < 3 := by omega
    refine ⟨?_, ?_, setupSlotRest_kinfoPtr c env eng i _ s, setupSlotRest_pinbuf c env eng i _ s⟩
    · unfold setupSlotRest
      simp [h3, h3', State.setSlot, malloc_trace, slotAllocations, Event.allocation?,
        List.filterMap_append]
    · unfold setupSlotRest
      simp [h3, State.setSlot, malloc_trace, Event.release?, List.filterMap_append]
  · rw [if_neg h3] at h
    simp only at h
    split at h
    · cases h
    · simp only [Flow.next.injEq] at h
      subst h
      have h3' : i < 3 := by omega
      refine ⟨?_, ?_, ?_, ?_⟩
      · unfold setupSlotRest
        simp [h3, h3', State.setSlot, malloc_trace, slotAllocations, Event.allocation?,
          List.filterMap_append]
      · unfold setupSlotRest
        simp [h3, State.setSlot, malloc_trace, Event.release?, List.filterMap_append]
      · rw [setupSlotRest_kinfoPtr, malloc_kinfoPtr]
      · rw [setupSlotRest_pinbuf]
        unfold State.malloc
        split <;> rfl

/-- What one pass of the outer setup loop adds to the ledgers when it falls
through: the allocations of the engine, with the addresses the state now
holds, and no release; the pointers of the other engines are kept. -/
theorem setupEngine_ledger (c : Consts) (env : Env) (a : Args) (eng : Nat) (s s' : State)
    (h : setupEngine c env a eng s = .next s') :
    s'.trace.filterMap Event.allocation? =
      s.trace.filterMap Event.allocation? ++ engineAllocations s' a.iterations eng ∧
    s'.trace.filterMap Event.release? = s.trace.filterMap Event.release? ∧
    s'.pinbuf = s.pinbuf ∧
    ∀ e, e ≠ eng → s'.kinfoPtr e = s.kinfoPtr e ∧ ∀ j, s'.kinfo e j = s.kinfo e j := by
  obtain ⟨_, hother, _, _⟩ := setupEngine_next_spec c env a eng s s' h
  unfold setupEngine at h
  simp only at h
  split at h
  · cases h
  · have key := forLoop_proj_dep Event.allocation? (setupSlot c env eng)
      (fun t => t.trace.filterMap Event.release? = s.trace.filterMap Event.release? ∧
        t.pinbuf = s.pinbuf ∧
        t.kinfoPtr = fun e => if e = eng
          then (s.malloc (env.kinfoAllocFails eng) .kinfoArray eng 0
            (wrapSizeT (c.sizeofKernelInfo * a.iterations))).1
          else s.kinfoPtr e)
      (fun t i => slotAllocations (t.kinfo eng i) eng i) a.iterations 0 _ s'
      ⟨by simp [malloc_trace, Event.release?, List.filterMap_append],
        by unfold State.malloc; split <;> rfl,
        by simp [malloc_kinfoPtr]⟩
      (fun j t t' _ _ hI ht => by
        obtain ⟨l1, l2, l3, l4⟩ := setupSlot_ledger c env eng j t t' ht
        obtain ⟨hk, _⟩ := setupSlot_next_spec c env eng j t t' ht
        refine ⟨⟨l2.trans hI.1, l4.trans hI.2.1, l3.trans hI.2.2⟩, l1, ?_⟩
        intro k _ hkj
        show slotAllocations (t'.kinfo eng k) eng k = slotAllocations (t.kinfo eng k) eng k
        rw [hk eng k (by omega)])
      h
    obtain ⟨⟨k1, k2, k3⟩, k4⟩ := key
    refine ⟨?_, k1, k2, ?_⟩
    · rw [k4]
      simp only [malloc_trace, List.filterMap_append, List.filterMap_cons, List.filterMap_nil,
        Event.allocation?, List.append_assoc]
      congr 1
      simp only [engineAllocations, k3, if_true, List.range_eq_range', List.singleton_append]
    · intro e he
      refine ⟨?_, hother e he⟩
      rw [k3]
      simp [he]

/-- What the setup loop adds to the ledgers when it falls through: the
allocations of every engine, with the addresses the state now holds, and no
release. -/
theorem setup_ledger (c : Consts) (env : Env) (a : Args) (s s' : State)
    (h : setup c env a s = .next s') :
    s'.trace.filterMap Event.allocation? =
      s.trace.filterMap Event.allocation? ++
        (List.range c.kNumEngines).flatMap (engineAllocations s' a.iterations) ∧
    s'.trace.filterMap Event.release? = s.trace.filterMap Event.release? ∧
    s'.pinbuf = s.pinbuf := by
  unfold setup at h
  have key := forLoop_proj_dep Event.allocation? (setupEngine c env a)
    (fun t => t.trace.filterMap Event.release? = s.trace.filterMap Event.release? ∧
      t.pinbuf = s.pinbuf)
    (fun t eng => engineAllocations t a.iterations eng) c.kNumEngines 0 s s' ⟨rfl, rfl⟩
    (fun j t t' _ _ hI ht => by
      obtain ⟨l1, l2, l3, l4⟩ := setupEngine_ledger c env a j t t' ht
      refine ⟨⟨l2.trans hI.1, l3.trans hI.2⟩, l1, ?_⟩
      intro k _ hkj
      show engineAllocations t' a.iterations k = engineAllocations t a.iterations k
      obtain ⟨p1, p2⟩ := l4 k (by omega)
      unfold engineAllocations
      rw [p1]
      congr 1
      exact List.flatMap_congr (fun i _ => by rw [p2 i]))
    h
  rw [List.range_eq_range']
  exact ⟨key.2, key.1.1, key.1.2⟩

/-! ### The ledger of the cleanup loops -/

theorem cleanupSlot_ledger (eng i : Nat) (s s' : State) (h : cleanupSlot eng i s = .next s') :
    s'.trace.filterMap Event.release? =
      s.trace.filterMap Event.release? ++ slotReleases (s.kinfo eng i) eng i ∧
    s'.kinfo = s.kinfo ∧ s'.kinfoPtr = s.kinfoPtr := by
  unfold cleanupSlot at h
  simp only [Flow.next.injEq] at h
  subst h
  by_cases h3 : i < 3
  · simp [h3, State.emit, slotReleases, Event.release?, List.filterMap_append]
  · simp [h3, State.emit, slotReleases, Event.release?, List.filterMap_append]

/-- What the cleanup loops add to the ledger of releases: the releases of
every engine, with the addresses the state holds. -/
theorem cleanupAll_ledger (c : Consts) (a : Args) (s s' : State)
    (h : cleanupAll c a s = .next s') :
    s'.trace.filterMap Event.release? =
      s.trace.filterMap Event.release? ++
        (List.range c.kNumEngines).flatMap (engineReleases s a.iterations) := by
  unfold cleanupAll at h
  have key := forLoop_proj_inv Event.release?
    (fun eng s0 => (forLoop (cleanupSlot eng) a.iterations 0 s0).bind
      (fun s1 => .next (s1.emit (.free .kinfoArray eng 0 (s1.kinfoPtr eng)))))
    (fun t => t.kinfo = s.kinfo ∧ t.kinfoPtr = s.kinfoPtr)
    (fun eng => engineReleases s a.iterations eng) c.kNumEngines 0 s s' ⟨rfl, rfl⟩
    (fun eng t t' _ _ hI ht => by
      cases hin : forLoop (cleanupSlot eng) a.iterations 0 t with
      | next u =>
        have hu := forLoop_proj_inv Event.release? (cleanupSlot eng)
          (fun v => v.kinfo = s.kinfo ∧ v.kinfoPtr = s.kinfoPtr)
          (fun i => slotReleases (s.kinfo eng i) eng i) a.iterations 0 t u hI
          (fun i v v' _ _ hv hvv => by
            obtain ⟨l1, l2, l3⟩ := cleanupSlot_ledger eng i v v' hvv
            refine ⟨⟨l2.trans hv.1, l3.trans hv.2⟩, ?_⟩
            rw [l1, hv.1])
          hin
        have ht' : t' = u.emit (.free .kinfoArray eng 0 (u.kinfoPtr eng)) := by
          have : (forLoop (cleanupSlot eng) a.iterations 0 t).bind
            (fun s1 => .next (s1.emit (.free .kinfoArray eng 0 (s1.kinfoPtr eng)))) =
              .next t' := ht
          rw [hin, Flow.bind_next] at this
          simp only [Flow.next.injEq] at this
          exact this.symm
        subst ht'
        refine ⟨hu.1, ?_⟩
        simp only [State.emit, List.filterMap_append, hu.2, List.filterMap_cons,
          List.filterMap_nil, Event.release?, engineReleases, List.range_eq_range',
          List.append_assoc, hu.1.2]
      | ret code u =>
        have : (forLoop (cleanupSlot eng) a.iterations 0 t).bind
          (fun s1 => .next (s1.emit (.free .kinfoArray eng 0 (s1.kinfoPtr eng)))) =
            .next t' := ht
        rw [hin] at this
        cases this
      | undef u =>
        have : (forLoop (cleanupSlot eng) a.iterations 0 t).bind
          (fun s1 => .next (s1.emit (.free .kinfoArray eng 0 (s1.kinfoPtr eng)))) =
            .next t' := ht
        rw [hin] at this
        cases this)
    h
  rw [List.range_eq_range']
  exact key.2

/-! ### Releases against allocations -/

theorem slotReleases_perm (k : KernelInfo) (eng i : Nat) :
    (slotReleases k eng i).Perm (slotAllocations k eng i) := by
  unfold slotReleases slotAllocations
  refine List.Perm.append ?_ (List.Perm.refl _)
  by_cases h : i < 3
  · rw [if_pos h, if_pos h]
    exact @List.perm_append_comm _
      [(Buf.gzip_out_buf, eng, i, k.gzip_out_buf), (Buf.current_crc, eng, i, k.current_crc),
        (Buf.pibuf, eng, i, k.pibuf), (Buf.pobuf, eng, i, k.pobuf)]
      [(Buf.poutput_buffer, eng, i, k.poutput_buffer)]
  · rw [if_neg h, if_neg h]

theorem engineReleases_perm (s : State) (N eng : Nat) :
    (engineReleases s N eng).Perm (engineAllocations s N eng) := by
  unfold engineReleases engineAllocations
  refine List.Perm.trans List.perm_append_comm ?_
  exact List.Perm.cons _
    (List.Perm.flatMap_left _ (fun i _ => slotReleases_perm (s.kinfo eng i) eng i))

/-- The releases of a run that reaches the end are the allocations, in
another order. -/
theorem releaseOrder_perm (s : State) (E N : Nat) :
    (releaseOrder s E N).Perm (allocationOrder s E N) := by
  unfold releaseOrder allocationOrder
  exact List.Perm.cons _ (List.Perm.flatMap_left _ (fun eng _ => engineReleases_perm s N eng))

theorem mem_slotAllocations {k : KernelInfo} {eng i : Nat} {x : Buf × Nat × Nat × Nat}
    (h : x ∈ slotAllocations k eng i) :
    x.2.1 = eng ∧ x.2.2.1 = i ∧ x.1 ≠ .kinfoArray ∧ x.1 ≠ .inputImage ∧
      (x.1.pooled = true → i < 3) := by
  unfold slotAllocations at h
  by_cases h3 : i < 3
  · simp only [h3, if_true, List.cons_append, List.nil_append, List.mem_cons,
      List.mem_singleton, List.not_mem_nil, or_false] at h
    rcases h with h | h | h | h | h | h <;> subst h <;> simp [h3]
  · simp only [h3, if_false, List.nil_append, List.mem_singleton] at h
    subst h
    simp [Buf.pooled]

theorem slotAllocations_keys (k : KernelInfo) (eng i : Nat) :
    ((slotAllocations k eng i).map slotKey).Nodup := by
  unfold slotAllocations
  by_cases h3 : i < 3
  · simp [h3, slotKey]
  · simp [h3, slotKey]

theorem mem_engineAllocations {s : State} {N eng : Nat} {x : Buf × Nat × Nat × Nat}
    (h : x ∈ engineAllocations s N eng) :
    x.2.1 = eng ∧ x.1 ≠ .inputImage ∧ (x.1.pooled = true → x.2.2.1 < 3) := by
  unfold engineAllocations at h
  rcases List.mem_cons.1 h with h | h
  · subst h
    simp [Buf.pooled]
  · obtain ⟨i, _, hx⟩ := List.mem_flatMap.1 h
    obtain ⟨h1, h2, _, h4, h5⟩ := mem_slotAllocations hx
    exact ⟨h1, h4, fun hp => by rw [h2]; exact h5 hp⟩

theorem engineAllocations_keys (s : State) (N eng : Nat) :
    ((engineAllocations s N eng).map slotKey).Nodup := by
  unfold engineAllocations
  rw [List.map_cons, List.nodup_cons, List.map_flatMap]
  constructor
  · intro h
    obtain ⟨i, _, hy⟩ := List.mem_flatMap.1 h
    obtain ⟨x, hx, e⟩ := List.mem_map.1 hy
    have := (mem_slotAllocations hx).2.2.1
    simp only [slotKey, Prod.mk.injEq] at e
    exact this e.1
  · rw [List.nodup_flatMap]
    refine ⟨fun i _ => slotAllocations_keys _ eng i, ?_⟩
    refine List.Nodup.pairwise_of_forall_ne (List.nodup_range N) ?_
    intro i _ j _ hij y hy1 hy2
    obtain ⟨x1, hx1, e1⟩ := List.mem_map.1 hy1
    obtain ⟨x2, hx2, e2⟩ := List.mem_map.1 hy2
    have p1 := (mem_slotAllocations hx1).2.1
    have p2 := (mem_slotAllocations hx2).2.1
    rw [← e2] at e1
    simp only [slotKey, Prod.mk.injEq] at e1
    omega

/-- No field of a slot, no `KernelInfo` array and no input image is allocated
twice. -/
theorem allocationOrder_keys (s : State) (E N : Nat) :
    ((allocationOrder s E N).map slotKey).Nodup := by
  unfold allocationOrder
  rw [List.map_cons, List.nodup_cons, List.map_flatMap]
  constructor
  · intro h
    obtain ⟨eng, _, hy⟩ := List.mem_flatMap.1 h
    obtain ⟨x, hx, e⟩ := List.mem_map.1 hy
    have := (mem_engineAllocations hx).2.1
    simp only [slotKey, Prod.mk.injEq] at e
    exact this e.1
  · rw [List.nodup_flatMap]
    refine ⟨fun eng _ => engineAllocations_keys s N eng, ?_⟩
    refine List.Nodup.pairwise_of_forall_ne (List.nodup_range E) ?_
    intro i _ j _ hij y hy1 hy2
    obtain ⟨x1, hx1, e1⟩ := List.mem_map.1 hy1
    obtain ⟨x2, hx2, e2⟩ := List.mem_map.1 hy2
    have p1 := (mem_engineAllocations hx1).1
    have p2 := (mem_engineAllocations hx2).1
    rw [← e2] at e1
    simp only [slotKey, Prod.mk.injEq] at e1
    omega

theorem allocationOrder_pooled (s : State) (E N : Nat) (x : Buf × Nat × Nat × Nat)
    (h : x ∈ allocationOrder s E N) (hp : x.1.pooled = true) : x.2.2.1 < 3 := by
  unfold allocationOrder at h
  rcases List.mem_cons.1 h with h | h
  · subst h
    simp [Buf.pooled] at hp
  · obtain ⟨eng, _, hx⟩ := List.mem_flatMap.1 h
    exact (mem_engineAllocations hx).2.2 hp

theorem allocatedIn_eq (t : List Event) :
    allocatedIn t =
      ((t.filterMap Event.allocation?).map addrOf).filter (fun p => decide (p ≠ 0)) := by
  induction t with
  | nil => rfl
  | cons e t ih =>
    unfold allocatedIn at ih ⊢
    cases e with
    | alloc what eng i size addr =>
      by_cases h : addr = 0
      · simp [List.filterMap_cons, Event.allocation?, addrOf, h, ih]
      · simp [List.filterMap_cons, Event.allocation?, addrOf, h, ih]
    | _ => simpa [List.filterMap_cons, Event.allocation?] using ih

theorem releasedIn_eq (t : List Event) :
    releasedIn t = (t.filterMap Event.release?).map addrOf := by
  induction t with
  | nil => rfl
  | cons e t ih =>
    unfold releasedIn at ih ⊢
    cases e with
    | free what eng i addr => simp [List.filterMap_cons, Event.release?, addrOf, ih]
    | _ => simpa [List.filterMap_cons, Event.release?] using ih

/-- When the releases are the allocations in another order, every address but
`NULL` is released as often as it is allocated. -/
theorem released_count (t : List Event)
    (h : (t.filterMap Event.release?).Perm (t.filterMap Event.allocation?)) (p : Nat)
    (hp : p ≠ 0) : (releasedIn t).count p = (allocatedIn t).count p := by
  rw [releasedIn_eq, allocatedIn_eq, List.count_filter (by simpa using hp)]
  exact (h.map addrOf).count_eq p

/-! ### The allocator hands out every address once -/

theorem allocatedIn_append (t u : List Event) :
    allocatedIn (t ++ u) = allocatedIn t ++ allocatedIn u := by
  unfold allocatedIn
  rw [List.filterMap_append]

theorem Fresh.fresh_of_eq {s t : State} (h : Fresh s) (ht : t.trace = s.trace) (hn : t.next = s.next) :
    Fresh t := by
  unfold Fresh at h ⊢
  rw [ht, hn]
  exact h

theorem Fresh.fresh_emit {s : State} (h : Fresh s) (e : Event) (he : e.kind ≠ .alloc) :
    Fresh (s.emit e) := by
  have e0 : allocatedIn [e] = [] := by
    cases e <;> simp_all [allocatedIn, Event.kind]
  unfold Fresh at h ⊢
  simp only [State.emit, allocatedIn_append, e0, List.append_nil]
  exact h

theorem Fresh.fresh_malloc {s : State} (h : Fresh s) (fails : Bool) (what : Buf) (eng i size : Nat) :
    Fresh (s.malloc fails what eng i size).2 := by
  unfold Fresh at h ⊢
  obtain ⟨h1, h2⟩ := h
  unfold State.malloc
  cases fails with
  | true =>
    simp only [if_true, State.emit, allocatedIn_append]
    have e0 : allocatedIn [Event.alloc what eng i size 0] = [] := by simp [allocatedIn]
    rw [e0, List.append_nil]
    exact ⟨h1, h2⟩
  | false =>
    simp only [Bool.false_eq_true, if_false, allocatedIn_append]
    by_cases hz : s.next = 0
    · have e0 : allocatedIn [Event.alloc what eng i size s.next] = [] := by
        simp [allocatedIn, hz]
      rw [e0, List.append_nil]
      exact ⟨h1, fun p hp => by have := h2 p hp; omega⟩
    · have e0 : allocatedIn [Event.alloc what eng i size s.next] = [s.next] := by
        simp [allocatedIn, hz]
      rw [e0]
      refine ⟨List.pairwise_append.2 ⟨h1, by simp, ?_⟩, ?_⟩
      · intro p hp q hq
        rw [List.mem_singleton] at hq
        rw [hq]
        exact h2 p hp
      · intro p hp
        rcases List.mem_append.1 hp with hp | hp
        · have := h2 p hp; omega
        · rw [List.mem_singleton] at hp
          omega

theorem Fresh.fresh_init : Fresh State.init := by
  unfold Fresh
  simp [State.init, allocatedIn]

theorem readInput_keepsFresh (c : Consts) (env : Env) (s : State) (h : Fresh s) :
    Fresh (readInput c env s).state := by
  have h0 : Fresh (if env.isS10 && !env.prepin then s.emit (.print .warnNoPrepin) else s) := by
    split
    · exact h.fresh_emit _ (by simp [Event.kind])
    · exact h
  unfold readInput
  by_cases ho : env.fileOpen = true
  · simp only [ho, if_true, Flow.state]
    exact (h0.fresh_malloc false .inputImage 0 0 _).fresh_of_eq rfl rfl
  · simp only [ho, Flow.state]
    exact h0.fresh_emit _ (by simp [Event.kind])

theorem setupSlotRest_keepsFresh (c : Consts) (env : Env) (eng i p : Nat) (s : State)
    (h : Fresh s) : Fresh (setupSlotRest c env eng i p s) := by
  unfold setupSlotRest
  by_cases h3 : 3 ≤ i
  · simp only [h3, if_true]
    exact (h.fresh_malloc _ _ _ _ _).fresh_of_eq rfl rfl
  · simp only [h3, if_false]
    exact (((((h.fresh_malloc _ _ _ _ _).fresh_malloc _ _ _ _ _).fresh_malloc _ _ _ _ _).fresh_malloc _ _ _ _ _).fresh_malloc
      _ _ _ _ _).fresh_of_eq rfl rfl

theorem setupSlot_keepsFresh (c : Consts) (env : Env) (eng i : Nat) (s : State) (h : Fresh s) :
    Fresh (setupSlot c env eng i s).state := by
  unfold setupSlot
  by_cases h3 : 3 ≤ i
  · rw [if_pos h3]
    exact setupSlotRest_keepsFresh c env eng i _ s h
  · rw [if_neg h3]
    simp only
    split
    · exact ((h.fresh_malloc _ _ _ _ _).fresh_emit _ (by simp [Event.kind])).fresh_emit _ (by simp [Event.kind])
    · exact setupSlotRest_keepsFresh c env eng i _ _ (h.fresh_malloc _ _ _ _ _)

theorem setupEngine_keepsFresh (c : Consts) (env : Env) (a : Args) (eng : Nat) (s : State)
    (h : Fresh s) : Fresh (setupEngine c env a eng s).state := by
  unfold setupEngine
  simp only
  have h1 : Fresh { (s.malloc (env.kinfoAllocFails eng) .kinfoArray eng 0
      (wrapSizeT (c.sizeofKernelInfo * a.iterations))).2 with
      kinfoPtr := fun e => if e = eng
        then (s.malloc (env.kinfoAllocFails eng) .kinfoArray eng 0
          (wrapSizeT (c.sizeofKernelInfo * a.iterations))).1
        else (s.malloc (env.kinfoAllocFails eng) .kinfoArray eng 0
          (wrapSizeT (c.sizeofKernelInfo * a.iterations))).2.kinfoPtr e } :=
    (h.fresh_malloc _ _ _ _ _).fresh_of_eq rfl rfl
  split
  · exact h1.fresh_emit _ (by simp [Event.kind])
  · exact forLoop_state _ Fresh (fun j t ht => setupSlot_keepsFresh c env eng j t ht) _ _ _ h1

theorem setup_keepsFresh (c : Consts) (env : Env) (a : Args) (s : State) (h : Fresh s) :
    Fresh (setup c env a s).state :=
  forLoop_state _ Fresh (fun j t ht => setupEngine_keepsFresh c env a j t ht) _ _ _ h

theorem Fresh.fresh_nodup {s : State} (h : Fresh s) : (allocatedIn s.trace).Nodup :=
  h.1.imp (fun hlt => Nat.ne_of_lt hlt)

/-! ### The ledgers of a run that returns 0 -/

theorem readInput_ledger (c : Consts) (env : Env) (s s' : State)
    (h : readInput c env s = .next s') :
    s'.trace.filterMap Event.allocation? =
      s.trace.filterMap Event.allocation? ++ [(Buf.inputImage, 0, 0, s'.pinbuf)] ∧
    s'.trace.filterMap Event.release? = s.trace.filterMap Event.release? ∧
    s'.next = s.next + 1 := by
  unfold readInput at h
  by_cases ho : env.fileOpen = true
  · simp only [ho, if_true, Flow.next.injEq] at h
    subst h
    by_cases hw : (env.isS10 && !env.prepin) = true
    · simp [hw, State.malloc, State.emit, Event.allocation?, Event.release?,
        List.filterMap_append]
    · simp [hw, State.malloc, State.emit, Event.allocation?, Event.release?,
        List.filterMap_append]
  · simp only [ho] at h
    cases h

theorem submitAll_extends (c : Consts) (a : Args) (s : State) :
    Extends (kindIn [.submit, .note]) s (submitAll c a s).state := by
  rw [submitAll_eq]
  refine ⟨_, rfl, ?_⟩
  intro e he
  simp only [submitTrace, List.mem_flatMap, List.mem_cons, List.mem_singleton,
    List.not_mem_nil, or_false] at he
  obtain ⟨_, _, _, _, h | h | h | h | h | h⟩ := he <;> subst h <;> simp [kindIn, Event.kind]

theorem waitAll_extends (c : Consts) (env : Env) (a : Args) (s : State) :
    Extends (kindIn [.wait]) s (waitAll c env a s).state :=
  forLoop_extends _ _ (fun eng _ => forLoop_extends _ _ (waitSlot_extends env eng) _ _ _) _ _ _

theorem reportStage_extends (c : Consts) (a : Args) (s : State) :
    Extends (kindIn [.note]) s (reportStage c a s).state := by
  obtain ⟨s', e, x, _⟩ := reportStage_spec c a s
  rw [e]
  exact x

theorem pointers_of_owned {k k' : KernelInfo} (h : k'.owned = k.owned) :
    k'.pointers = k.pointers := by
  simp only [KernelInfo.owned, Prod.mk.injEq] at h
  obtain ⟨h1, h2, h3, h4, h5, _⟩ := h
  simp only [KernelInfo.pointers, h1, h2, h3, h4, h5]

/-- A run that returns 0 has made the allocations of `allocationOrder` and the
releases of `releaseOrder`, with the addresses its last state holds; the
allocator has handed out every address once, and the pooled buffers of the
slots 0, 1, 2 are not `NULL`. -/
theorem success_ledger (c : Consts) (env : Env) (a : Args)
    (h : (CompressFile c env a).code = some 0) :
    (CompressFile c env a).state.trace.filterMap Event.allocation? =
      allocationOrder (CompressFile c env a).state c.kNumEngines a.iterations ∧
    (CompressFile c env a).state.trace.filterMap Event.release? =
      releaseOrder (CompressFile c env a).state c.kNumEngines a.iterations ∧
    (allocatedIn (CompressFile c env a).state.trace).Nodup ∧
    ∀ eng i, eng < c.kNumEngines → i < a.iterations → i < 3 →
      ∀ p ∈ ((CompressFile c env a).state.kinfo eng i).pointers, p ≠ 0 := by
  obtain ⟨s0, s1, s3, s4, s6, s7, s9, s10, e0, e1, e3, e4, e6, e7, e9, e10, ef⟩ :=
    success_path c env a h
  rw [ef]
  -- the input image and the setup loop
  obtain ⟨a0, f0, n0⟩ := readInput_ledger c env State.init s0 e0
  obtain ⟨a1, f1, p1⟩ := setup_ledger c env a s0 s1 e1
  have A1 : s1.trace.filterMap Event.allocation? =
      allocationOrder s1 c.kNumEngines a.iterations := by
    rw [a1, a0, allocationOrder, p1]
    rfl
  have F1 : s1.trace.filterMap Event.release? = [] := by
    rw [f1, f0]
    rfl
  have fresh1 : Fresh s1 := by
    have h0 := readInput_keepsFresh c env State.init Fresh.fresh_init
    rw [e0] at h0
    have h1 := setup_keepsFresh c env a s0 h0
    rw [e1] at h1
    exact h1
  -- the main loop, the wait barrier, the validation loops
  have x2 : Extends (kindIn [.submit, .note]) s1
      { s1 with trace := s1.trace ++ submitTrace c.kNumEngines a.iterations } := by
    have := submitAll_extends c a s1
    rw [submitAll_eq] at this
    exact this
  have b2 : SameBuffers s1
      { s1 with trace := s1.trace ++ submitTrace c.kNumEngines a.iterations } :=
    ⟨rfl, rfl, fun _ _ => rfl⟩
  have x3 : Extends (kindIn [.wait])
      { s1 with trace := s1.trace ++ submitTrace c.kNumEngines a.iterations } s3 := by
    have := waitAll_extends c env a
      { s1 with trace := s1.trace ++ submitTrace c.kNumEngines a.iterations }
    rw [e3] at this
    exact this
  have b3 : SameBuffers
      { s1 with trace := s1.trace ++ submitTrace c.kNumEngines a.iterations } s3 := by
    have := waitAll_same c env a
      { s1 with trace := s1.trace ++ submitTrace c.kNumEngines a.iterations }
    rw [e3] at this
    exact this
  have x4 : Extends (kindIn [.note]) s3 s4 := by
    have := validateAll_extends c env a s3
    rw [e4] at this
    exact this
  have b4 : SameBuffers s3 s4 := by
    have := validateAll_same c env a s3
    rw [e4] at this
    exact this
  have B4 : SameBuffers s1 s4 := (b2.same_trans b3).same_trans b4
  have y2 : Extends (kindIn [.submit, .note, .wait]) s1
      { s1 with trace := s1.trace ++ submitTrace c.kNumEngines a.iterations } :=
    x2.kinds_mono (by decide)
  have l4 := ((y2.trans (x3.kinds_mono (by decide))).trans
    (x4.kinds_mono (by decide))).ledger (by decide) (by decide)
  -- the release of the input image
  have l5 : (s4.emit (.free .inputImage 0 0 s4.pinbuf)).trace.filterMap Event.allocation? =
        s4.trace.filterMap Event.allocation? ∧
      (s4.emit (.free .inputImage 0 0 s4.pinbuf)).trace.filterMap Event.release? =
        s4.trace.filterMap Event.release? ++ [(Buf.inputImage, 0, 0, s4.pinbuf)] := by
    simp [State.emit, List.filterMap_append, Event.allocation?, Event.release?]
  have b5 : SameBuffers s4 (s4.emit (.free .inputImage 0 0 s4.pinbuf)) :=
    ⟨rfl, rfl, fun _ _ => rfl⟩
  -- the write loop, the comparison, the timing loop, the report
  have x6 : Extends (kindIn [.write, .note]) (s4.emit (.free .inputImage 0 0 s4.pinbuf)) s6 := by
    have := writeAll_extends c env a (s4.emit (.free .inputImage 0 0 s4.pinbuf))
    rw [e6] at this
    exact this
  have b6 : SameBuffers (s4.emit (.free .inputImage 0 0 s4.pinbuf)) s6 := by
    have := writeAll_same c env a (s4.emit (.free .inputImage 0 0 s4.pinbuf))
    rw [e6] at this
    exact this
  have x7 : Extends (kindIn [.compare, .note]) s6 s7 := by
    have := compareStage_extends env a s6
    rw [e7] at this
    exact this
  have b7 : SameBuffers s6 s7 := by
    have := compareStage_same env a s6
    rw [e7] at this
    exact this
  have x8 : Extends (kindIn [.wait]) s7
      { s7 with trace := s7.trace ++ timeTrace c.kNumEngines a.iterations } := by
    have := timeAll_extends c a s7
    rw [timeAll_eq] at this
    exact this
  have b8 : SameBuffers s7
      { s7 with trace := s7.trace ++ timeTrace c.kNumEngines a.iterations } :=
    ⟨rfl, rfl, fun _ _ => rfl⟩
  have x9 : Extends (kindIn [.note])
      { s7 with trace := s7.trace ++ timeTrace c.kNumEngines a.iterations } s9 := by
    have := reportStage_extends c a
      { s7 with trace := s7.trace ++ timeTrace c.kNumEngines a.iterations }
    rw [e9] at this
    exact this
  have b9 : SameBuffers
      { s7 with trace := s7.trace ++ timeTrace c.kNumEngines a.iterations } s9 := by
    have := reportStage_same c a
      { s7 with trace := s7.trace ++ timeTrace c.kNumEngines a.iterations }
    rw [e9] at this
    exact this
  have B9 : SameBuffers (s4.emit (.free .inputImage 0 0 s4.pinbuf)) s9 :=
    ((b6.same_trans b7).same_trans b8).same_trans b9
  have y6 : Extends (kindIn [.write, .note, .compare, .wait])
      (s4.emit (.free .inputImage 0 0 s4.pinbuf)) s6 :=
    x6.kinds_mono (by decide)
  have l9 := (((y6.trans (x7.kinds_mono (by decide))).trans
    (x8.kinds_mono (by decide))).trans (x9.kinds_mono (by decide))).ledger
      (by decide) (by decide)
  -- the cleanup loops and the last line
  have f10 := cleanupAll_ledger c a s9 s10 e10
  have a10 : s10.trace.filterMap Event.allocation? = s9.trace.filterMap Event.allocation? := by
    obtain ⟨s', e, x⟩ := cleanupAll_spec c a s9
    rw [e10] at e
    simp only [Flow.next.injEq] at e
    subst e
    exact x.filterMap_eq _
      (fun e he => Event.allocation?_of_kind e (kind_ne_of_mem (by decide) he))
  have b10 : SameBuffers s9 s10 := by
    have := cleanupAll_same c a s9
    rw [e10] at this
    exact this
  have xF : Extends (kindIn [.passed]) s10 (if a.report then s10.emit (.print .passed) else s10) := by
    split
    · exact Extends.emit s10 _ (by simp [kindIn, Event.kind])
    · exact Extends.refl _ s10
  have bF : SameBuffers s10 (if a.report then s10.emit (.print .passed) else s10) := by
    split
    · exact ⟨rfl, rfl, fun _ _ => rfl⟩
    · exact SameBuffers.same_refl s10
  have lF := xF.ledger (by decide) (by decide)
  have B1F : SameBuffers s1 (if a.report then s10.emit (.print .passed) else s10) :=
    (((B4.same_trans b5).same_trans B9).same_trans b10).same_trans bF
  have B9F : SameBuffers s9 (if a.report then s10.emit (.print .passed) else s10) :=
    b10.same_trans bF
  have AF : (if a.report then s10.emit (.print .passed) else s10).trace.filterMap
      Event.allocation? = s1.trace.filterMap Event.allocation? := by
    rw [lF.1, a10, l9.1, l5.1, l4.1]
  refine ⟨?_, ?_, ?_, ?_⟩
  · rw [AF, A1, B1F.same_allocationOrder]
  · rw [lF.2, f10, l9.2, l5.2, l4.2, F1, B9F.same_releaseOrder, releaseOrder, (b5.same_trans B9).1]
    rfl
  · rw [allocatedIn_eq, AF, ← allocatedIn_eq]
    exact fresh1.fresh_nodup
  · intro eng i he hi h3 p hp
    rw [pointers_of_owned (B1F.2.2 eng i)] at hp
    obtain ⟨hs, _⟩ := setup_next_spec c env a s0 s1 e1
    obtain ⟨_, lo, hlo, hok⟩ := hs eng he
    have := (hok.fresh i hi h3 p hp).1
    have n1 : State.init.next = 1 := rfl
    omega

/-- C11. No double release and no leak on the success path: in a run of
`CompressFile` that returns 0, whatever the iteration count and the number of
engines, the releases are those of `releaseOrder` and the allocations those of
`allocationOrder`: the input image once, and for every engine its `KernelInfo`
array once, the five pooled buffers of each slot below `min(N, 3)` once and
the `pobuf_decompress` of every slot once.  The releases are the allocations
in another order, no field of a slot is released twice, no pooled buffer is
released through a slot `i >= 3`, the allocated addresses are distinct, each
is released exactly once (so each pooled buffer of the slots below
`min(N, 3)` is), every address released other than `NULL` was allocated, and
nothing allocated is left. -/
theorem C11_released_once (c : Consts) (env : Env) (a : Args)
    (h : (CompressFile c env a).code = some 0) :
    releasesOf (CompressFile c env a) =
      releaseOrder (CompressFile c env a).state c.kNumEngines a.iterations ∧
    allocationsOf (CompressFile c env a) =
      allocationOrder (CompressFile c env a).state c.kNumEngines a.iterations ∧
    (releasesOf (CompressFile c env a)).Perm (allocationsOf (CompressFile c env a)) ∧
    ((releasesOf (CompressFile c env a)).map slotKey).Nodup ∧
    (∀ x ∈ releasesOf (CompressFile c env a), x.1.pooled = true → x.2.2.1 < 3) ∧
    (allocatedIn (CompressFile c env a).state.trace).Nodup ∧
    (∀ p ∈ allocatedIn (CompressFile c env a).state.trace,
      (releasedIn (CompressFile c env a).state.trace).count p = 1) ∧
    (∀ eng i, eng < c.kNumEngines → i < min a.iterations 3 →
      ∀ p ∈ ((CompressFile c env a).state.kinfo eng i).pointers,
        (releasedIn (CompressFile c env a).state.trace).count p = 1) ∧
    (∀ p ∈ releasedIn (CompressFile c env a).state.trace, p ≠ 0 →
      p ∈ allocatedIn (CompressFile c env a).state.trace) ∧
    liveAt (CompressFile c env a).state.trace = [] := by
  obtain ⟨hA, hR, hN, hP⟩ := success_ledger c env a h
  have hperm : (releasesOf (CompressFile c env a)).Perm (allocationsOf (CompressFile c env a)) := by
    unfold releasesOf allocationsOf
    rw [hA, hR]
    exact releaseOrder_perm _ _ _
  have hcount : ∀ p, p ≠ 0 → (releasedIn (CompressFile c env a).state.trace).count p =
      (allocatedIn (CompressFile c env a).state.trace).count p :=
    fun p hp => released_count _ hperm p hp
  have hnz : ∀ p ∈ allocatedIn (CompressFile c env a).state.trace, p ≠ 0 := by
    intro p hp
    rw [allocatedIn_eq, List.mem_filter] at hp
    simpa using hp.2
  have hone : ∀ p ∈ allocatedIn (CompressFile c env a).state.trace,
      (releasedIn (CompressFile c env a).state.trace).count p = 1 := by
    intro p hp
    rw [hcount p (hnz p hp)]
    exact List.count_eq_one_of_mem hN hp
  refine ⟨hR, hA, hperm, ?_, ?_, hN, hone, ?_, ?_, ?_⟩
  · exact ((hperm.map slotKey).nodup_iff).2 (by
      unfold allocationsOf
      rw [hA]
      exact allocationOrder_keys _ _ _)
  · intro x hx hp
    have hx' := (hperm.mem_iff).1 hx
    unfold allocationsOf at hx'
    rw [hA] at hx'
    exact allocationOrder_pooled _ _ _ x hx' hp
  · intro eng i he hi p hp
    have hi1 : i < a.iterations := by omega
    have hi3 : i < 3 := by omega
    have hp0 := hP eng i he hi1 hi3 p hp
    refine hone p ?_
    rw [allocatedIn_eq, hA, List.mem_filter]
    refine ⟨?_, by simpa using hp0⟩
    rw [List.mem_map]
    simp only [KernelInfo.pointers, List.mem_cons, List.mem_singleton, List.not_mem_nil,
      or_false] at hp
    have hslot : ∀ x ∈ slotAllocations ((CompressFile c env a).state.kinfo eng i) eng i,
        x ∈ allocationOrder (CompressFile c env a).state c.kNumEngines a.iterations := by
      intro x hx
      unfold allocationOrder
      refine List.mem_cons_of_mem _ (List.mem_flatMap.2 ⟨eng, List.mem_range.2 he, ?_⟩)
      unfold engineAllocations
      exact List.mem_cons_of_mem _ (List.mem_flatMap.2 ⟨i, List.mem_range.2 hi1, hx⟩)
    rcases hp with hp | hp | hp | hp | hp
    · exact ⟨(Buf.poutput_buffer, eng, i, p), hslot _ (by simp [slotAllocations, hi3, hp]), rfl⟩
    · exact ⟨(Buf.pibuf, eng, i, p), hslot _ (by simp [slotAllocations, hi3, hp]), rfl⟩
    · exact ⟨(Buf.pobuf, eng, i, p), hslot _ (by simp [slotAllocations, hi3, hp]), rfl⟩
    · exact ⟨(Buf.gzip_out_buf, eng, i, p), hslot _ (by simp [slotAllocations, hi3, hp]), rfl⟩
    · exact ⟨(Buf.current_crc, eng, i, p), hslot _ (by simp [slotAllocations, hi3, hp]), rfl⟩
  · intro p hp hp0
    have := hcount p hp0
    by_contra hne
    rw [List.count_eq_zero.2 hne] at this
    exact (List.count_eq_zero.1 this) hp
  · unfold liveAt
    rw [List.filter_eq_nil_iff]
    intro p hp
    have h1 := hone p hp
    have : p ∈ releasedIn (CompressFile c env a).state.trace := by
      by_contra hne
      rw [List.count_eq_zero.2 hne] at h1
      cases h1
    simpa using this

/-- Witness of C11: the sample run (two engines, four iterations) returns 0,
its releases are its allocations in another order, and nothing allocated is
left. -/
theorem C11_released_once_witness :
    (CompressFile sampleConsts sampleEnv sampleArgs).code = some 0 ∧
    (releasesOf (CompressFile sampleConsts sampleEnv sampleArgs)).Perm
      (allocationsOf (CompressFile sampleConsts sampleEnv sampleArgs)) ∧
    liveAt (CompressFile sampleConsts sampleEnv sampleArgs).state.trace = [] :=
  ⟨by decide!, (C11_released_once sampleConsts sampleEnv sampleArgs (by decide!)).2.2.1,
    (C11_released_once sampleConsts sampleEnv sampleArgs (by decide!)).2.2.2.2.2.2.2.2.2⟩

end Gzip
